import Mathlib

/-!
# Screen Highlighter overlay: text annotation engine and overlay session

Shallow embedding of `src/main.cpp`: the text-mode part of `OverlayWndProc`
(the `WM_KEYDOWN` switch entered when `text_input_mode` is set),
`AddImageElement` and `CheckClipboardForImage`; the whole of `OverlayWndProc`
with `ShowOverlay`, `CaptureZoomRegion` and `CleanupZoomResources` on the
overlay globals; `CaptureScreenRegion`; and the text walks of `DrawOverlay`.

Conventions of the embedding.

* `std::wstring` is a `List Char`; `int` globals are `Int` (buffer lengths stay
  far below `2^31`, so no wrap-around is involved).
* The index overloads of `std::wstring::insert`, `erase` and `substr` throw
  `std::out_of_range` when the position exceeds the size; the embedding returns
  `none` there.
* `zoom_text[i]` is defined for `0 ≤ i ≤ size()` (the terminator at `size()`);
  outside of that range the C++ behaviour is undefined. There the embedding
  reads the terminator past the end and runs no iteration of a loop started at
  a negative index. Statements that read characters carry the caret range as a
  hypothesis.
* The outcome of operating-system calls is an explicit `Env` argument.
-/

namespace Highlighter

/-! ## Strings -/

/-- The wide-string terminator `L'\0'`. -/
def NUL : Char := Char.ofNat 0

/-- The line separator `L'\n'`. -/
def NL : Char := Char.ofNat 10

/-- The blank `L' '`. -/
def SP : Char := Char.ofNat 32

/-- Call `t.insert(pos, str)`: throws when `pos > t.size()`. -/
def wstr_insert (t : List Char) (pos : Int) (str : List Char) : Option (List Char) :=
  if 0 ≤ pos ∧ pos ≤ (t.length : Int) then
    some (t.take pos.toNat ++ str ++ t.drop pos.toNat)
  else none

/-- Call `t.erase(pos, n)`: throws when `pos > t.size()`; a negative `int` count
converts to a huge `size_t` and erases to the end. -/
def wstr_erase (t : List Char) (pos : Int) (n : Int) : Option (List Char) :=
  if 0 ≤ pos ∧ pos ≤ (t.length : Int) then
    some (t.take pos.toNat ++
      t.drop (pos.toNat + (if n < 0 then t.length else n.toNat)))
  else none

/-- Call `t.substr(pos, n)`: throws when `pos > t.size()`. -/
def wstr_substr (t : List Char) (pos : Int) (n : Int) : Option (List Char) :=
  if 0 ≤ pos ∧ pos ≤ (t.length : Int) then
    some ((t.drop pos.toNat).take (if n < 0 then t.length else n.toNat))
  else none

/-- What `wcscpy_s` / `std::wstring(const wchar_t*)` read from a buffer: the
characters before the first terminator. -/
def cstr (t : List Char) : List Char := t.takeWhile (fun c => c != NUL)

/-- The loop `while (pos > 0 && p(zoom_text[pos - 1])) pos--;`. -/
def scanBack (p : Char → Bool) (t : List Char) : Nat → Nat
  | 0 => 0
  | n + 1 => if p (t.getD n NUL) then scanBack p t n else n + 1

/-- The loop `while (pos < length && p(zoom_text[pos])) pos++;`, the first
argument bounding the number of iterations. -/
def scanFwd (p : Char → Bool) (t : List Char) : Nat → Nat → Nat
  | 0, pos => pos
  | fuel + 1, pos =>
    if pos < t.length ∧ p (t.getD pos NUL) = true then scanFwd p t fuel (pos + 1) else pos

/-- Backward loop started at an `int` position; it does not run when
`pos > 0` fails. -/
def scanBackI (p : Char → Bool) (t : List Char) (pos : Int) : Int :=
  if pos ≤ 0 then pos else (scanBack p t pos.toNat : Nat)

/-- Forward loop started at an `int` position: at most `length - pos`
iterations can run. A negative start would index before the buffer (undefined
in C++); no iteration is modelled for it. -/
def scanFwdI (p : Char → Bool) (t : List Char) (pos : Int) : Int :=
  if pos < 0 then pos else (scanFwd p t (t.length - pos.toNat) pos.toNat : Nat)

/-- Loop test `c != '\n'`. -/
def notNL (c : Char) : Bool := c != NL

/-- Loop test `c == ' ' || c == '\n'`. -/
def isBlank (c : Char) : Bool := c == SP || c == NL

/-- Loop test `c != ' ' && c != '\n'`. -/
def notBlank (c : Char) : Bool := c != SP && c != NL

/-! ## State -/

/-- The `BITMAP` header fields read by `AddImageElement`. -/
structure Bitmap where
  bmWidth : Int
  bmHeight : Int
deriving DecidableEq

/-- The system clipboard: its `CF_UNICODETEXT` content and its bitmap content
(`CF_BITMAP`, `CF_DIB` and `CF_DIBV5` are synthesised from one another by the
system, so one field stands for the three formats). -/
structure Clipboard where
  text : Option (List Char)
  bitmap : Option Bitmap
deriving DecidableEq

/-- Outcome of the operating-system calls made while one event is handled. -/
structure Env where
  /-- First `OpenClipboard` call of the event succeeds. -/
  openClipboard : Bool
  /-- Second `OpenClipboard` call of the event succeeds. -/
  reopenClipboard : Bool
  /-- Whether `GlobalAlloc` succeeds. -/
  globalAlloc : Bool
  /-- Whether `GetClipboardData(CF_BITMAP)`, `GetDC`, the first `CreateCompatibleDC`
  and `GetObject` succeed. -/
  gdiAcquire : Bool
  /-- Whether `CreateCompatibleBitmap` succeeds. -/
  createBitmap : Bool
  /-- The second `CreateCompatibleDC` and `BitBlt` succeed. -/
  blit : Bool
deriving DecidableEq

/-- Every operating-system call succeeds. -/
def Env.allOk : Env := ⟨true, true, true, true, true, true⟩

/-- The text globals of `main.cpp` together with the clipboard. An entry of
`clipboard_images` is `none` for a `ScopedBitmap` that holds no handle. -/
structure TextState where
  zoom_text : List Char
  text_cursor_pos : Int
  text_selection_start : Int
  text_selection_end : Int
  text_selection_active : Bool
  clipboard_images : List (Option Bitmap)
  clipboard : Clipboard
deriving DecidableEq

/-- The text globals as initialised at program start. -/
def TextState.init (cb : Clipboard) : TextState :=
  { zoom_text := [], text_cursor_pos := 0, text_selection_start := -1,
    text_selection_end := -1, text_selection_active := false,
    clipboard_images := [], clipboard := cb }

/-- Length of the buffer as `static_cast<int>(zoom_text.length())`. -/
def TextState.len (s : TextState) : Int := (s.zoom_text.length : Int)

/-- The three stores that cancel the selection. -/
def TextState.clearSelection (s : TextState) : TextState :=
  { s with text_selection_active := false, text_selection_start := -1,
           text_selection_end := -1 }

/-- The statement pair `zoom_text.insert(text_cursor_pos, 1, c); text_cursor_pos++`. -/
def TextState.insertChar (s : TextState) (c : Char) : Option TextState :=
  (wstr_insert s.zoom_text s.text_cursor_pos [c]).map fun t =>
    { s with zoom_text := t, text_cursor_pos := s.text_cursor_pos + 1 }

/-! ## Virtual-key codes

The codes of `<winuser.h>` that the handler compares `wParam` with. -/

/-- Backspace. -/
def VK_BACK : Nat := 0x08

/-- Enter. -/
def VK_RETURN : Nat := 0x0D

/-- Escape. -/
def VK_ESCAPE : Nat := 0x1B

/-- End. -/
def VK_END : Nat := 0x23

/-- Home. -/
def VK_HOME : Nat := 0x24

/-- Left arrow. -/
def VK_LEFT : Nat := 0x25

/-- Up arrow. -/
def VK_UP : Nat := 0x26

/-- Right arrow. -/
def VK_RIGHT : Nat := 0x27

/-- Down arrow. -/
def VK_DOWN : Nat := 0x28

/-- Delete. -/
def VK_DELETE : Nat := 0x2E

/-- Function key F1. -/
def VK_F1 : Nat := 0x70

/-- Function key F2. -/
def VK_F2 : Nat := 0x71

/-- Function key F3. -/
def VK_F3 : Nat := 0x72

/-- Function key F4. -/
def VK_F4 : Nat := 0x73

/-- Letter key `'A'`. -/
def KEY_A : Nat := 65

/-- Letter key `'C'`. -/
def KEY_C : Nat := 67

/-- Letter key `'T'`. -/
def KEY_T : Nat := 84

/-- Letter key `'V'`. -/
def KEY_V : Nat := 86

/-- Letter key `'X'`. -/
def KEY_X : Nat := 88

/-- Letter key `'Z'`. -/
def KEY_Z : Nat := 90

/-! ## Text-mode key handling (`OverlayWndProc`, `WM_KEYDOWN`, text branch) -/

/-- Branch `case VK_BACK`. -/
def key_VK_BACK (ctrl : Bool) (s : TextState) : Option TextState :=
  if ctrl then
    if s.zoom_text ≠ [] ∧ 0 < s.text_cursor_pos then
      let pos := s.text_cursor_pos
      let startPos := scanBackI isBlank s.zoom_text pos
      let startPos := scanBackI notBlank s.zoom_text startPos
      if startPos < pos then
        (wstr_erase s.zoom_text startPos (pos - startPos)).map fun t =>
          { s with zoom_text := t, text_cursor_pos := startPos }
      else some s
    else some s
  else
    if s.zoom_text ≠ [] ∧ 0 < s.text_cursor_pos then
      (wstr_erase s.zoom_text (s.text_cursor_pos - 1) 1).map fun t =>
        { s with zoom_text := t, text_cursor_pos := s.text_cursor_pos - 1 }
    else some s

/-- Branch `case VK_LEFT`. -/
def key_VK_LEFT (shift : Bool) (s : TextState) : TextState :=
  if 0 < s.text_cursor_pos then
    let s1 :=
      if shift then
        if ¬ s.text_selection_active then
          { s with text_selection_start := s.text_cursor_pos,
                   text_selection_end := s.text_cursor_pos - 1,
                   text_selection_active := true }
        else { s with text_selection_end := s.text_cursor_pos - 1 }
      else s.clearSelection
    { s1 with text_cursor_pos := s1.text_cursor_pos - 1 }
  else s

/-- Branch `case VK_RIGHT`. -/
def key_VK_RIGHT (shift : Bool) (s : TextState) : TextState :=
  if s.text_cursor_pos < s.len then
    let s1 :=
      if shift then
        if ¬ s.text_selection_active then
          { s with text_selection_start := s.text_cursor_pos,
                   text_selection_end := s.text_cursor_pos + 1,
                   text_selection_active := true }
        else { s with text_selection_end := s.text_cursor_pos + 1 }
      else s.clearSelection
    { s1 with text_cursor_pos := s1.text_cursor_pos + 1 }
  else s

/-- The block `if (!text_selection_active) { text_selection_start = text_cursor_pos;
text_selection_active = true; }` that opens the Shift branches. -/
def TextState.anchorSelection (s : TextState) : TextState :=
  if ¬ s.text_selection_active then
    { s with text_selection_start := s.text_cursor_pos, text_selection_active := true }
  else s

/-- Branch `case VK_HOME`. -/
def key_VK_HOME (ctrl shift : Bool) (s : TextState) : TextState :=
  if ctrl ∧ shift then
    let s1 := s.anchorSelection
    { s1 with text_selection_end := 0, text_cursor_pos := 0 }
  else if ctrl then
    { s with text_cursor_pos := 0 }.clearSelection
  else if shift then
    let s1 := s.anchorSelection
    let pos := scanBackI notNL s1.zoom_text s1.text_cursor_pos
    { s1 with text_selection_end := pos, text_cursor_pos := pos }
  else
    let pos := scanBackI notNL s.zoom_text s.text_cursor_pos
    { s with text_cursor_pos := pos }.clearSelection

/-- Branch `case VK_END`. -/
def key_VK_END (ctrl shift : Bool) (s : TextState) : TextState :=
  if ctrl ∧ shift then
    let s1 := s.anchorSelection
    { s1 with text_selection_end := s1.len, text_cursor_pos := s1.len }
  else if ctrl then
    { s with text_cursor_pos := s.len }.clearSelection
  else if shift then
    let s1 := s.anchorSelection
    let pos := scanFwdI notNL s1.zoom_text s1.text_cursor_pos
    { s1 with text_selection_end := pos, text_cursor_pos := pos }
  else
    let pos := scanFwdI notNL s.zoom_text s.text_cursor_pos
    { s with text_cursor_pos := pos }.clearSelection

/-- The target computation shared verbatim by the three `VK_UP` branches:
`none` when `currentLineStart > 0` fails, else `targetPos`. -/
def upTarget (t : List Char) (pos : Int) : Option Int :=
  let currentLineStart := scanBackI notNL t pos
  if 0 < currentLineStart then
    let prevLineStart := scanBackI notNL t (currentLineStart - 1)
    some (prevLineStart + min (pos - currentLineStart) (currentLineStart - prevLineStart - 1))
  else none

/-- The target computation shared verbatim by the three `VK_DOWN` branches:
`none` when `currentLineEnd < length` fails, else `targetPos`. -/
def downTarget (t : List Char) (pos : Int) : Option Int :=
  let currentLineStart := scanBackI notNL t pos
  let currentLineEnd := scanFwdI notNL t pos
  if currentLineEnd < (t.length : Int) then
    let nextLineStart := currentLineEnd + 1
    let nextLineEnd := scanFwdI notNL t nextLineStart
    some (nextLineStart + min (pos - currentLineStart) (nextLineEnd - nextLineStart))
  else none

/-- Branch `case VK_UP`. -/
def key_VK_UP (ctrl shift : Bool) (s : TextState) : TextState :=
  if ctrl then
    match upTarget s.zoom_text s.text_cursor_pos with
    | some targetPos => { s with text_cursor_pos := targetPos }.clearSelection
    | none => s
  else if shift then
    let s1 := s.anchorSelection
    match upTarget s1.zoom_text s1.text_cursor_pos with
    | some targetPos => { s1 with text_cursor_pos := targetPos, text_selection_end := targetPos }
    | none => s1
  else
    match upTarget s.zoom_text s.text_cursor_pos with
    | some targetPos => { s with text_cursor_pos := targetPos }.clearSelection
    | none => s

/-- Branch `case VK_DOWN`. The last branch (plain Down) stores the target in
`text_selection_end` and does not touch `text_selection_active`, as the source
does. -/
def key_VK_DOWN (ctrl shift : Bool) (s : TextState) : TextState :=
  if ctrl then
    match downTarget s.zoom_text s.text_cursor_pos with
    | some targetPos => { s with text_cursor_pos := targetPos }.clearSelection
    | none => s
  else if shift then
    let s1 := s.anchorSelection
    match downTarget s1.zoom_text s1.text_cursor_pos with
    | some targetPos => { s1 with text_cursor_pos := targetPos, text_selection_end := targetPos }
    | none => s1
  else
    match downTarget s.zoom_text s.text_cursor_pos with
    | some targetPos => { s with text_cursor_pos := targetPos, text_selection_end := targetPos }
    | none => s

/-- Branch `case VK_DELETE`. -/
def key_VK_DELETE (ctrl : Bool) (s : TextState) : Option TextState :=
  if ctrl then
    if s.zoom_text ≠ [] ∧ s.text_cursor_pos < s.len then
      let pos := s.text_cursor_pos
      let endPos := scanFwdI notBlank s.zoom_text pos
      let endPos := scanFwdI isBlank s.zoom_text endPos
      if pos < endPos then
        (wstr_erase s.zoom_text pos (endPos - pos)).map fun t => { s with zoom_text := t }
      else some s
    else some s
  else
    if s.zoom_text ≠ [] ∧ s.text_cursor_pos < s.len then
      (wstr_erase s.zoom_text s.text_cursor_pos 1).map fun t => { s with zoom_text := t }
    else some s

/-- The effect of `EmptyClipboard`. -/
def Clipboard.empty : Clipboard := ⟨none, none⟩

/-- The block `GlobalAlloc` / `wcscpy_s` / `SetClipboardData(CF_UNICODETEXT, hMem)`
run on an emptied clipboard; nothing is stored when the allocation fails. -/
def setClipboardText (env : Env) (txt : List Char) : Clipboard :=
  if env.globalAlloc then { Clipboard.empty with text := some (cstr txt) } else Clipboard.empty

/-- Branch `case 'C'`. -/
def key_C (env : Env) (ctrl shift : Bool) (s : TextState) : Option TextState :=
  if ctrl then
    if s.zoom_text ≠ [] ∧ env.openClipboard = true then
      let textToCopy : Option (List Char) :=
        if s.text_selection_active then
          let start := min s.text_selection_start s.text_selection_end
          let end_ := max s.text_selection_start s.text_selection_end
          if 0 ≤ start ∧ end_ < s.len ∧ start < end_ then
            wstr_substr s.zoom_text start (end_ - start)
          else some []
        else some s.zoom_text
      textToCopy.map fun txt =>
        if txt ≠ [] then { s with clipboard := setClipboardText env txt }
        else { s with clipboard := Clipboard.empty }
    else some s
  else s.insertChar (if shift then Char.ofNat 67 else Char.ofNat 99)

/-- Branch `case 'X'`. -/
def key_X (env : Env) (ctrl shift : Bool) (s : TextState) : Option TextState :=
  if ctrl then
    if s.text_selection_active = true ∧ s.zoom_text ≠ [] then
      let start := min s.text_selection_start s.text_selection_end
      let end_ := max s.text_selection_start s.text_selection_end
      if 0 ≤ start ∧ end_ < s.len ∧ start < end_ then
        (wstr_substr s.zoom_text start (end_ - start)).bind fun textToCut =>
          if env.openClipboard then
            (wstr_erase s.zoom_text start (end_ - start)).map fun t =>
              { s with clipboard := setClipboardText env textToCut,
                       zoom_text := t, text_cursor_pos := start,
                       text_selection_active := false }
          else some s
      else some s
    else some s
  else s.insertChar (if shift then Char.ofNat 88 else Char.ofNat 120)

/-- Function `CheckClipboardForImage`. -/
def CheckClipboardForImage (env : Env) (s : TextState) : Bool :=
  env.openClipboard && s.clipboard.bitmap.isSome

/-- The loop `for (i = 0; i < textLines; i++) { zoom_text.insert(text_cursor_pos, L"\n");
text_cursor_pos++; }` on the pair (buffer, caret). -/
def insertNewlines : Nat → List Char → Int → Option (List Char × Int)
  | 0, t, c => some (t, c)
  | n + 1, t, c => (wstr_insert t c [NL]).bind fun t1 => insertNewlines n t1 (c + 1)

/-- Output of `swprintf_s(markerBuffer, L"[IMAGE_%d]", imageIndex)`. -/
def imageMarker (imageIndex : Int) : List Char :=
  "[IMAGE_".toList ++ (toString imageIndex).toList ++ "]".toList

/-- Function `AddImageElement`, called by the paste branch after
`CheckClipboardForImage` (so its `OpenClipboard` is the second call of the
event). The result is the returned flag and the new state; `none` stands for the
`std::out_of_range` of `insert` and for `clipboard_images.back()` on an empty
vector. -/
def AddImageElement (env : Env) (s : TextState) : Option (Bool × TextState) :=
  if ¬ env.reopenClipboard then some (false, s)
  else
    match s.clipboard.bitmap with
    | none => some (false, s)
    | some bm =>
      if ¬ env.gdiAcquire then some (false, s)
      else if 0 < bm.bmWidth ∧ 0 < bm.bmHeight ∧ bm.bmWidth ≤ 2000 ∧ bm.bmHeight ≤ 2000 then
        if ¬ env.createBitmap then some (false, s)
        else if env.blit then
          let images := s.clipboard_images ++ [some bm]
          let imageIndex : Int := (images.length : Int) - 1
          let marker := imageMarker imageIndex
          let markerLen : Int := (marker.length : Int)
          let inserted : Option (List Char × Int) :=
            if 0 < markerLen then
              (wstr_insert s.zoom_text s.text_cursor_pos marker).map fun t =>
                (t, s.text_cursor_pos + markerLen)
            else some (s.zoom_text, s.text_cursor_pos)
          inserted.bind fun tc =>
            let imageHeight := bm.bmHeight
            let lineHeight : Int := 20
            let totalLines := (imageHeight + lineHeight - 1) / lineHeight
            let textLines := max 0 (totalLines - 6)
            (insertNewlines textLines.toNat tc.1 tc.2).map fun tc2 =>
              (true, { s with clipboard_images := images, zoom_text := tc2.1,
                              text_cursor_pos := tc2.2 })
        else
          match s.clipboard_images with
          | [] => none
          | _ :: _ => some (false, { s with clipboard_images :=
                                      s.clipboard_images.dropLast ++ [none] })
      else some (false, s)

/-- The literal `L"[ERROR IMAGEN]"`. -/
def errorMarker : List Char := "[ERROR IMAGEN]".toList

/-- Branch `case 'V'`. -/
def key_V (env : Env) (ctrl shift : Bool) (s : TextState) : Option TextState :=
  if ctrl then
    if CheckClipboardForImage env s then
      (AddImageElement env s).bind fun r =>
        if r.1 then some r.2
        else
          (wstr_insert r.2.zoom_text r.2.text_cursor_pos errorMarker).map fun t =>
            { r.2 with zoom_text := t, text_cursor_pos := r.2.text_cursor_pos + 15 }
    else
      if env.reopenClipboard then
        match s.clipboard.text with
        | some pszText =>
          let clipboardText := cstr pszText
          (wstr_insert s.zoom_text s.text_cursor_pos clipboardText).map fun t =>
            { s with zoom_text := t,
                     text_cursor_pos := s.text_cursor_pos + (clipboardText.length : Int) }
        | none => some s
      else some s
  else s.insertChar (if shift then Char.ofNat 86 else Char.ofNat 118)

/-- Branch `case 'A'`. -/
def key_A (ctrl shift : Bool) (s : TextState) : Option TextState :=
  if ctrl then
    some { s with text_selection_start := 0, text_selection_end := s.len,
                  text_selection_active := true, text_cursor_pos := s.len }
  else s.insertChar (if shift then Char.ofNat 65 else Char.ofNat 97)

/-- Branch `case 'Z'` of the text switch. -/
def key_Z (ctrl shift : Bool) (s : TextState) : Option TextState :=
  if ctrl then some s.clearSelection
  else s.insertChar (if shift then Char.ofNat 90 else Char.ofNat 122)

/-- The character chosen by the `default:` branch for a key code `wParam >= 32`
(the inner `switch` on the OEM keys, else `(wchar_t)wParam` lowered when Shift is
up). Virtual-key codes are below 256, so `(wchar_t)wParam` is a code point. -/
def keyChar (wParam : Nat) (shift : Bool) : Char :=
  if wParam = 186 then (if shift then Char.ofNat 58 else Char.ofNat 59)
  else if wParam = 188 then (if shift then Char.ofNat 60 else Char.ofNat 44)
  else if wParam = 190 then (if shift then Char.ofNat 62 else Char.ofNat 46)
  else if wParam = 191 then (if shift then Char.ofNat 63 else Char.ofNat 47)
  else if wParam = 192 then (if shift then Char.ofNat 126 else Char.ofNat 96)
  else if wParam = 219 then (if shift then Char.ofNat 123 else Char.ofNat 91)
  else if wParam = 220 then (if shift then Char.ofNat 124 else Char.ofNat 92)
  else if wParam = 221 then (if shift then Char.ofNat 125 else Char.ofNat 93)
  else if wParam = 222 then (if shift then Char.ofNat 34 else Char.ofNat 39)
  else if wParam = 189 then (if shift then Char.ofNat 95 else Char.ofNat 45)
  else if wParam = 187 then (if shift then Char.ofNat 43 else Char.ofNat 61)
  else
    let character := wParam % 65536
    if ¬ shift ∧ 65 ≤ character ∧ character ≤ 90 then Char.ofNat (character + 32)
    else Char.ofNat character

/-- Branch `default:`; its second arm (`else if (wParam >= 128)`) can never run,
being the `else` of `wParam >= 32`. -/
def key_default (wParam : Nat) (shift : Bool) (s : TextState) : Option TextState :=
  if 32 ≤ wParam then s.insertChar (keyChar wParam shift) else some s

/-- The text branch of `WM_KEYDOWN` (`else if (text_input_mode.load())`) projected
on the text globals: F1-F4 leave them alone (they switch to a drawing tool),
every other key goes through the `switch (wParam)`. `ctrl` and `shift` are the
high bits of `GetKeyState(VK_CONTROL)` and `GetKeyState(VK_SHIFT)`. -/
def textKeyDown (env : Env) (wParam : Nat) (ctrl shift : Bool) (s : TextState) :
    Option TextState :=
  if wParam = VK_F1 ∨ wParam = VK_F2 ∨ wParam = VK_F3 ∨ wParam = VK_F4 then some s
  else if wParam = VK_RETURN then s.insertChar NL
  else if wParam = VK_BACK then key_VK_BACK ctrl s
  else if wParam = VK_LEFT then some (key_VK_LEFT shift s)
  else if wParam = VK_RIGHT then some (key_VK_RIGHT shift s)
  else if wParam = VK_HOME then some (key_VK_HOME ctrl shift s)
  else if wParam = VK_END then some (key_VK_END ctrl shift s)
  else if wParam = VK_UP then some (key_VK_UP ctrl shift s)
  else if wParam = VK_DOWN then some (key_VK_DOWN ctrl shift s)
  else if wParam = VK_DELETE then key_VK_DELETE ctrl s
  else if wParam = KEY_C then key_C env ctrl shift s
  else if wParam = KEY_X then key_X env ctrl shift s
  else if wParam = KEY_V then key_V env ctrl shift s
  else if wParam = KEY_A then key_A ctrl shift s
  else if wParam = KEY_Z then key_Z ctrl shift s
  else key_default wParam shift s

/-- Effect of `CaptureZoomRegion` on the text globals once its device contexts
and bitmap exist (the early `return`s leave them untouched): the buffer is
cleared and the caret reset; the selection globals are not written. -/
def CaptureZoomRegion_text (s : TextState) : TextState :=
  { s with zoom_text := [], text_cursor_pos := 0 }

/-- Effect of `CleanupZoomResources` on the text globals. -/
def CleanupZoomResources_text (s : TextState) : TextState :=
  { s with zoom_text := [], text_cursor_pos := 0, text_selection_active := false,
           text_selection_start := -1, text_selection_end := -1,
           clipboard_images := [] }

/-- One key press in text mode: key code, modifier state and the outcome of the
system calls it triggers. -/
structure KeyPress where
  env : Env
  wParam : Nat
  ctrl : Bool
  shift : Bool
deriving DecidableEq

/-- Events that act on the text globals. -/
inductive TextEvent where
  | key (k : KeyPress)
  | capture
  | cleanup
  | clipboardSet (cb : Clipboard)
deriving DecidableEq

/-- Keys consumed by the branches of `WM_KEYDOWN` that come before the text
branch: F1-F4, Escape, Ctrl+Z, Ctrl+Enter and Ctrl+T. They never reach the text
`switch`. Of these only Escape and Ctrl+Z can touch the text globals, by calling
`CleanupZoomResources` (the event `cleanup`). -/
def takenBeforeTextBranch (wParam : Nat) (ctrl : Bool) : Bool :=
  wParam == VK_F1 || wParam == VK_F2 || wParam == VK_F3 || wParam == VK_F4 ||
  wParam == VK_ESCAPE || (wParam == KEY_Z && ctrl) || (wParam == VK_RETURN && ctrl) ||
  (wParam == KEY_T && ctrl)

/-- Effect of one event on the text globals. A key press is one delivered while
`text_input_mode` is set; `capture` is a `CaptureZoomRegion` call that gets past
its early returns (mouse wheel with zoom inactive); `cleanup` is a
`CleanupZoomResources` call (Escape, Ctrl+Z, session end); `clipboardSet` is
another process replacing the clipboard content. -/
def TextEvent.apply (e : TextEvent) (s : TextState) : Option TextState :=
  match e with
  | .key k =>
    if takenBeforeTextBranch k.wParam k.ctrl then some s
    else textKeyDown k.env k.wParam k.ctrl k.shift s
  | .capture => some (CaptureZoomRegion_text s)
  | .cleanup => some (CleanupZoomResources_text s)
  | .clipboardSet cb => some { s with clipboard := cb }

/-- Run a list of events from a state, stopping at the first exception. -/
def runEvents : List TextEvent → TextState → Option TextState
  | [], s => some s
  | e :: es, s => (e.apply s).bind (runEvents es)

/-- A plain key press with every system call succeeding. -/
def press (wParam : Nat) : TextEvent := .key ⟨Env.allOk, wParam, false, false⟩

/-- A key press with Ctrl held. -/
def pressCtrl (wParam : Nat) : TextEvent := .key ⟨Env.allOk, wParam, true, false⟩

/-- A key press with Shift held. -/
def pressShift (wParam : Nat) : TextEvent := .key ⟨Env.allOk, wParam, false, true⟩

/-- States reachable from the initial text globals by the events. -/
inductive Reachable : TextState → Prop where
  | init (cb : Clipboard) : Reachable (TextState.init cb)
  | step {s s1 : TextState} (e : TextEvent) : Reachable s → e.apply s = some s1 → Reachable s1

/-! ## Notions used to state the properties -/

/-- Offset `m` is where the maximal run of characters satisfying `p` that ends
right before offset `c` begins. -/
def MaxRunBack (p : Char → Bool) (t : List Char) (c m : Nat) : Prop :=
  m ≤ c ∧ (∀ i < c, m ≤ i → p (t.getD i NUL) = true) ∧
    (m = 0 ∨ p (t.getD (m - 1) NUL) = false)

/-- Offset `e` is where the maximal run of characters satisfying `p` that starts
at offset `c` stops. -/
def MaxRunFwd (p : Char → Bool) (t : List Char) (c e : Nat) : Prop :=
  c ≤ e ∧ e ≤ t.length ∧ (∀ i < e, c ≤ i → p (t.getD i NUL) = true) ∧
    (e = t.length ∨ p (t.getD e NUL) = false)

instance (p : Char → Bool) (t : List Char) (c m : Nat) : Decidable (MaxRunBack p t c m) := by
  unfold MaxRunBack; infer_instance

instance (p : Char → Bool) (t : List Char) (c e : Nat) : Decidable (MaxRunFwd p t c e) := by
  unfold MaxRunFwd; infer_instance

/-- Caret within the buffer. -/
def CaretInRange (s : TextState) : Prop :=
  0 ≤ s.text_cursor_pos ∧ s.text_cursor_pos ≤ s.len

/-- Both ends of the selection within the buffer. -/
def SelectionInRange (s : TextState) : Prop :=
  0 ≤ s.text_selection_start ∧ s.text_selection_start ≤ s.len ∧
    0 ≤ s.text_selection_end ∧ s.text_selection_end ≤ s.len

instance (s : TextState) : Decidable (CaretInRange s) := by
  unfold CaretInRange; infer_instance

instance (s : TextState) : Decidable (SelectionInRange s) := by
  unfold SelectionInRange; infer_instance

/-- A buffer with the caret at `c`, no selection and no image. -/
def plainText (t : String) (c : Int) (cb : Clipboard) : TextState :=
  { TextState.init cb with zoom_text := t.toList, text_cursor_pos := c }

/-- A buffer with the caret at `c` and the active selection `(a, b)`. -/
def selectedText (t : String) (c a b : Int) (cb : Clipboard) : TextState :=
  { plainText t c cb with text_selection_start := a, text_selection_end := b,
                          text_selection_active := true }

/-- The key presses h, e, l, l, o, Home, Shift+End. -/
def typeHelloSelect : List TextEvent :=
  [press 72, press 69, press 76, press 76, press 79, press VK_HOME, pressShift VK_END]

/-- The buffer "hello" with the caret at its end and the whole text selected,
as left by typing it and pressing Home, Shift+End. -/
def helloSelected (cb : Clipboard) : TextState :=
  selectedText "hello" 5 0 5 cb

/-- A clipboard that holds a bitmap of 3000 x 10 pixels, wider than the 2000
pixels `AddImageElement` accepts. -/
def wideImageClipboard : Clipboard := ⟨none, some ⟨3000, 10⟩⟩

/-- Some newline precedes offset `c`: the line holding `c` is not the first. -/
def hasPrevLine (t : List Char) (c : Nat) : Prop := ∃ i < c, t.getD i NUL = NL

/-- Some newline stands at or after offset `c`: the line holding `c` is not the
last. -/
def hasNextLine (t : List Char) (c : Nat) : Prop := ∃ i < t.length, c ≤ i ∧ t.getD i NUL = NL

instance (t : List Char) (c : Nat) : Decidable (hasPrevLine t c) := by
  unfold hasPrevLine; infer_instance

instance (t : List Char) (c : Nat) : Decidable (hasNextLine t c) := by
  unfold hasNextLine; infer_instance

/-- The six navigation keys of the text branch. -/
inductive NavKey where
  | left
  | right
  | up
  | down
  | home
  | endKey
deriving DecidableEq

/-- Virtual-key code of a navigation key. -/
def NavKey.code : NavKey → Nat
  | .left => VK_LEFT
  | .right => VK_RIGHT
  | .up => VK_UP
  | .down => VK_DOWN
  | .home => VK_HOME
  | .endKey => VK_END

/-- The key has somewhere to go: Left needs a character before the caret, Right
one after it, Up a previous line, Down a next line; Home and End always apply. -/
def NavKey.canMove (s : TextState) : NavKey → Prop
  | .left => 0 < s.text_cursor_pos
  | .right => s.text_cursor_pos < s.len
  | .up => hasPrevLine s.zoom_text s.text_cursor_pos.toNat
  | .down => hasNextLine s.zoom_text s.text_cursor_pos.toNat
  | .home => True
  | .endKey => True

instance (s : TextState) (k : NavKey) : Decidable (k.canMove s) := by
  cases k <;> unfold NavKey.canMove <;> infer_instance

/-- The caret is within the buffer and, when the selection is active, so are
both of its ends. -/
def SelectionInv (s : TextState) : Prop :=
  CaretInRange s ∧ (s.text_selection_active = true → SelectionInRange s)

instance (s : TextState) : Decidable (SelectionInv s) := by
  unfold SelectionInv; infer_instance

/-- Key presses after which the selection ends are known to stay within the
buffer: no character is deleted by Backspace / Delete (plain or with Ctrl) while
a selection is active, Shift+Up / Shift+Down do not open a selection on a line
that has no line to go to, and a pasted clipboard image is imported
successfully. -/
def KeyPress.guarded (k : KeyPress) (s : TextState) : Prop :=
  ((k.wParam = VK_BACK ∨ k.wParam = VK_DELETE) → s.text_selection_active = false) ∧
  (k.wParam = VK_UP ∧ k.ctrl = false ∧ k.shift = true ∧ s.text_selection_active = false →
    hasPrevLine s.zoom_text s.text_cursor_pos.toNat) ∧
  (k.wParam = VK_DOWN ∧ k.ctrl = false ∧ k.shift = true ∧ s.text_selection_active = false →
    hasNextLine s.zoom_text s.text_cursor_pos.toNat) ∧
  (k.wParam = KEY_V ∧ k.ctrl = true ∧ CheckClipboardForImage k.env s = true →
    (AddImageElement k.env s).map Prod.fst = some true)

instance (k : KeyPress) (s : TextState) : Decidable (k.guarded s) := by
  unfold KeyPress.guarded; infer_instance

/-- Events after which the selection ends are known to stay within the buffer:
guarded key presses, zoom capture while no selection is active, zoom teardown
and clipboard changes. -/
def TextEvent.guarded (e : TextEvent) (s : TextState) : Prop :=
  match e with
  | .key k => k.guarded s
  | .capture => s.text_selection_active = false
  | .cleanup => True
  | .clipboardSet _ => True

instance (e : TextEvent) (s : TextState) : Decidable (e.guarded s) :=
  match e with
  | .key k => inferInstanceAs (Decidable (k.guarded s))
  | .capture => inferInstanceAs (Decidable (s.text_selection_active = false))
  | .cleanup => inferInstanceAs (Decidable True)
  | .clipboardSet _ => inferInstanceAs (Decidable True)

/-- States reachable from the initial text globals by guarded events. -/
inductive ReachableGuarded : TextState → Prop where
  | init (cb : Clipboard) : ReachableGuarded (TextState.init cb)
  | step {s s1 : TextState} (e : TextEvent) :
      ReachableGuarded s → e.guarded s → e.apply s = some s1 → ReachableGuarded s1

/-- The key presses A, Ctrl+A, Backspace: select all, then delete a character. -/
def selectAllThenBackspace : List TextEvent :=
  [press 65, pressCtrl KEY_A, press VK_BACK]

/-- The key presses A, Ctrl+A followed by a zoom capture. -/
def selectAllThenCapture : List TextEvent :=
  [press 65, pressCtrl KEY_A, .capture]

/-- The key presses A, Shift+Up: Shift+Up on the only line. -/
def shiftUpOnFirstLine : List TextEvent :=
  [press 65, pressShift VK_UP]

/-- A clipboard change to a 3000 x 10 bitmap, then Ctrl+V (rejected import),
then Shift+Left. -/
def failedPasteThenShiftLeft : List TextEvent :=
  [.clipboardSet wideImageClipboard, pressCtrl KEY_V, pressShift VK_LEFT]

/-- The number a string of decimal digits stands for, read from the left. -/
def decimalValue (digits : List Char) : Nat :=
  digits.foldl (fun acc d => 10 * acc + (d.toNat - 48)) 0

/-- The string `digits` is the decimal numeral of `k`: at least one character,
only the digits 0-9, no leading zero except for the numeral "0" itself, and
the value `k`. -/
def IsDecimalOf (digits : List Char) (k : Nat) : Prop :=
  digits ≠ [] ∧ (∀ d ∈ digits, d.isDigit = true) ∧
    (digits.head? = some (Char.ofNat 48) → digits = [Char.ofNat 48]) ∧
    decimalValue digits = k

instance (digits : List Char) (k : Nat) : Decidable (IsDecimalOf digits k) := by
  unfold IsDecimalOf; infer_instance

/-- The text globals with the buffer "ab", the caret at 1, twelve stored images
and a 300 x 200 bitmap on the clipboard. -/
def twelveImages : TextState :=
  { TextState.init ⟨none, some ⟨300, 200⟩⟩ with
      zoom_text := "ab".toList, text_cursor_pos := 1,
      clipboard_images := List.replicate 12 (some ⟨10, 10⟩) }

/-! ## Overlay session state

The globals of `main.cpp` that `OverlayWndProc`, `ShowOverlay`,
`CaptureZoomRegion` and `CleanupZoomResources` read and write. Conventions:

* a `float` is the rational number it stands for (the scale factor only takes
  finite values); the rounded product of two floats is the field `fmul` of
  the `Platform`, so that every statement holds whatever the rounding is;
* coordinates are `Int`; region coordinates stay far below `2^31` (a region is
  committed within one screen width of the pointer or of an older region);
* the redraw flag `needsRedraw`, the caret blink flag and the never written
  `image_markers` are left out;
* `captureCalls` is not a global of the program: it counts the calls of
  `CaptureZoomRegion`, to state how often the screen is captured. -/

/-- Enumeration `DrawingTool`. -/
inductive DrawingTool where
  | None
  | Line
  | Arrow
  | Rectangle
  | Text
  | Highlighter
deriving DecidableEq

/-- Structure `DrawingElement`; `text` is the defaulted last constructor
argument. -/
structure DrawingElement where
  tool_type : DrawingTool
  x1 : Int
  y1 : Int
  x2 : Int
  y2 : Int
  color : Nat
  thickness : Int
  filled : Bool
  text : List Char
deriving DecidableEq

/-- Structure `ScreenRectangle`. -/
structure ScreenRectangle where
  x1 : Int
  y1 : Int
  x2 : Int
  y2 : Int
deriving DecidableEq

/-- What the machine contributes besides the message stream: the rounded
`float` product and the screen metrics `GetSystemMetrics(SM_CXSCREEN)`,
`GetSystemMetrics(SM_CYSCREEN)`. -/
structure Platform where
  fmul : ℚ → ℚ → ℚ
  screenWidth : Int
  screenHeight : Int

/-- The overlay globals. `hZoomedBitmap` holds the size of the snapshot bitmap
when there is one, `hZoomedDC` tells whether the memory DC is held, `text` are
the text globals and the clipboard. -/
structure OverlayState where
  overlay_active : Bool
  selection_mode : Bool
  start_x : Int
  start_y : Int
  end_x : Int
  end_y : Int
  zoom_factor : ℚ
  zoom_active : Bool
  zoom_center_x : Int
  zoom_center_y : Int
  hZoomedBitmap : Option Bitmap
  hZoomedDC : Bool
  text_input_mode : Bool
  text : TextState
  current_drawing_tool : DrawingTool
  drawing_color : Nat
  drawing_thickness : Int
  drawing_fill : Bool
  drawing_start_x : Int
  drawing_start_y : Int
  drawing_active : Bool
  screenshot_mode : Bool
  screenshot_start_x : Int
  screenshot_start_y : Int
  screenshot_end_x : Int
  screenshot_end_y : Int
  drawing_elements : List DrawingElement
  screenRectangles : List ScreenRectangle
  captureCalls : Nat

/-- The globals as initialised at program start (`drawing_color` is
`RGB(255, 0, 0)`). -/
def OverlayState.init (cb : Clipboard) : OverlayState :=
  { overlay_active := false, selection_mode := false,
    start_x := 0, start_y := 0, end_x := 0, end_y := 0,
    zoom_factor := 1, zoom_active := false, zoom_center_x := 0, zoom_center_y := 0,
    hZoomedBitmap := none, hZoomedDC := false,
    text_input_mode := false, text := TextState.init cb,
    current_drawing_tool := DrawingTool.None, drawing_color := 255,
    drawing_thickness := 3, drawing_fill := false,
    drawing_start_x := -1, drawing_start_y := -1, drawing_active := false,
    screenshot_mode := false, screenshot_start_x := -1, screenshot_start_y := -1,
    screenshot_end_x := -1, screenshot_end_y := -1,
    drawing_elements := [], screenRectangles := [], captureCalls := 0 }

/-- The literal `1.1f`: the binary32 number nearest to 1.1. -/
def F32_1_1 : ℚ := 9227469 / 8388608

/-- The literal `0.9f`: the binary32 number nearest to 0.9. -/
def F32_0_9 : ℚ := 15099494 / 16777216

/-- The value of `(int)(n * 0.2)` for `0 ≤ n < 2^31`: the `double` product is
at least `n / 5` and rounds to the integer when `n / 5` is one, so the cast
yields the integer part of `n / 5`. -/
def fifthOf (n : Int) : Int := n / 5

/-- How far a `CaptureZoomRegion` call gets: no screen DC, no memory DC, no
bitmap, or all of them with the `BitBlt` failing or succeeding. -/
inductive CaptureOutcome where
  | noScreenDC
  | noMemoryDC
  | noBitmap
  | blitFailed
  | ok
deriving DecidableEq

/-- Function `CaptureZoomRegion`. -/
def CaptureZoomRegion (pf : Platform) (out : CaptureOutcome) (rect : ScreenRectangle)
    (s : OverlayState) : OverlayState :=
  let s := { s with hZoomedBitmap := none, hZoomedDC := false,
                    captureCalls := s.captureCalls + 1 }
  match out with
  | .noScreenDC => s
  | .noMemoryDC => s
  | .noBitmap => { s with hZoomedDC := true }
  | _ =>
    let width := rect.x2 - rect.x1
    let height := rect.y2 - rect.y1
    let centerY := Int.tdiv pf.screenHeight 2
    let offsetY := fifthOf centerY
    { s with hZoomedDC := true, hZoomedBitmap := some ⟨width, height⟩,
             zoom_center_x := Int.tdiv (rect.x1 + rect.x2) 2,
             zoom_center_y := centerY - offsetY,
             text := CaptureZoomRegion_text s.text,
             text_input_mode := false }

/-- Function `CleanupZoomResources`. -/
def CleanupZoomResources (s : OverlayState) : OverlayState :=
  { s with hZoomedBitmap := none, hZoomedDC := false,
           zoom_active := false, zoom_factor := 1,
           text_input_mode := false,
           text := CleanupZoomResources_text s.text,
           drawing_elements := [], drawing_active := false,
           current_drawing_tool := DrawingTool.None,
           drawing_start_x := -1, drawing_start_y := -1 }

/-- The part of `ShowOverlay` that runs before its message loop, when the
overlay is not active yet. -/
def ShowOverlay_enter (s : OverlayState) : OverlayState :=
  { s with overlay_active := true, selection_mode := true, screenRectangles := [],
           start_x := -1, start_y := -1, end_x := -1, end_y := -1 }

/-- Effect of `CaptureScreenRegion(x1, y1, x2, y2)` on the clipboard: a bitmap of
the region shrunk by the 2-pixel border replaces the content when the region is
at least 5 x 5, the shrunk region is not empty and the clipboard opens. -/
def CaptureScreenRegion_clipboard (env : Env) (x1 y1 x2 y2 : Int) (cb : Clipboard) :
    Clipboard :=
  let left := min x1 x2
  let top := min y1 y2
  let right := max x1 x2
  let bottom := max y1 y2
  if right - left < 5 ∨ bottom - top < 5 then cb
  else
    let borderOffset : Int := 2
    let captureLeft := left + borderOffset
    let captureTop := top + borderOffset
    let captureRight := right - borderOffset
    let captureBottom := bottom - borderOffset
    if captureRight ≤ captureLeft ∨ captureBottom ≤ captureTop then cb
    else
      let width := captureRight - captureLeft
      let height := captureBottom - captureTop
      if env.openClipboard then ⟨none, some ⟨width, height⟩⟩ else cb

/-- Case `WM_LBUTTONDOWN`, with `x = LOWORD(lParam)` and `y = HIWORD(lParam)`. -/
def onLButtonDown (x y : Nat) (s : OverlayState) : OverlayState :=
  let px : Int := ((x % 65536 : Nat) : Int)
  let py : Int := ((y % 65536 : Nat) : Int)
  if s.screenshot_mode then
    { s with screenshot_start_x := px, screenshot_start_y := py,
             screenshot_end_x := px, screenshot_end_y := py }
  else if s.drawing_active then
    { s with drawing_start_x := px, drawing_start_y := py, end_x := px, end_y := py }
  else if s.selection_mode = true ∧ s.drawing_active = false then
    { s with start_x := px, start_y := py, end_x := px, end_y := py }
  else s

/-- Case `WM_MOUSEMOVE`. -/
def onMouseMove (x y : Nat) (s : OverlayState) : OverlayState :=
  let px : Int := ((x % 65536 : Nat) : Int)
  let py : Int := ((y % 65536 : Nat) : Int)
  if s.screenshot_mode = true ∧ s.screenshot_start_x ≠ -1 then
    { s with screenshot_end_x := px, screenshot_end_y := py }
  else if s.drawing_active = true ∧ s.drawing_start_x ≠ -1 then
    { s with end_x := px, end_y := py }
  else if s.selection_mode = true ∧ s.start_x ≠ -1 ∧ s.drawing_active = false then
    { s with end_x := px, end_y := py }
  else s

/-- The second half of case `WM_MOUSEWHEEL` ("aplicar cambio de zoom con
límites"): the new factor is stored, with the focal point, only when it lies in
`[0.5f, 5.0f]`. -/
def applyZoomChange (pf : Platform) (delta : Int) (s : OverlayState) : OverlayState :=
  let zoomChange : ℚ := if 0 < delta then F32_1_1 else F32_0_9
  let newZoom := pf.fmul s.zoom_factor zoomChange
  if 1 / 2 ≤ newZoom ∧ newZoom ≤ 5 then
    let screenCenterX := Int.tdiv pf.screenWidth 2
    let screenCenterY := Int.tdiv pf.screenHeight 2
    let offsetY := fifthOf screenCenterY
    { s with zoom_factor := newZoom, zoom_center_x := screenCenterX,
             zoom_center_y := screenCenterY - offsetY }
  else s

/-- Case `WM_MOUSEWHEEL`, with `delta = GET_WHEEL_DELTA_WPARAM(wParam)`; `out`
is how far `CaptureZoomRegion` gets if it is called. The handler acts when
`screenRectangles` is not empty (`back` is its last element) and drawing is not
active. -/
def onMouseWheel (pf : Platform) (delta : Int) (out : CaptureOutcome) (s : OverlayState) :
    OverlayState :=
  match s.screenRectangles.getLast? with
  | none => s
  | some back =>
    if s.drawing_active then s
    else
      let s1 :=
        if s.zoom_active then s
        else { CaptureZoomRegion pf out back s with zoom_active := true }
      applyZoomChange pf delta s1

/-- Function `abs` on `int`. -/
def iabs (a : Int) : Int := if a < 0 then -a else a

/-- The loop over `screenRectangles` in the selection branch of `WM_LBUTTONUP`:
the adjusted rectangle when `needsAdjustment` ends up set, `none` otherwise. Only
the first overlapping region is looked at (`break`). -/
def adjustForOverlap (x1 y1 x2 y2 : Int) : List ScreenRectangle → Option ScreenRectangle
  | [] => none
  | rect :: rest =>
    if rect.x1 < x2 ∧ x1 < rect.x2 ∧ rect.y1 < y2 ∧ y1 < rect.y2 then
      let SEPARATION : Int := 2
      let leftGap := rect.x1 - x2
      let rightGap := x1 - rect.x2
      let topGap := rect.y1 - y2
      let bottomGap := y1 - rect.y2
      let minGap := min (min (min (iabs leftGap) (iabs rightGap)) (iabs topGap)) (iabs bottomGap)
      if iabs leftGap = minGap ∧ -SEPARATION ≤ leftGap then
        let width := x2 - x1
        let adjustedX2 := rect.x1 - SEPARATION
        some ⟨adjustedX2 - width, y1, adjustedX2, y2⟩
      else if iabs rightGap = minGap ∧ -SEPARATION ≤ rightGap then
        let width := x2 - x1
        let adjustedX1 := rect.x2 + SEPARATION
        some ⟨adjustedX1, y1, adjustedX1 + width, y2⟩
      else if iabs topGap = minGap ∧ -SEPARATION ≤ topGap then
        let height := y2 - y1
        let adjustedY2 := rect.y1 - SEPARATION
        some ⟨x1, adjustedY2 - height, x2, adjustedY2⟩
      else if iabs bottomGap = minGap ∧ -SEPARATION ≤ bottomGap then
        let height := y2 - y1
        let adjustedY1 := rect.y2 + SEPARATION
        some ⟨x1, adjustedY1, x2, adjustedY1 + height⟩
      else none
    else adjustForOverlap x1 y1 x2 y2 rest

/-- The value `(int)sqrt((x2 - x1) * (x2 - x1) + (y2 - y1) * (y2 - y1))`: for a
sum below `2^31` the `double` square root, correctly rounded, has the integer
part of the exact root. The result is `none` when the `int` sum overflows
(undefined behaviour). -/
def pointDistance (x1 y1 x2 y2 : Int) : Option Int :=
  let d2 := (x2 - x1) * (x2 - x1) + (y2 - y1) * (y2 - y1)
  if d2 < 2 ^ 31 then some ((Nat.sqrt d2.toNat : Nat) : Int) else none

/-- Case `WM_LBUTTONUP`; `env` is the outcome of the system calls of
`CaptureScreenRegion`. -/
def onLButtonUp (env : Env) (s : OverlayState) : Option OverlayState :=
  if s.screenshot_mode = true ∧ s.screenshot_start_x ≠ -1 then
    let x1 := min s.screenshot_start_x s.screenshot_end_x
    let y1 := min s.screenshot_start_y s.screenshot_end_y
    let x2 := max s.screenshot_start_x s.screenshot_end_x
    let y2 := max s.screenshot_start_y s.screenshot_end_y
    let s1 :=
      if 5 ≤ x2 - x1 ∧ 5 ≤ y2 - y1 then
        { s with text := { s.text with clipboard :=
            CaptureScreenRegion_clipboard env x1 y1 x2 y2 s.text.clipboard } }
      else s
    some { s1 with screenshot_mode := false, screenshot_start_x := -1,
                   screenshot_start_y := -1, screenshot_end_x := -1,
                   screenshot_end_y := -1 }
  else if s.drawing_active = true ∧ s.drawing_start_x ≠ -1 then
    let lineLike : Prop := s.current_drawing_tool = DrawingTool.Line ∨
      s.current_drawing_tool = DrawingTool.Arrow
    let x1 := if lineLike then s.drawing_start_x else min s.drawing_start_x s.end_x
    let y1 := if lineLike then s.drawing_start_y else min s.drawing_start_y s.end_y
    let x2 := if lineLike then s.end_x else max s.drawing_start_x s.end_x
    let y2 := if lineLike then s.end_y else max s.drawing_start_y s.end_y
    let isValidSize : Option Bool :=
      if lineLike then (pointDistance x1 y1 x2 y2).map fun distance => decide (10 ≤ distance)
      else some (decide (5 ≤ x2 - x1 ∧ 5 ≤ y2 - y1))
    isValidSize.map fun valid =>
      let s1 :=
        if valid then
          { s with drawing_elements := s.drawing_elements ++
              [⟨s.current_drawing_tool, x1, y1, x2, y2, s.drawing_color,
                s.drawing_thickness, s.drawing_fill, []⟩] }
        else s
      { s1 with drawing_start_x := -1, drawing_start_y := -1 }
  else if s.selection_mode = true ∧ s.start_x ≠ -1 then
    let x1 := min s.start_x s.end_x
    let y1 := min s.start_y s.end_y
    let x2 := max s.start_x s.end_x
    let y2 := max s.start_y s.end_y
    let s1 :=
      if 5 ≤ x2 - x1 ∧ 5 ≤ y2 - y1 then
        match adjustForOverlap x1 y1 x2 y2 s.screenRectangles with
        | some adjusted => { s with screenRectangles := s.screenRectangles ++ [adjusted] }
        | none => { s with screenRectangles := s.screenRectangles ++ [⟨x1, y1, x2, y2⟩] }
      else s
    some { s1 with start_x := -1, start_y := -1, end_x := -1, end_y := -1 }
  else some s

/-- The four top-level branches `wParam == VK_F1 .. VK_F4` of `WM_KEYDOWN`: the
tool they select, if `wParam` is one of them. -/
def toolOfKey (wParam : Nat) : Option DrawingTool :=
  if wParam = VK_F1 then some DrawingTool.Line
  else if wParam = VK_F2 then some DrawingTool.Arrow
  else if wParam = VK_F3 then some DrawingTool.Rectangle
  else if wParam = VK_F4 then some DrawingTool.Highlighter
  else none

/-- Branch `wParam == VK_ESCAPE` of `WM_KEYDOWN`. -/
def onEscape (s : OverlayState) : OverlayState :=
  if s.screenshot_mode then
    { s with screenshot_mode := false, screenshot_start_x := -1, screenshot_start_y := -1,
             screenshot_end_x := -1, screenshot_end_y := -1 }
  else if s.drawing_active then
    { s with drawing_active := false, current_drawing_tool := DrawingTool.None,
             drawing_start_x := -1, drawing_start_y := -1 }
  else if s.zoom_active then
    if s.text_input_mode then { s with text_input_mode := false }
    else CleanupZoomResources s
  else { s with overlay_active := false }

/-- Branch `wParam == 'Z'` with Ctrl of `WM_KEYDOWN` (undo). -/
def onUndo (s : OverlayState) : OverlayState :=
  if s.drawing_elements ≠ [] then
    { s with drawing_elements := s.drawing_elements.dropLast }
  else if s.screenRectangles ≠ [] then
    let s1 := { s with screenRectangles := s.screenRectangles.dropLast }
    if s1.screenRectangles = [] ∨ s1.zoom_active = true then CleanupZoomResources s1
    else s1
  else s

/-- Case `WM_KEYDOWN`. The branches are tried in the order of the source: F1-F4,
Escape, Ctrl+Z, Ctrl+Enter, Ctrl+T, and only then the text branch, which starts
with its own F1-F4 tests (switch to the tool and leave text mode) before the
`switch (wParam)` modelled by `textKeyDown`. -/
def onKeyDown (env : Env) (wParam : Nat) (ctrl shift : Bool) (s : OverlayState) :
    Option OverlayState :=
  match toolOfKey wParam with
  | some tool => some { s with current_drawing_tool := tool, drawing_active := true }
  | none =>
    if wParam = VK_ESCAPE then some (onEscape s)
    else if wParam = KEY_Z ∧ ctrl = true then some (onUndo s)
    else if wParam = VK_RETURN ∧ ctrl = true then
      some { s with screenshot_mode := true, drawing_active := false,
                    current_drawing_tool := DrawingTool.None, text_input_mode := false }
    else if wParam = KEY_T ∧ ctrl = true then some { s with text_input_mode := true }
    else if s.text_input_mode then
      match toolOfKey wParam with
      | some tool =>
        some { s with current_drawing_tool := tool, drawing_active := true,
                      text_input_mode := false }
      | none => (textKeyDown env wParam ctrl shift s.text).map fun t => { s with text := t }
    else some s

/-- Messages handled by `OverlayWndProc`, with what the handler reads from
them and from the system. -/
inductive Msg where
  | WM_LBUTTONDOWN (x y : Nat)
  | WM_MOUSEMOVE (x y : Nat)
  | WM_MOUSEWHEEL (delta : Int) (out : CaptureOutcome)
  | WM_LBUTTONUP (env : Env)
  | WM_KEYDOWN (k : KeyPress)
  | WM_DESTROY
deriving DecidableEq

/-- Function `OverlayWndProc`; `none` stands for an exception or undefined
behaviour in the handler. -/
def OverlayWndProc (pf : Platform) (m : Msg) (s : OverlayState) : Option OverlayState :=
  match m with
  | .WM_LBUTTONDOWN x y => some (onLButtonDown x y s)
  | .WM_MOUSEMOVE x y => some (onMouseMove x y s)
  | .WM_MOUSEWHEEL delta out => some (onMouseWheel pf delta out s)
  | .WM_LBUTTONUP env => onLButtonUp env s
  | .WM_KEYDOWN k => onKeyDown k.env k.wParam k.ctrl k.shift s
  | .WM_DESTROY => some { s with overlay_active := false }

/-- Run a list of messages through `OverlayWndProc`. -/
def runMsgs (pf : Platform) : List Msg → OverlayState → Option OverlayState
  | [], s => some s
  | m :: ms, s => (OverlayWndProc pf m s).bind (runMsgs pf ms)

/-- States the program can be in: the initial globals, then any interleaving of
`ShowOverlay` starting a session (only when none is active), messages handled
by `OverlayWndProc`, `ShowOverlay` ending (its loop stops once `overlay_active`
is false, then `CleanupZoomResources` runs), and other processes changing the
clipboard. -/
inductive Reach (pf : Platform) : OverlayState → Prop where
  | boot (cb : Clipboard) : Reach pf (OverlayState.init cb)
  | enter {s : OverlayState} : Reach pf s → s.overlay_active = false →
      Reach pf (ShowOverlay_enter s)
  | msg {s s1 : OverlayState} (m : Msg) : Reach pf s → OverlayWndProc pf m s = some s1 →
      Reach pf s1
  | leave {s : OverlayState} : Reach pf s → s.overlay_active = false →
      Reach pf (CleanupZoomResources s)
  | clipboard {s : OverlayState} (cb : Clipboard) : Reach pf s →
      Reach pf { s with text := { s.text with clipboard := cb } }

/-- States reachable within one overlay session: from the state `ShowOverlay`
sets up, by messages handled by `OverlayWndProc` (pointer, wheel and key events)
and clipboard changes. -/
inductive SessionReach (pf : Platform) : OverlayState → Prop where
  | start {s : OverlayState} : Reach pf s → s.overlay_active = false →
      SessionReach pf (ShowOverlay_enter s)
  | msg {s s1 : OverlayState} (m : Msg) : SessionReach pf s →
      OverlayWndProc pf m s = some s1 → SessionReach pf s1
  | clipboard {s : OverlayState} (cb : Clipboard) : SessionReach pf s →
      SessionReach pf { s with text := { s.text with clipboard := cb } }

/-- Round to the nearest integer, ties to the even one. -/
def roundHalfEven (y : ℚ) : Int :=
  let f := ⌊y⌋
  let r := y - f
  if r < 1 / 2 then f else if 1 / 2 < r then f + 1 else if f % 2 = 0 then f else f + 1

/-- Binary exponent of a rational in `[1/4, 8)`, the range the products of the
wheel handler stay in. -/
def f32exp (x : ℚ) : Int :=
  if 4 ≤ x then 2 else if 2 ≤ x then 1 else if 1 ≤ x then 0 else if 1 / 2 ≤ x then -1 else -2

/-- Rounding of a rational in `[1/4, 8)` to binary32: 24 significant bits,
round to nearest, ties to even. -/
def f32round (x : ℚ) : ℚ :=
  let ulp : ℚ := (2 : ℚ) ^ (f32exp x - 23)
  (roundHalfEven (x / ulp) : ℚ) * ulp

/-- The `float` product for operands whose exact product lies in `[1/4, 8)`. -/
def f32mul (a b : ℚ) : ℚ := f32round (a * b)

/-- A machine with IEEE-754 `float` products and a 1920 x 1080 screen. -/
def Platform.pc : Platform := ⟨f32mul, 1920, 1080⟩

/-- The state `ShowOverlay` sets up for the first session after program start. -/
def sessionStart : OverlayState := ShowOverlay_enter (OverlayState.init Clipboard.empty)

/-- A key message with every system call succeeding. -/
def keyMsg (wParam : Nat) (ctrl shift : Bool) : Msg :=
  .WM_KEYDOWN ⟨Env.allOk, wParam, ctrl, shift⟩

/-- Every committed region is at least 5 pixels wide and 5 pixels high. -/
def RegionsOk (s : OverlayState) : Prop :=
  ∀ r ∈ s.screenRectangles, 5 ≤ r.x2 - r.x1 ∧ 5 ≤ r.y2 - r.y1

/-- The scale factor lies in `[0.5, 5.0]`. -/
def ZoomOk (s : OverlayState) : Prop := 1 / 2 ≤ s.zoom_factor ∧ s.zoom_factor ≤ 5

/-- The session state with two committed regions: (10,10,100,100) and the
region dragged as (99,50,199,150), moved right to (102,50,202,150). -/
def twoRegions : OverlayState :=
  { sessionStart with screenRectangles := [⟨10, 10, 100, 100⟩, ⟨102, 50, 202, 150⟩] }

/-- Pointer messages that drag (10,10)-(100,100) and then (99,50)-(199,150). -/
def dragTwoRegions : List Msg :=
  [.WM_LBUTTONDOWN 10 10, .WM_MOUSEMOVE 100 100, .WM_LBUTTONUP Env.allOk,
   .WM_LBUTTONDOWN 99 50, .WM_MOUSEMOVE 199 150, .WM_LBUTTONUP Env.allOk]

/-- The wheel messages of a list of (delta, capture outcome) pairs. -/
def wheelMsgs (ws : List (Int × CaptureOutcome)) : List Msg :=
  ws.map fun w => Msg.WM_MOUSEWHEEL w.1 w.2

/-- Key presses Ctrl+Enter, F1, Ctrl+T. -/
def enterThreeModes : List Msg :=
  [keyMsg VK_RETURN true false, keyMsg VK_F1 false false, keyMsg KEY_T true false]

/-- The session state after Ctrl+Enter, F1, Ctrl+T: every mode flag is set. -/
def allModesOn : OverlayState :=
  { sessionStart with screenshot_mode := true, drawing_active := true,
                      current_drawing_tool := DrawingTool.Line, text_input_mode := true }

/-- A selection drag from (10,10) to (100,100) followed by F1. -/
def dragThenF1 : List Msg :=
  [.WM_LBUTTONDOWN 10 10, .WM_MOUSEMOVE 100 100, keyMsg VK_F1 false false]

/-- The session state after `dragThenF1`: the Line tool is active and the
selection drag is still pending. -/
def pendingDragWithTool : OverlayState :=
  { sessionStart with start_x := 10, start_y := 10, end_x := 100, end_y := 100,
                      drawing_active := true, current_drawing_tool := DrawingTool.Line }

/-- The session state after Ctrl+T: text mode is on. -/
def textModeOn : OverlayState := { sessionStart with text_input_mode := true }

/-- The messages F1, pointer-down (10,10), move (100,100), Ctrl+Enter, F1,
pointer-down (50,50): a drawing drag is left pending while a screenshot drag
starts. -/
def drawingThenScreenshotDrag : List Msg :=
  [keyMsg VK_F1 false false, .WM_LBUTTONDOWN 10 10, .WM_MOUSEMOVE 100 100,
   keyMsg VK_RETURN true false, keyMsg VK_F1 false false, .WM_LBUTTONDOWN 50 50]

/-- The session state after `drawingThenScreenshotDrag`. -/
def bothDragsPending : OverlayState :=
  { sessionStart with drawing_active := true, current_drawing_tool := DrawingTool.Line,
                      drawing_start_x := 10, drawing_start_y := 10, end_x := 100, end_y := 100,
                      screenshot_mode := true, screenshot_start_x := 50,
                      screenshot_start_y := 50, screenshot_end_x := 50,
                      screenshot_end_y := 50 }

/-- The messages F1, pointer-down (0,0), move (65535,65535): a line drag across
the whole 16-bit coordinate range. -/
def hugeLineDrag : List Msg :=
  [keyMsg VK_F1 false false, .WM_LBUTTONDOWN 0 0, .WM_MOUSEMOVE 65535 65535]

/-- The session state after `hugeLineDrag`. -/
def hugeLinePending : OverlayState :=
  { sessionStart with drawing_active := true, current_drawing_tool := DrawingTool.Line,
                      drawing_start_x := 0, drawing_start_y := 0,
                      end_x := 65535, end_y := 65535 }

/-- A drag is large enough for its tool: squared length at least 100 for Line
and Arrow, normalized width and height at least 5 for the other tools. -/
def largeEnough (tool : DrawingTool) (sx sy ex ey : Int) : Prop :=
  if tool = DrawingTool.Line ∨ tool = DrawingTool.Arrow then
    100 ≤ (ex - sx) * (ex - sx) + (ey - sy) * (ey - sy)
  else 5 ≤ max sx ex - min sx ex ∧ 5 ≤ max sy ey - min sy ey

instance (tool : DrawingTool) (sx sy ex ey : Int) : Decidable (largeEnough tool sx sy ex ey) := by
  unfold largeEnough; infer_instance

/-- The element a drawing drag commits: the end points as dragged for Line and
Arrow, the normalized corners for the other tools, with the current colour,
thickness and fill. -/
def draggedElement (s : OverlayState) : DrawingElement :=
  if s.current_drawing_tool = DrawingTool.Line ∨ s.current_drawing_tool = DrawingTool.Arrow then
    ⟨s.current_drawing_tool, s.drawing_start_x, s.drawing_start_y, s.end_x, s.end_y,
      s.drawing_color, s.drawing_thickness, s.drawing_fill, []⟩
  else
    ⟨s.current_drawing_tool, min s.drawing_start_x s.end_x, min s.drawing_start_y s.end_y,
      max s.drawing_start_x s.end_x, max s.drawing_start_y s.end_y,
      s.drawing_color, s.drawing_thickness, s.drawing_fill, []⟩

/-- The session state with the Rectangle tool active and a drawing drag pending
from (80,20) to (20,90). -/
def rectangleDragPending : OverlayState :=
  { sessionStart with drawing_active := true, current_drawing_tool := DrawingTool.Rectangle,
                      drawing_start_x := 80, drawing_start_y := 20, end_x := 20, end_y := 90 }

/-- The session state with the one region (100,100,300,250). -/
def oneRegion : OverlayState :=
  { sessionStart with screenRectangles := [⟨100, 100, 300, 250⟩] }

/-- One selection drag from (100,100) to (300,250). -/
def dragOneRegion : List Msg :=
  [.WM_LBUTTONDOWN 100 100, .WM_MOUSEMOVE 300 250, .WM_LBUTTONUP Env.allOk]

/-- The state after a first wheel event over `oneRegion` whose capture got as
far as `out`, with scale factor `z` and the focal point at the screen centre
of `Platform.pc` (960, 540 - 108). -/
def zoomedOneRegion (out : CaptureOutcome) (z : ℚ) : OverlayState :=
  { CaptureZoomRegion Platform.pc out ⟨100, 100, 300, 250⟩ oneRegion with
      zoom_active := true, zoom_factor := z, zoom_center_x := 960, zoom_center_y := 432 }

/-- The messages of `n` wheel-up events, each with capture outcome `out`. -/
def wheelUps (n : Nat) (out : CaptureOutcome) : List Msg :=
  wheelMsgs (List.replicate n (120, out))

/-- The scale factor after 16 products by `1.1f` from 1.0 in binary32
arithmetic, about 4.594974. -/
def F32_1_1_pow16 : ℚ := 9636359 / 2097152

/-- The message is a Ctrl+Z key press. -/
def Msg.isUndo : Msg → Prop
  | .WM_KEYDOWN k => k.wParam = KEY_Z ∧ k.ctrl = true
  | _ => False

/-- The message is an Escape key press. -/
def Msg.isEscape : Msg → Prop
  | .WM_KEYDOWN k => k.wParam = VK_ESCAPE
  | _ => False

/-- The message is a pointer-up. -/
def Msg.isPointerUp : Msg → Prop
  | .WM_LBUTTONUP _ => True
  | _ => False

/-- The state in which Escape tears zoom down: zoom active, and screenshot
mode, drawing and text input off. -/
def zoomTeardownDue (s : OverlayState) : Prop :=
  s.screenshot_mode = false ∧ s.drawing_active = false ∧ s.zoom_active = true ∧
    s.text_input_mode = false

/-- The messages F3, pointer-down (10,10), move (100,100), pointer-up, Escape:
one rectangle is drawn and drawing mode is left. -/
def drawRectangleThenEscape : List Msg :=
  [keyMsg VK_F3 false false, .WM_LBUTTONDOWN 10 10, .WM_MOUSEMOVE 100 100,
   .WM_LBUTTONUP Env.allOk, keyMsg VK_ESCAPE false false]

/-- The state after a wheel-up over `oneRegion` followed by
`drawRectangleThenEscape`: zoom is active and the drawing store holds one
rectangle. -/
def zoomedWithRectangle : OverlayState :=
  { zoomedOneRegion CaptureOutcome.ok (9227469 / 8388608) with
      end_x := 100, end_y := 100,
      drawing_elements := [⟨DrawingTool.Rectangle, 10, 10, 100, 100, 255, 3, false, []⟩] }

/-- The calls of `CaptureScreenRegion` that reach outside the function, in the
order of the source: the bitmap it creates, the pixel copy from the screen, the
clipboard publication (`EmptyClipboard`, `SetClipboardData(CF_BITMAP, ..)`,
made when `OpenClipboard` succeeds), the file save and the sound. The bitmap
arguments are given by the size the bitmap was created with. -/
inductive ScreenshotCall where
  | CreateCompatibleBitmap (width height : Int)
  | BitBlt (width height srcX srcY : Int)
  | SetClipboardData (width height : Int)
  | SaveScreenshotToDownloads (width height : Int)
  | PlayScreenshotSound
deriving DecidableEq

/-- The three ways out of `CaptureScreenRegion`: the first `return` ("región
muy pequeña"), the second one (capture region not valid), the end of the
body. -/
inductive ScreenshotExit where
  | tooSmall
  | invalidRegion
  | done
deriving DecidableEq

/-- Function `CaptureScreenRegion`: the way it returns and the calls it makes.
Its arguments are pointer coordinates (16-bit values), so the `int` operations
are exact. -/
def CaptureScreenRegion (env : Env) (x1 y1 x2 y2 : Int) :
    ScreenshotExit × List ScreenshotCall :=
  let left := min x1 x2
  let top := min y1 y2
  let right := max x1 x2
  let bottom := max y1 y2
  if right - left < 5 ∨ bottom - top < 5 then (.tooSmall, [])
  else
    let borderOffset : Int := 2
    let captureLeft := left + borderOffset
    let captureTop := top + borderOffset
    let captureRight := right - borderOffset
    let captureBottom := bottom - borderOffset
    if captureRight ≤ captureLeft ∨ captureBottom ≤ captureTop then (.invalidRegion, [])
    else
      let width := captureRight - captureLeft
      let height := captureBottom - captureTop
      (.done,
        [.CreateCompatibleBitmap width height, .BitBlt width height captureLeft captureTop] ++
        (if env.openClipboard then [.SetClipboardData width height] else []) ++
        [.SaveScreenshotToDownloads width height, .PlayScreenshotSound])

/-- The call is a clipboard publication. -/
def ScreenshotCall.isClipboardWrite : ScreenshotCall → Bool
  | .SetClipboardData _ _ => true
  | _ => false

/-- The call is a file save. -/
def ScreenshotCall.isFileSave : ScreenshotCall → Bool
  | .SaveScreenshotToDownloads _ _ => true
  | _ => false

/-- The tool is one of the four shapes the keys F1-F4 select. -/
def DrawingTool.isShape (t : DrawingTool) : Prop :=
  t = DrawingTool.Line ∨ t = DrawingTool.Arrow ∨ t = DrawingTool.Rectangle ∨
    t = DrawingTool.Highlighter

instance (t : DrawingTool) : Decidable t.isShape := by
  unfold DrawingTool.isShape; infer_instance

/-- With drawing active the current tool is a shape, and every stored element
was drawn with a shape tool. -/
def ToolsOk (s : OverlayState) : Prop :=
  (s.drawing_active = true → s.current_drawing_tool.isShape) ∧
    ∀ e ∈ s.drawing_elements, e.tool_type.isShape

/-- The messages F3, pointer-down (10,10), move (100,100), pointer-up. -/
def drawRectangle : List Msg :=
  [keyMsg VK_F3 false false, .WM_LBUTTONDOWN 10 10, .WM_MOUSEMOVE 100 100,
   .WM_LBUTTONUP Env.allOk]

/-- The session state after `drawRectangle`: the Rectangle tool is active and
the drawing store holds one rectangle. -/
def rectangleDrawn : OverlayState :=
  { sessionStart with
      drawing_active := true, current_drawing_tool := DrawingTool.Rectangle,
      end_x := 100, end_y := 100,
      drawing_elements := [⟨DrawingTool.Rectangle, 10, 10, 100, 100, 255, 3, false, []⟩] }

/-- The rectangle of the selection drag in progress, normalized as the
selection branch of `WM_LBUTTONUP` does. -/
def selectionRect (s : OverlayState) : ScreenRectangle :=
  ⟨min s.start_x s.end_x, min s.start_y s.end_y, max s.start_x s.end_x, max s.start_y s.end_y⟩

/-- The dragged rectangle `d` overlaps the committed region `rect` (the test of
the overlap loop). -/
def overlapsRegion (d rect : ScreenRectangle) : Prop :=
  rect.x1 < d.x2 ∧ d.x1 < rect.x2 ∧ rect.y1 < d.y2 ∧ d.y1 < rect.y2

instance (d rect : ScreenRectangle) : Decidable (overlapsRegion d rect) := by
  unfold overlapsRegion; infer_instance

/-- The smallest of the four gaps between `d` and `rect` in absolute value
(`minGap`): for overlapping rectangles, the smallest depth of the overlap. -/
def smallestGap (d rect : ScreenRectangle) : Int :=
  min (min (min (iabs (rect.x1 - d.x2)) (iabs (d.x1 - rect.x2))) (iabs (rect.y1 - d.y2)))
    (iabs (d.y1 - rect.y2))

/-- The rectangle `d` translated, width and height kept, to lie 2 px clear of
`rect` in the direction whose gap is smallest in absolute value, ties resolved
in the order left, right, top, bottom. -/
def nudgedClear (d rect : ScreenRectangle) : ScreenRectangle :=
  if iabs (rect.x1 - d.x2) = smallestGap d rect then
    ⟨rect.x1 - 2 - (d.x2 - d.x1), d.y1, rect.x1 - 2, d.y2⟩
  else if iabs (d.x1 - rect.x2) = smallestGap d rect then
    ⟨rect.x2 + 2, d.y1, rect.x2 + 2 + (d.x2 - d.x1), d.y2⟩
  else if iabs (rect.y1 - d.y2) = smallestGap d rect then
    ⟨d.x1, rect.y1 - 2 - (d.y2 - d.y1), d.x2, rect.y1 - 2⟩
  else ⟨d.x1, rect.y2 + 2, d.x2, rect.y2 + 2 + (d.y2 - d.y1)⟩

/-- Pointer messages that drag (10,10)-(100,100) and then (50,50)-(150,150). -/
def dragOverlapping : List Msg :=
  [.WM_LBUTTONDOWN 10 10, .WM_MOUSEMOVE 100 100, .WM_LBUTTONUP Env.allOk,
   .WM_LBUTTONDOWN 50 50, .WM_MOUSEMOVE 150 150, .WM_LBUTTONUP Env.allOk]

/-- The session state after `dragOverlapping`: the second region is committed
as dragged. -/
def overlappingRegions : OverlayState :=
  { sessionStart with screenRectangles := [⟨10, 10, 100, 100⟩, ⟨50, 50, 150, 150⟩] }

/-- The session state with the region (10,10,100,100) committed and a selection
drag from (99,50) to (199,150) in progress. -/
def nearDragPending : OverlayState :=
  { sessionStart with screenRectangles := [⟨10, 10, 100, 100⟩],
                      start_x := 99, start_y := 50, end_x := 199, end_y := 150 }

/-- The states of the program with the phase it is in: `false` between two
runs of `ShowOverlay` (and before the first one), `true` inside a run.
`ShowOverlay` starts from a state between runs, its message loop dispatches
messages to `OverlayWndProc`, and when the loop has ended (`overlay_active`
false) it calls `CleanupZoomResources` and returns; other processes may change
the clipboard at any time. Runs do not overlap here: a run starts after the
previous one has returned, whereas `Reach` also lets a run start while the
previous overlay thread has not yet cleaned up. -/
inductive Life (pf : Platform) : Bool → OverlayState → Prop where
  | boot (cb : Clipboard) : Life pf false (OverlayState.init cb)
  | enter {s : OverlayState} : Life pf false s → s.overlay_active = false →
      Life pf true (ShowOverlay_enter s)
  | msg {s s1 : OverlayState} (m : Msg) : Life pf true s → OverlayWndProc pf m s = some s1 →
      Life pf true s1
  | leave {s : OverlayState} : Life pf true s → s.overlay_active = false →
      Life pf false (CleanupZoomResources s)
  | clipboard {inSession : Bool} {s : OverlayState} (cb : Clipboard) : Life pf inSession s →
      Life pf inSession { s with text := { s.text with clipboard := cb } }

/-- The size of the snapshot bitmap `CaptureZoomRegion` creates for `rect`. -/
def snapshotOf (rect : ScreenRectangle) : Bitmap := ⟨rect.x2 - rect.x1, rect.y2 - rect.y1⟩

/-- A held snapshot goes with an active zoom and has the size of a region of
the store. -/
def SnapshotInStore (s : OverlayState) : Prop :=
  ∀ b, s.hZoomedBitmap = some b →
    s.zoom_active = true ∧ ∃ r ∈ s.screenRectangles, b = snapshotOf r

/-- A held snapshot has the size of the last region of the store, the one the
compositor takes as the stretch source size. -/
def SnapshotOfLast (s : OverlayState) : Prop :=
  ∀ b, s.hZoomedBitmap = some b →
    ∃ back, s.screenRectangles.getLast? = some back ∧ b = snapshotOf back

/-- The zoom layer of `DrawOverlay` ("dibujar zoom de la última región"): when
zoom is active, the region store is not empty and both the memory DC and the
snapshot bitmap are held, `StretchBlt` reads from the snapshot bitmap a source
rectangle with the width and height of the last region. The result is the
snapshot bitmap with the source width and height, `none` when the layer is not
drawn. -/
def zoomLayerSource (s : OverlayState) : Option (Bitmap × Int × Int) :=
  if s.zoom_active = true ∧ s.hZoomedDC = true then
    match s.screenRectangles.getLast?, s.hZoomedBitmap with
    | some lastRect, some bitmap =>
      some (bitmap, lastRect.x2 - lastRect.x1, lastRect.y2 - lastRect.y1)
    | _, _ => none
  else none

/-- Pointer messages that drag (400,300)-(500,350). -/
def dragSecondRegion : List Msg :=
  [.WM_LBUTTONDOWN 400 300, .WM_MOUSEMOVE 500 350, .WM_LBUTTONUP Env.allOk]

/-- The state after a wheel-up over `oneRegion` followed by
`dragSecondRegion`: zoom is active with the snapshot of the first region, and a
second region is committed. -/
def zoomedThenSecondRegion : OverlayState :=
  { zoomedOneRegion CaptureOutcome.ok (9227469 / 8388608) with
      screenRectangles := [⟨100, 100, 300, 250⟩, ⟨400, 300, 500, 350⟩] }

/-! ## Text rendering in `DrawOverlay`

The two text boxes of `DrawOverlay` (below the zoomed region, and below the
last region when zoom is off) each walk the buffer twice: once to draw the
lines, once to place the caret. Only the vertical positions and what is drawn
on each line are kept; horizontal positions depend on text extents and are left
out, and the creation of the temporary DC of an image is taken to succeed. -/

/-- Member `std::wstring::find(pattern, pos)`, the first argument bounding the
number of positions tried: the first offset `i ≥ pos` where `pattern` occurs in
`s`, `none` for `npos`. -/
def findFrom (pattern s : List Char) : Nat → Nat → Option Nat
  | 0, _ => none
  | fuel + 1, i =>
    if pattern.isPrefixOf (s.drop i) then some i else findFrom pattern s fuel (i + 1)

/-- Member `std::wstring::find(pattern, pos)`. -/
def wfind (pattern s : List Char) (pos : Nat) : Option Nat :=
  findFrom pattern s (s.length + 1 - pos) pos

/-- The value `currentText.find(L'\n', pos)` with `npos` replaced by the
length, as both walks do. -/
def nextNewline (t : List Char) (pos : Nat) : Nat := scanFwd notNL t (t.length - pos) pos

/-- The line `currentText.substr(pos, nextNewline - pos)`. -/
def lineAt (t : List Char) (pos : Nat) : List Char :=
  (t.drop pos).take (nextNewline t pos - pos)

/-- White space skipped by `std::stoi` (`iswspace` in the "C" locale). -/
def isSpaceW (c : Char) : Bool :=
  c == SP || (9 ≤ c.toNat && c.toNat ≤ 13)

/-- Function `std::stoi` on a wide string, base 10: leading white space is
skipped, then an optional sign and the longest run of decimal digits are read;
`none` stands for `std::invalid_argument` (no digit) and `std::out_of_range`
(value outside the 32-bit `int`). -/
def wstoi (s : List Char) : Option Int :=
  let s1 := s.dropWhile isSpaceW
  let negative := s1.head? == some (Char.ofNat 45)
  let s2 := if s1.head? == some (Char.ofNat 45) || s1.head? == some (Char.ofNat 43)
    then s1.drop 1 else s1
  let digits := s2.takeWhile Char.isDigit
  if digits.isEmpty then none
  else
    let magnitude : Int := digits.foldl (fun acc c => 10 * acc + ((c.toNat - 48 : Nat) : Int)) 0
    let value := if negative then -magnitude else magnitude
    if -2147483648 ≤ value ∧ value ≤ 2147483647 then some value else none

/-- What the marker code shared by the walks finds on a line: no `[IMAGE_`; a
`[IMAGE_` with no `]` after it; an index that `std::stoi` rejects; or the
index. -/
inductive MarkerParse where
  | noMarker
  | unterminated
  | badIndex
  | index (imageIndex : Int)
deriving DecidableEq

/-- The marker code of the walks: `find(L"[IMAGE_")`, `find(L"]", imageStart)`,
`substr(imageStart + 7, imageEnd - imageStart - 7)` and `std::stoi` in a `try`
block. -/
def parseMarker (currentLine : List Char) : MarkerParse :=
  match wfind "[IMAGE_".toList currentLine 0 with
  | none => .noMarker
  | some imageStart =>
    match wfind "]".toList currentLine imageStart with
    | none => .unterminated
    | some imageEnd =>
      let imageIndexStr := (currentLine.drop (imageStart + 7)).take (imageEnd - imageStart - 7)
      match wstoi imageIndexStr with
      | none => .badIndex
      | some imageIndex => .index imageIndex

/-- The images the walks read: the vector `clipboard_images` and, for each
index, whether `GetObject` succeeds on its handle. -/
structure ImageTable where
  clipboard_images : List (Option Bitmap)
  getObject : Nat → Bool

/-- Outcome of the test `imageIndex >= 0 && imageIndex < size &&
clipboard_images[imageIndex]` followed by `GetObject(hImage, ..) > 0`. -/
inductive ImageLookup where
  | absent
  | unreadable
  | found (bm : Bitmap)
deriving DecidableEq

/-- The image tests of the walks. -/
def lookupImage (imgs : ImageTable) (imageIndex : Int) : ImageLookup :=
  if 0 ≤ imageIndex ∧ imageIndex < (imgs.clipboard_images.length : Int) then
    match imgs.clipboard_images.getD imageIndex.toNat none with
    | none => .absent
    | some bm => if imgs.getObject imageIndex.toNat then .found bm else .unreadable
  else .absent

/-- What a content walk draws for one line. -/
inductive LineDraw where
  | nothing
  | text (currentLine : List Char)
  | image (imageIndex : Int) (bm : Bitmap)
deriving DecidableEq

/-- One iteration of a content walk: the line from `pos` to `stop` (its
`nextNewline`), the `currentY` it is handled at and what is drawn there. -/
structure LineRender where
  pos : Nat
  stop : Nat
  y : Int
  drawn : LineDraw
deriving DecidableEq

/-- The body of the loop of `drawTextSimple` (zoom text box) for one line: what
is drawn and how far `currentY` advances. -/
def renderLineZoom (imgs : ImageTable) (currentLine : List Char) : LineDraw × Int :=
  let lineHeight : Int := 20
  match parseMarker currentLine with
  | .index imageIndex =>
    match lookupImage imgs imageIndex with
    | .found bm => (.image imageIndex bm, bm.bmHeight + 5)
    | _ => (.nothing, 0)
  | .badIndex => (.nothing, lineHeight)
  | .unterminated => (.nothing, lineHeight)
  | .noMarker =>
    if currentLine ≠ [] then (.text currentLine, lineHeight) else (.nothing, lineHeight)

/-- The body of the content loop of the text box drawn when zoom is off: the
line is drawn as text, markers included, and `currentY` advances by
`lineHeight`. -/
def renderLinePlain (currentLine : List Char) : LineDraw × Int :=
  (.text currentLine, 20)

/-- The loop `while (pos < currentText.length())` of a content walk with loop
body `render`, the first argument bounding the number of iterations. -/
def contentLoop (render : List Char → LineDraw × Int) (t : List Char) :
    Nat → Nat → Int → List LineRender
  | 0, _, _ => []
  | fuel + 1, pos, currentY =>
    if pos < t.length then
      let drawn := render (lineAt t pos)
      ⟨pos, nextNewline t pos, currentY, drawn.1⟩ ::
        contentLoop render t fuel (nextNewline t pos + 1) (currentY + drawn.2)
    else []

/-- Lambda `drawTextSimple(startY)` of the zoom text box. Every iteration moves
`pos` forward, so `length` iterations are enough. -/
def drawTextSimple (imgs : ImageTable) (zoom_text : List Char) (startY : Int) :
    List LineRender :=
  if zoom_text.isEmpty then []
  else contentLoop (renderLineZoom imgs) zoom_text zoom_text.length 0 startY

/-- The content walk of the text box drawn when zoom is off. -/
def drawTextNoZoom (zoom_text : List Char) (startY : Int) : List LineRender :=
  contentLoop renderLinePlain zoom_text zoom_text.length 0 startY

/-- The caret walk on a line before the caret line: the advance of
`currentY`. -/
def caretAdvance (imgs : ImageTable) (currentLine : List Char) : Int :=
  let lineHeight : Int := 20
  match parseMarker currentLine with
  | .index imageIndex =>
    match lookupImage imgs imageIndex with
    | .found bm => bm.bmHeight + 5
    | _ => lineHeight
  | _ => lineHeight

/-- The caret walk on the line of the caret: the new `cursorY`, given
`currentY` and the `cursorY` so far. -/
def caretOnLine (imgs : ImageTable) (currentLine : List Char) (currentY cursorY : Int) : Int :=
  match parseMarker currentLine with
  | .index imageIndex =>
    match lookupImage imgs imageIndex with
    | .found bm => currentY + bm.bmHeight + 5
    | _ => cursorY
  | .badIndex => currentY + 20
  | .unterminated => cursorY
  | .noMarker => currentY

/-- The loop `while (pos < currentText.length() && !foundCursor)` of the caret
walk over `currentText`, the buffer cut at the caret; the result is
`cursorY`. -/
def caretLoop (imgs : ImageTable) (currentText : List Char) (targetPos : Nat) :
    Nat → Nat → Int → Int → Int
  | 0, _, _, cursorY => cursorY
  | fuel + 1, pos, currentY, cursorY =>
    if pos < currentText.length then
      if pos ≤ targetPos ∧ targetPos ≤ nextNewline currentText pos then
        caretOnLine imgs (lineAt currentText pos) currentY cursorY
      else
        caretLoop imgs currentText targetPos fuel (nextNewline currentText pos + 1)
          (currentY + caretAdvance imgs (lineAt currentText pos)) cursorY
    else cursorY

/-- The caret walk of both text boxes: the `cursorY` the caret is drawn at,
for the caret offset `text_cursor_pos` and the first line at `startY`. -/
def caretY (imgs : ImageTable) (zoom_text : List Char) (text_cursor_pos : Int) (startY : Int) :
    Int :=
  if 0 < text_cursor_pos then
    let currentText := zoom_text.take text_cursor_pos.toNat
    caretLoop imgs currentText text_cursor_pos.toNat currentText.length 0 startY startY
  else startY

/-- Offset `pos` starts a line of the buffer. -/
def isLineStart (t : List Char) (pos : Nat) : Prop :=
  pos = 0 ∨ t.getD (pos - 1) NUL = NL

instance (t : List Char) (pos : Nat) : Decidable (isLineStart t pos) := by
  unfold isLineStart; infer_instance

/-- Offset at which the line holding the caret offset `c` starts. -/
def caretLineStart (t : List Char) (c : Nat) : Nat := scanBack notNL t c

/-- The part of the caret line that lies before the caret. -/
def caretLinePrefix (t : List Char) (c : Nat) : List Char :=
  (t.take c).drop (caretLineStart t c)

/-- The line holds a marker whose index parses but whose image the walks do not
get: index out of range, empty handle, or `GetObject` failing. -/
def markerImageMissing (imgs : ImageTable) (currentLine : List Char) : Bool :=
  match parseMarker currentLine with
  | .index imageIndex =>
    match lookupImage imgs imageIndex with
    | .found _ => false
    | _ => true
  | _ => false

/-- The line holds a marker whose image the walks get. -/
def markerImageFound (imgs : ImageTable) (currentLine : List Char) : Bool :=
  match parseMarker currentLine with
  | .index imageIndex =>
    match lookupImage imgs imageIndex with
    | .found _ => true
    | _ => false
  | _ => false

/-- An empty image vector. -/
def noImages : ImageTable := ⟨[], fun _ => true⟩

/-- One stored image, 50 wide and 100 high. -/
def oneImage : ImageTable := ⟨[some ⟨50, 100⟩], fun _ => true⟩

/-! ## Loops -/

theorem scanBack_le (p : Char → Bool) (t : List Char) (n : Nat) : scanBack p t n ≤ n := by
  induction n with
  | zero => simp [scanBack]
  | succ n ih =>
    simp only [scanBack]
    split <;> omega

theorem scanBack_all (p : Char → Bool) (t : List Char) (n : Nat) :
    ∀ i, scanBack p t n ≤ i → i < n → p (t.getD i NUL) = true := by
  induction n with
  | zero => intro i _ h; omega
  | succ n ih =>
    intro i h1 h2
    simp only [scanBack] at h1
    split at h1
    · rename_i hp
      by_cases hi : i = n
      · subst hi; exact hp
      · exact ih i h1 (by omega)
    · omega

theorem scanBack_stop (p : Char → Bool) (t : List Char) (n : Nat) :
    scanBack p t n = 0 ∨ p (t.getD (scanBack p t n - 1) NUL) = false := by
  induction n with
  | zero => simp [scanBack]
  | succ n ih =>
    simp only [scanBack]
    split
    · exact ih
    · rename_i hp
      right
      simpa using hp

theorem scanFwd_ge (p : Char → Bool) (t : List Char) (f pos : Nat) :
    pos ≤ scanFwd p t f pos := by
  induction f generalizing pos with
  | zero => simp [scanFwd]
  | succ f ih =>
    simp only [scanFwd]
    split
    · have := ih (pos + 1); omega
    · omega

theorem scanFwd_le (p : Char → Bool) (t : List Char) (f pos : Nat) (h : pos ≤ t.length) :
    scanFwd p t f pos ≤ t.length := by
  induction f generalizing pos with
  | zero => simpa [scanFwd] using h
  | succ f ih =>
    simp only [scanFwd]
    split
    · exact ih (pos + 1) (by omega)
    · exact h

theorem scanFwd_all (p : Char → Bool) (t : List Char) (f pos : Nat) :
    ∀ i, pos ≤ i → i < scanFwd p t f pos → p (t.getD i NUL) = true := by
  induction f generalizing pos with
  | zero => intro i h1 h2; simp [scanFwd] at h2; omega
  | succ f ih =>
    intro i h1 h2
    simp only [scanFwd] at h2
    split at h2
    · rename_i hc
      by_cases hi : i = pos
      · subst hi; exact hc.2
      · exact ih (pos + 1) i (by omega) h2
    · omega

theorem scanFwd_stop (p : Char → Bool) (t : List Char) (f pos : Nat)
    (hf : t.length - pos ≤ f) :
    scanFwd p t f pos = t.length ∨ t.length < pos ∨
      p (t.getD (scanFwd p t f pos) NUL) = false := by
  induction f generalizing pos with
  | zero =>
    simp only [scanFwd]
    omega
  | succ f ih =>
    simp only [scanFwd]
    split
    · rcases ih (pos + 1) (by omega) with h | h | h
      · exact Or.inl h
      · omega
      · exact Or.inr (Or.inr h)
    · rename_i hc
      by_cases hl : pos < t.length
      · right; right
        simp only [hl, true_and] at hc
        simpa using hc
      · omega

/-- The backward loop stops at the start of the maximal run. -/
theorem scanBack_maxRun (p : Char → Bool) (t : List Char) (c : Nat) :
    MaxRunBack p t c (scanBack p t c) :=
  ⟨scanBack_le p t c, fun i hi hm => scanBack_all p t c i hm hi, scanBack_stop p t c⟩

/-- The forward loop, given `length - pos` iterations, stops at the end of the
maximal run. -/
theorem scanFwd_maxRun (p : Char → Bool) (t : List Char) (c : Nat) (h : c ≤ t.length) :
    MaxRunFwd p t c (scanFwd p t (t.length - c) c) := by
  refine ⟨scanFwd_ge p t _ c, scanFwd_le p t _ c h, fun i hi hc => scanFwd_all p t _ c i hc hi, ?_⟩
  rcases scanFwd_stop p t (t.length - c) c (le_refl _) with h1 | h1 | h1
  · exact Or.inl h1
  · omega
  · exact Or.inr h1

/-- The start of a maximal run is unique. -/
theorem MaxRunBack_unique {p : Char → Bool} {t : List Char} {c m m2 : Nat}
    (h : MaxRunBack p t c m) (h2 : MaxRunBack p t c m2) : m = m2 := by
  obtain ⟨a1, a2, a3⟩ := h
  obtain ⟨b1, b2, b3⟩ := h2
  by_contra hne
  rcases Nat.lt_or_gt_of_ne hne with hlt | hlt
  · rcases b3 with b3 | b3
    · omega
    · have := a2 (m2 - 1) (by omega) (by omega)
      rw [this] at b3; cases b3
  · rcases a3 with a3 | a3
    · omega
    · have := b2 (m - 1) (by omega) (by omega)
      rw [this] at a3; cases a3

/-- The end of a maximal run is unique. -/
theorem MaxRunFwd_unique {p : Char → Bool} {t : List Char} {c e e2 : Nat}
    (h : MaxRunFwd p t c e) (h2 : MaxRunFwd p t c e2) : e = e2 := by
  obtain ⟨a1, a2, a3, a4⟩ := h
  obtain ⟨b1, b2, b3, b4⟩ := h2
  by_contra hne
  rcases Nat.lt_or_gt_of_ne hne with hlt | hlt
  · rcases a4 with a4 | a4
    · omega
    · have := b3 e hlt a1
      rw [this] at a4; cases a4
  · rcases b4 with b4 | b4
    · omega
    · have := a3 e2 hlt b1
      rw [this] at b4; cases b4

theorem scanBackI_natCast (p : Char → Bool) (t : List Char) (c : Nat) :
    scanBackI p t (c : Int) = (scanBack p t c : Nat) := by
  unfold scanBackI
  split
  · have : c = 0 := by omega
    subst this; simp [scanBack]
  · simp

theorem scanFwdI_natCast (p : Char → Bool) (t : List Char) (c : Nat) :
    scanFwdI p t (c : Int) = (scanFwd p t (t.length - c) c : Nat) := by
  unfold scanFwdI
  split
  · omega
  · simp

/-! ## Dispatch of the keys -/

theorem textKeyDown_VK_UP (env : Env) (ctrl shift : Bool) (s : TextState) :
    textKeyDown env VK_UP ctrl shift s = some (key_VK_UP ctrl shift s) := rfl

theorem textKeyDown_VK_DOWN (env : Env) (ctrl shift : Bool) (s : TextState) :
    textKeyDown env VK_DOWN ctrl shift s = some (key_VK_DOWN ctrl shift s) := rfl

theorem textKeyDown_VK_BACK (env : Env) (ctrl shift : Bool) (s : TextState) :
    textKeyDown env VK_BACK ctrl shift s = key_VK_BACK ctrl s := rfl

theorem textKeyDown_VK_DELETE (env : Env) (ctrl shift : Bool) (s : TextState) :
    textKeyDown env VK_DELETE ctrl shift s = key_VK_DELETE ctrl s := rfl

theorem runEvents_cons_of_apply {e : TextEvent} {s s1 : TextState} (es : List TextEvent)
    (h : e.apply s = some s1) : runEvents (e :: es) s = runEvents es s1 := by
  simp [runEvents, h]

/-! ## Vertical navigation -/

theorem anchorSelection_zoom_text (s : TextState) :
    s.anchorSelection.zoom_text = s.zoom_text := by
  unfold TextState.anchorSelection; split <;> rfl

theorem anchorSelection_text_cursor_pos (s : TextState) :
    s.anchorSelection.text_cursor_pos = s.text_cursor_pos := by
  unfold TextState.anchorSelection; split <;> rfl

theorem key_VK_UP_caret (ctrl shift : Bool) (s : TextState) :
    (key_VK_UP ctrl shift s).text_cursor_pos =
      (upTarget s.zoom_text s.text_cursor_pos).getD s.text_cursor_pos := by
  unfold key_VK_UP
  simp only [anchorSelection_zoom_text, anchorSelection_text_cursor_pos]
  cases upTarget s.zoom_text s.text_cursor_pos <;>
    cases ctrl <;> cases shift <;>
    simp [TextState.clearSelection, anchorSelection_text_cursor_pos]

theorem key_VK_DOWN_caret (ctrl shift : Bool) (s : TextState) :
    (key_VK_DOWN ctrl shift s).text_cursor_pos =
      (downTarget s.zoom_text s.text_cursor_pos).getD s.text_cursor_pos := by
  unfold key_VK_DOWN
  simp only [anchorSelection_zoom_text, anchorSelection_text_cursor_pos]
  cases downTarget s.zoom_text s.text_cursor_pos <;>
    cases ctrl <;> cases shift <;>
    simp [TextState.clearSelection, anchorSelection_text_cursor_pos]

theorem upTarget_natCast (t : List Char) (c : Nat) :
    upTarget t (c : Int) =
      if 0 < scanBack notNL t c then
        some ((scanBack notNL t (scanBack notNL t c - 1) +
          min (c - scanBack notNL t c)
            (scanBack notNL t c - 1 - scanBack notNL t (scanBack notNL t c - 1)) : Nat) : Int)
      else none := by
  unfold upTarget
  simp only [scanBackI_natCast]
  have h1 := scanBack_le notNL t c
  have h2 := scanBack_le notNL t (scanBack notNL t c - 1)
  split
  · rename_i h
    have h0 : 0 < scanBack notNL t c := by omega
    rw [if_pos h0]
    have e : ((scanBack notNL t c : Nat) : Int) - 1 = ((scanBack notNL t c - 1 : Nat) : Int) := by
      omega
    rw [e, scanBackI_natCast]
    congr 1
    omega
  · rename_i h
    have h0 : ¬ 0 < scanBack notNL t c := by omega
    rw [if_neg h0]

theorem downTarget_natCast (t : List Char) (c : Nat) :
    downTarget t (c : Int) =
      if scanFwd notNL t (t.length - c) c < t.length then
        some ((scanFwd notNL t (t.length - c) c + 1 +
          min (c - scanBack notNL t c)
            (scanFwd notNL t (t.length - (scanFwd notNL t (t.length - c) c + 1))
                (scanFwd notNL t (t.length - c) c + 1) -
              (scanFwd notNL t (t.length - c) c + 1)) : Nat) : Int)
      else none := by
  unfold downTarget
  simp only [scanBackI_natCast, scanFwdI_natCast]
  have h1 := scanBack_le notNL t c
  have h2 := scanFwd_ge notNL t (t.length - (scanFwd notNL t (t.length - c) c + 1))
    (scanFwd notNL t (t.length - c) c + 1)
  split
  · rename_i h
    have h0 : scanFwd notNL t (t.length - c) c < t.length := by omega
    rw [if_pos h0]
    have e : ((scanFwd notNL t (t.length - c) c : Nat) : Int) + 1 =
        ((scanFwd notNL t (t.length - c) c + 1 : Nat) : Int) := by omega
    rw [e, scanFwdI_natCast]
    congr 1
    omega
  · rename_i h
    have h0 : ¬ scanFwd notNL t (t.length - c) c < t.length := by omega
    rw [if_neg h0]

/-- C7: with `L` the start and `E` the end of the caret's line (the maximal
newline-free segment around the caret `c`), Up (plain, with Shift or with Ctrl)
leaves the caret where it is when `L = 0` and otherwise moves it to
`P + min (c - L) (L - 1 - P)`, `P` being the start of the line that ends at
`L - 1`; Down leaves the caret where it is when `E` is the end of the buffer and
otherwise moves it to `E + 1 + min (c - L) (E2 - (E + 1))`, `E2` being the end of
the line that starts at `E + 1`. -/
theorem C7_vertical_navigation (env : Env) (ctrl shift : Bool) (s : TextState) (c : Nat)
    (hc : s.text_cursor_pos = (c : Int)) (hle : c ≤ s.zoom_text.length) :
    ∃ up down L E,
      textKeyDown env VK_UP ctrl shift s = some up ∧
      textKeyDown env VK_DOWN ctrl shift s = some down ∧
      MaxRunBack notNL s.zoom_text c L ∧ MaxRunFwd notNL s.zoom_text c E ∧
      (L = 0 → up.text_cursor_pos = (c : Int)) ∧
      (0 < L → ∃ P, MaxRunBack notNL s.zoom_text (L - 1) P ∧
        up.text_cursor_pos = ((P + min (c - L) (L - 1 - P) : Nat) : Int)) ∧
      (E = s.zoom_text.length → down.text_cursor_pos = (c : Int)) ∧
      (E < s.zoom_text.length → ∃ E2, MaxRunFwd notNL s.zoom_text (E + 1) E2 ∧
        down.text_cursor_pos = ((E + 1 + min (c - L) (E2 - (E + 1)) : Nat) : Int)) := by
  refine ⟨_, _, scanBack notNL s.zoom_text c,
    scanFwd notNL s.zoom_text (s.zoom_text.length - c) c,
    textKeyDown_VK_UP env ctrl shift s, textKeyDown_VK_DOWN env ctrl shift s,
    scanBack_maxRun _ _ _, scanFwd_maxRun _ _ _ hle, ?_, ?_, ?_, ?_⟩
  · intro h0
    rw [key_VK_UP_caret, hc, upTarget_natCast, if_neg (by omega)]
    rfl
  · intro h0
    refine ⟨scanBack notNL s.zoom_text (scanBack notNL s.zoom_text c - 1),
      scanBack_maxRun _ _ _, ?_⟩
    rw [key_VK_UP_caret, hc, upTarget_natCast, if_pos h0]
    rfl
  · intro h0
    rw [key_VK_DOWN_caret, hc, downTarget_natCast, if_neg (by omega)]
    rfl
  · intro h0
    refine ⟨_, scanFwd_maxRun notNL s.zoom_text _ (by omega), ?_⟩
    rw [key_VK_DOWN_caret, hc, downTarget_natCast, if_pos h0]
    rfl

/-- C7 at the buffer "ab", newline, "cde", newline, "f" with the caret at
offset 5 (column 2 of the middle line). -/
theorem C7_vertical_navigation_witness :
    (plainText "ab\ncde\nf" 5 Clipboard.empty).text_cursor_pos = ((5 : Nat) : Int) ∧
    5 ≤ (plainText "ab\ncde\nf" 5 Clipboard.empty).zoom_text.length ∧
    ∃ up down L E,
      textKeyDown Env.allOk VK_UP false false (plainText "ab\ncde\nf" 5 Clipboard.empty)
        = some up ∧
      textKeyDown Env.allOk VK_DOWN false false (plainText "ab\ncde\nf" 5 Clipboard.empty)
        = some down ∧
      MaxRunBack notNL (plainText "ab\ncde\nf" 5 Clipboard.empty).zoom_text 5 L ∧
      MaxRunFwd notNL (plainText "ab\ncde\nf" 5 Clipboard.empty).zoom_text 5 E ∧
      (L = 0 → up.text_cursor_pos = ((5 : Nat) : Int)) ∧
      (0 < L → ∃ P, MaxRunBack notNL (plainText "ab\ncde\nf" 5 Clipboard.empty).zoom_text
          (L - 1) P ∧
        up.text_cursor_pos = ((P + min (5 - L) (L - 1 - P) : Nat) : Int)) ∧
      (E = (plainText "ab\ncde\nf" 5 Clipboard.empty).zoom_text.length →
        down.text_cursor_pos = ((5 : Nat) : Int)) ∧
      (E < (plainText "ab\ncde\nf" 5 Clipboard.empty).zoom_text.length →
        ∃ E2, MaxRunFwd notNL (plainText "ab\ncde\nf" 5 Clipboard.empty).zoom_text (E + 1) E2 ∧
        down.text_cursor_pos = ((E + 1 + min (5 - L) (E2 - (E + 1)) : Nat) : Int)) :=
  ⟨rfl, by decide,
    C7_vertical_navigation Env.allOk false false (plainText "ab\ncde\nf" 5 Clipboard.empty) 5
      rfl (by decide)⟩

/-! ## Word-wise deletion -/

theorem notBlank_eq_not_isBlank (x : Char) : notBlank x = !isBlank x := by
  unfold notBlank isBlank
  cases h1 : (x == SP) <;> cases h2 : (x == NL) <;> simp [bne, h1, h2]

theorem scanBack_blank_word_lt (t : List Char) (c : Nat) (h0 : 0 < c) :
    scanBack notBlank t (scanBack isBlank t c) < c := by
  obtain ⟨n, rfl⟩ : ∃ n, c = n + 1 := ⟨c - 1, by omega⟩
  cases hb : isBlank (t.getD n NUL)
  · have e : scanBack isBlank t (n + 1) = n + 1 := by
      simp only [scanBack, hb, Bool.false_eq_true, if_false, if_true]
    rw [e]
    have e2 : scanBack notBlank t (n + 1) = scanBack notBlank t n := by
      simp only [scanBack, notBlank_eq_not_isBlank, hb, Bool.not_false, if_true]
    rw [e2]
    have := scanBack_le notBlank t n
    omega
  · have e : scanBack isBlank t (n + 1) = scanBack isBlank t n := by
      simp only [scanBack, hb, Bool.false_eq_true, if_false, if_true]
    rw [e]
    have := scanBack_le notBlank t (scanBack isBlank t n)
    have := scanBack_le isBlank t n
    omega

theorem scanFwd_word_blank_gt (t : List Char) (c : Nat) (h : c < t.length) :
    c < scanFwd isBlank t (t.length - scanFwd notBlank t (t.length - c) c)
      (scanFwd notBlank t (t.length - c) c) := by
  obtain ⟨f, hf⟩ : ∃ f, t.length - c = f + 1 := ⟨t.length - c - 1, by omega⟩
  rw [hf]
  cases hb : isBlank (t.getD c NUL)
  · have e : scanFwd notBlank t (f + 1) c = scanFwd notBlank t f (c + 1) := by
      simp only [scanFwd, notBlank_eq_not_isBlank, hb, h, Bool.not_false, and_self, if_true]
    rw [e]
    have := scanFwd_ge notBlank t f (c + 1)
    have := scanFwd_ge isBlank t (t.length - scanFwd notBlank t f (c + 1))
      (scanFwd notBlank t f (c + 1))
    omega
  · have e : scanFwd notBlank t (f + 1) c = c := by
      simp only [scanFwd, notBlank_eq_not_isBlank, hb, Bool.not_true, Bool.false_eq_true,
        and_false, if_false]
    rw [e, hf]
    have e2 : scanFwd isBlank t (f + 1) c = scanFwd isBlank t f (c + 1) := by
      simp only [scanFwd, hb, h, and_self, if_true]
    rw [e2]
    have := scanFwd_ge isBlank t f (c + 1)
    omega

/-- C8: Ctrl+Backspace with the caret `c > 0` erases exactly `text[b, c)`, where
`m` is the start of the maximal run of space/newline characters ending at `c`
and `b` the start of the maximal run of other characters ending at `m`; the caret
becomes `b`, and the text before `b` and from `c` on (as every other text
global) is unchanged. -/
theorem C8_ctrl_backspace (env : Env) (shift : Bool) (s : TextState) (c : Nat)
    (hc : s.text_cursor_pos = (c : Int)) (h0 : 0 < c) (hle : c ≤ s.zoom_text.length) :
    ∃ m b, MaxRunBack isBlank s.zoom_text c m ∧ MaxRunBack notBlank s.zoom_text m b ∧
      textKeyDown env VK_BACK true shift s =
        some { s with zoom_text := s.zoom_text.take b ++ s.zoom_text.drop c,
                      text_cursor_pos := (b : Int) } := by
  refine ⟨scanBack isBlank s.zoom_text c,
    scanBack notBlank s.zoom_text (scanBack isBlank s.zoom_text c),
    scanBack_maxRun _ _ _, scanBack_maxRun _ _ _, ?_⟩
  have hlt := scanBack_blank_word_lt s.zoom_text c h0
  have hne : s.zoom_text ≠ [] := by
    intro h; rw [h] at hle; simp at hle; omega
  rw [textKeyDown_VK_BACK]
  unfold key_VK_BACK
  simp only [if_true, hc, scanBackI_natCast]
  rw [if_pos ⟨hne, by omega⟩, if_pos (by omega)]
  unfold wstr_erase
  rw [if_pos ⟨by omega, by omega⟩, if_neg (by omega)]
  simp only [Option.map_some', Int.toNat_ofNat]
  congr 4
  omega

/-- C8 at the buffer "foo bar  " with the caret at its end. -/
theorem C8_ctrl_backspace_witness :
    (plainText "foo bar  " 9 Clipboard.empty).text_cursor_pos = ((9 : Nat) : Int) ∧ 0 < 9 ∧
    9 ≤ (plainText "foo bar  " 9 Clipboard.empty).zoom_text.length ∧
    ∃ m b, MaxRunBack isBlank (plainText "foo bar  " 9 Clipboard.empty).zoom_text 9 m ∧
      MaxRunBack notBlank (plainText "foo bar  " 9 Clipboard.empty).zoom_text m b ∧
      textKeyDown Env.allOk VK_BACK true false (plainText "foo bar  " 9 Clipboard.empty) =
        some { plainText "foo bar  " 9 Clipboard.empty with
          zoom_text := (plainText "foo bar  " 9 Clipboard.empty).zoom_text.take b ++
            (plainText "foo bar  " 9 Clipboard.empty).zoom_text.drop 9,
          text_cursor_pos := (b : Int) } :=
  ⟨rfl, by decide, by decide,
    C8_ctrl_backspace Env.allOk false (plainText "foo bar  " 9 Clipboard.empty) 9 rfl
      (by decide) (by decide)⟩

/-- C9 as stated fails: in "ab cd" with the caret at 0 the run of space/newline
characters at the caret is empty (`m = 0`) and the run of other characters that
follows stops at `e = 2`, yet Ctrl+Delete does not leave " cd": it erases "ab "
and leaves "cd". -/
theorem C9_counterexample :
    ∃ m e, MaxRunFwd isBlank "ab cd".toList 0 m ∧ MaxRunFwd notBlank "ab cd".toList m e ∧
      textKeyDown Env.allOk VK_DELETE true false (plainText "ab cd" 0 Clipboard.empty) ≠
        some { plainText "ab cd" 0 Clipboard.empty with
          zoom_text := "ab cd".toList.take 0 ++ "ab cd".toList.drop e } ∧
      textKeyDown Env.allOk VK_DELETE true false (plainText "ab cd" 0 Clipboard.empty) =
        some (plainText "cd" 0 Clipboard.empty) :=
  ⟨0, 2, by decide, by decide, by decide, by decide⟩

/-- C9 (amended): Ctrl+Delete with the caret `c < len` erases exactly
`text[c, e)`, where `m` is the end of the maximal run of non-space, non-newline
characters starting at `c` and `e` the end of the maximal run of space/newline
characters starting at `m`; the caret and the text before it (as every other
text global) are unchanged. -/
theorem C9_ctrl_delete (env : Env) (shift : Bool) (s : TextState) (c : Nat)
    (hc : s.text_cursor_pos = (c : Int)) (hlt : c < s.zoom_text.length) :
    ∃ m e, MaxRunFwd notBlank s.zoom_text c m ∧ MaxRunFwd isBlank s.zoom_text m e ∧
      textKeyDown env VK_DELETE true shift s =
        some { s with zoom_text := s.zoom_text.take c ++ s.zoom_text.drop e } := by
  have hm := scanFwd_maxRun notBlank s.zoom_text c (by omega)
  have he := scanFwd_maxRun isBlank s.zoom_text _ hm.2.1
  refine ⟨_, _, hm, he, ?_⟩
  have hgt := scanFwd_word_blank_gt s.zoom_text c hlt
  have hne : s.zoom_text ≠ [] := by
    intro h; rw [h] at hlt; simp at hlt
  rw [textKeyDown_VK_DELETE]
  unfold key_VK_DELETE
  simp only [if_true, hc, scanFwdI_natCast, TextState.len]
  rw [if_pos ⟨hne, by omega⟩, if_pos (by omega)]
  unfold wstr_erase
  rw [if_pos ⟨by omega, by omega⟩, if_neg (by omega)]
  simp only [Option.map_some', Int.toNat_ofNat]
  congr 4
  omega

/-- C9 (amended) at the buffer "ab cd" with the caret at 0. -/
theorem C9_ctrl_delete_witness :
    (plainText "ab cd" 0 Clipboard.empty).text_cursor_pos = ((0 : Nat) : Int) ∧
    0 < (plainText "ab cd" 0 Clipboard.empty).zoom_text.length ∧
    ∃ m e, MaxRunFwd notBlank (plainText "ab cd" 0 Clipboard.empty).zoom_text 0 m ∧
      MaxRunFwd isBlank (plainText "ab cd" 0 Clipboard.empty).zoom_text m e ∧
      textKeyDown Env.allOk VK_DELETE true false (plainText "ab cd" 0 Clipboard.empty) =
        some { plainText "ab cd" 0 Clipboard.empty with
          zoom_text := (plainText "ab cd" 0 Clipboard.empty).zoom_text.take 0 ++
            (plainText "ab cd" 0 Clipboard.empty).zoom_text.drop e } :=
  ⟨rfl, by decide,
    C9_ctrl_delete Env.allOk false (plainText "ab cd" 0 Clipboard.empty) 0 rfl (by decide)⟩

/-! ## Caret after a failed image paste -/

/-- C1 (code defect): from the empty buffer with caret 0, Ctrl+V with a
clipboard bitmap that `AddImageElement` rejects inserts the 14 characters of
the error marker and advances the caret by 15: the caret ends at 15 in a buffer
of length 14, and the next printable key makes `insert` throw. -/
theorem C1_failed_image_paste_caret_past_end :
    ∃ s, textKeyDown Env.allOk KEY_V true false (TextState.init wideImageClipboard) = some s ∧
      s.zoom_text = "[ERROR IMAGEN]".toList ∧ s.len = 14 ∧ s.text_cursor_pos = 15 ∧
      ¬ CaretInRange s ∧ Reachable s ∧
      textKeyDown Env.allOk 72 false false s = none :=
  ⟨_, rfl, by decide, by decide, by decide, by decide,
    Reachable.step (pressCtrl KEY_V) (Reachable.init wideImageClipboard) rfl, by decide⟩

/-! ## Copy, cut and paste -/

/-- C2 (code defect): with "hello" in the buffer and the selection (0, 5),
whose end is the buffer length, Ctrl+C empties the clipboard and stores nothing,
and Ctrl+X changes neither the clipboard nor the buffer; the selection (0, 4)
is copied as "hell". -/
theorem C2_selection_to_end_not_copied (cb : Clipboard) :
    textKeyDown Env.allOk KEY_C true false (helloSelected cb) =
      some (helloSelected Clipboard.empty) ∧
    textKeyDown Env.allOk KEY_X true false (helloSelected cb) = some (helloSelected cb) ∧
    textKeyDown Env.allOk KEY_C true false (selectedText "hello" 4 0 4 cb) =
      some (selectedText "hello" 4 0 4 ⟨some "hell".toList, none⟩) :=
  ⟨rfl, rfl, rfl⟩

/-- C3 (code defect): typing h, e, l, l, o, then Home, then Shift+End gives the
selection (0, 5) with caret 5, but the following Ctrl+C stores nothing on the
(emptied) clipboard, so Ctrl+V inserts nothing and the buffer stays "hello". -/
theorem C3_hello_scenario (cb : Clipboard) :
    runEvents typeHelloSelect (TextState.init cb) = some (helloSelected cb) ∧
    runEvents (typeHelloSelect ++ [pressCtrl KEY_C, pressCtrl KEY_V]) (TextState.init cb) =
      some (helloSelected Clipboard.empty) ∧
    (helloSelected Clipboard.empty).zoom_text = "hello".toList := by
  have h1 : (press 72).apply (TextState.init cb) = some (plainText "h" 1 cb) := rfl
  have h2 : (press 69).apply (plainText "h" 1 cb) = some (plainText "he" 2 cb) := rfl
  have h3 : (press 76).apply (plainText "he" 2 cb) = some (plainText "hel" 3 cb) := rfl
  have h4 : (press 76).apply (plainText "hel" 3 cb) = some (plainText "hell" 4 cb) := rfl
  have h5 : (press 79).apply (plainText "hell" 4 cb) = some (plainText "hello" 5 cb) := rfl
  have h6 : (press VK_HOME).apply (plainText "hello" 5 cb) = some (plainText "hello" 0 cb) := rfl
  have h7 : (pressShift VK_END).apply (plainText "hello" 0 cb) = some (helloSelected cb) := rfl
  have h8 : (pressCtrl KEY_C).apply (helloSelected cb) = some (helloSelected Clipboard.empty) :=
    rfl
  have h9 : (pressCtrl KEY_V).apply (helloSelected Clipboard.empty) =
      some (helloSelected Clipboard.empty) := rfl
  refine ⟨?_, ?_, rfl⟩
  · rw [typeHelloSelect, runEvents_cons_of_apply _ h1, runEvents_cons_of_apply _ h2,
      runEvents_cons_of_apply _ h3, runEvents_cons_of_apply _ h4, runEvents_cons_of_apply _ h5,
      runEvents_cons_of_apply _ h6, runEvents_cons_of_apply _ h7, runEvents]
  · rw [typeHelloSelect, List.cons_append, List.cons_append, List.cons_append, List.cons_append,
      List.cons_append, List.cons_append, List.cons_append, List.nil_append,
      runEvents_cons_of_apply _ h1, runEvents_cons_of_apply _ h2,
      runEvents_cons_of_apply _ h3, runEvents_cons_of_apply _ h4, runEvents_cons_of_apply _ h5,
      runEvents_cons_of_apply _ h6, runEvents_cons_of_apply _ h7, runEvents_cons_of_apply _ h8,
      runEvents_cons_of_apply _ h9, runEvents]

/-! ## Image paste -/

theorem wstr_insert_natCast (t : List Char) (c : Nat) (str : List Char) (h : c ≤ t.length) :
    wstr_insert t (c : Int) str = some (t.take c ++ str ++ t.drop c) := by
  unfold wstr_insert
  rw [if_pos ⟨by omega, by omega⟩]
  simp

theorem insertNewlines_natCast (n : Nat) (t : List Char) (c : Nat) (h : c ≤ t.length) :
    insertNewlines n t (c : Int) =
      some (t.take c ++ List.replicate n NL ++ t.drop c, ((c + n : Nat) : Int)) := by
  induction n generalizing t c with
  | zero => simp [insertNewlines]
  | succ n ih =>
    simp only [insertNewlines]
    rw [wstr_insert_natCast t c [NL] h]
    simp only [Option.some_bind]
    have e : ((c : Nat) : Int) + 1 = ((c + 1 : Nat) : Int) := by omega
    have hl : (t.take c ++ [NL]).length = c + 1 := by simp [List.length_take]; omega
    rw [e, ih (t.take c ++ [NL] ++ t.drop c) (c + 1) (by simp [List.length_take]; omega)]
    have e1 : (t.take c ++ [NL] ++ t.drop c).take (c + 1) = t.take c ++ [NL] := by
      rw [← hl, List.take_left']
      rfl
    have e2 : (t.take c ++ [NL] ++ t.drop c).drop (c + 1) = t.drop c := by
      rw [← hl, List.drop_left']
      rfl
    rw [e1, e2]
    simp only [List.replicate_succ, List.append_assoc, List.singleton_append, Option.some.injEq, Prod.mk.injEq]
    constructor
    · trivial
    · omega

theorem imageLines_eq_ceil (h : Int) :
    (h + 20 - 1) / 20 = ⌈(h : ℚ) / 20⌉ := by
  symm
  rw [Int.ceil_eq_iff]
  have h1 : 20 * ((h + 20 - 1) / 20) - 20 < h ∧ h ≤ 20 * ((h + 20 - 1) / 20) := by omega
  obtain ⟨a, b⟩ := h1
  constructor
  · rw [lt_div_iff₀ (by norm_num)]
    have : ((20 * ((h + 20 - 1) / 20) - 20 : Int) : ℚ) < (h : ℚ) := by exact_mod_cast a
    push_cast at this ⊢
    linarith
  · rw [div_le_iff₀ (by norm_num)]
    have : ((h : Int) : ℚ) ≤ ((20 * ((h + 20 - 1) / 20) : Int) : ℚ) := by exact_mod_cast b
    push_cast at this ⊢
    linarith

theorem imageMarker_length_pos (k : Int) : 0 < ((imageMarker k).length : Int) := by
  unfold imageMarker
  simp only [List.length_append]
  have : ("[IMAGE_".toList).length = 7 := by decide
  omega

/-- Result of `AddImageElement` when the bitmap is accepted and copied. -/
theorem AddImageElement_ok (env : Env) (s : TextState) (c : Nat) (bm : Bitmap)
    (hc : s.text_cursor_pos = (c : Int)) (hle : c ≤ s.zoom_text.length)
    (hbm : s.clipboard.bitmap = some bm)
    (hw : 1 ≤ bm.bmWidth ∧ bm.bmWidth ≤ 2000) (hh : 1 ≤ bm.bmHeight ∧ bm.bmHeight ≤ 2000)
    (henv : env.reopenClipboard = true ∧ env.gdiAcquire = true ∧ env.createBitmap = true ∧
      env.blit = true) :
    ∃ n : Nat, (n : Int) = max 0 (⌈(bm.bmHeight : ℚ) / 20⌉ - 6) ∧
      (s.clipboard_images ++ [some bm]).get? s.clipboard_images.length = some (some bm) ∧
      AddImageElement env s = some (true, { s with
        clipboard_images := s.clipboard_images ++ [some bm],
        zoom_text := s.zoom_text.take c ++ imageMarker (s.clipboard_images.length : Int) ++
          List.replicate n NL ++ s.zoom_text.drop c,
        text_cursor_pos :=
          (c : Int) + ((imageMarker (s.clipboard_images.length : Int)).length : Int) + (n : Int) }) := by
  obtain ⟨e1, e2, e3, e4⟩ := henv
  refine ⟨(max 0 ((bm.bmHeight + 20 - 1) / 20 - 6)).toNat, ?_, ?_, ?_⟩
  · rw [← imageLines_eq_ceil]
    omega
  · simp
  · unfold AddImageElement
    simp only [e1, e2, e3, e4, hbm, not_true_eq_false, if_false, if_true]
    rw [if_pos ⟨by omega, by omega, hw.2, hh.2⟩]
    have hk : (((s.clipboard_images ++ [some bm]).length : Nat) : Int) - 1 =
        ((s.clipboard_images.length : Nat) : Int) := by
      simp
    simp only [hk]
    rw [if_pos (imageMarker_length_pos _), hc, wstr_insert_natCast _ _ _ hle]
    simp only [Option.map_some', Option.some_bind]
    generalize imageMarker (s.clipboard_images.length : Int) = marker
    generalize (max 0 ((bm.bmHeight + 20 - 1) / 20 - 6)).toNat = n
    have hl : (s.zoom_text.take c ++ marker).length = c + marker.length := by
      simp [List.length_take]; omega
    have e : ((c : Nat) : Int) + ((marker.length : Nat) : Int) = ((c + marker.length : Nat) : Int) := by
      omega
    rw [e, insertNewlines_natCast n _ (c + marker.length) (by simp [List.length_take]; omega)]
    have t1 : (s.zoom_text.take c ++ marker ++ s.zoom_text.drop c).take (c + marker.length) =
        s.zoom_text.take c ++ marker := by
      rw [← hl, List.take_left']
      rfl
    have t2 : (s.zoom_text.take c ++ marker ++ s.zoom_text.drop c).drop (c + marker.length) =
        s.zoom_text.drop c := by
      rw [← hl, List.drop_left']
      rfl
    rw [t1, t2]
    simp only [Option.map_some']
    congr 3

theorem digitChar_value (m : Nat) (h : m < 10) :
    (Nat.digitChar m).toNat - 48 = m ∧ (Nat.digitChar m).isDigit = true ∧
      (0 < m → Nat.digitChar m ≠ Char.ofNat 48) := by
  interval_cases m <;> decide

theorem toDigitsCore_decimal (fuel : Nat) :
    ∀ (n : Nat) (ds : List Char), n < fuel →
      (Nat.toDigitsCore 10 fuel n ds).foldl (fun acc d => 10 * acc + (d.toNat - 48)) 0 =
        ds.foldl (fun acc d => 10 * acc + (d.toNat - 48)) n ∧
      ((∀ d ∈ ds, d.isDigit = true) → ∀ d ∈ Nat.toDigitsCore 10 fuel n ds, d.isDigit = true) ∧
      (0 < n → (Nat.toDigitsCore 10 fuel n ds).head? ≠ some (Char.ofNat 48)) ∧
      Nat.toDigitsCore 10 fuel n ds ≠ [] := by
  induction fuel with
  | zero => intro n ds h; omega
  | succ fuel ih =>
    intro n ds h
    have hd := digitChar_value (n % 10) (Nat.mod_lt n (by norm_num))
    simp only [Nat.toDigitsCore]
    by_cases h0 : n / 10 = 0
    · rw [if_pos h0]
      have hn : n % 10 = n := Nat.mod_eq_of_lt (by omega)
      rw [hn] at hd ⊢
      refine ⟨?_, ?_, ?_, by simp⟩
      · simp only [List.foldl_cons, hd.1, Nat.mul_zero, Nat.zero_add]
      · intro hds d hmem
        rw [List.mem_cons] at hmem
        rcases hmem with rfl | hmem
        · exact hd.2.1
        · exact hds d hmem
      · intro hpos
        simp only [List.head?_cons, ne_eq, Option.some.injEq]
        exact hd.2.2 (by omega)
    · rw [if_neg h0]
      obtain ⟨a1, a2, a3, a4⟩ := ih (n / 10) (Nat.digitChar (n % 10) :: ds) (by omega)
      refine ⟨?_, ?_, ?_, a4⟩
      · rw [a1]
        simp only [List.foldl_cons, hd.1]
        congr 1
        omega
      · intro hds
        apply a2
        intro d hmem
        rw [List.mem_cons] at hmem
        rcases hmem with rfl | hmem
        · exact hd.2.1
        · exact hds d hmem
      · intro _
        exact a3 (Nat.pos_of_ne_zero h0)

theorem toDigits_isDecimalOf (k : Nat) : IsDecimalOf (Nat.toDigits 10 k) k := by
  obtain ⟨a1, a2, a3, a4⟩ := toDigitsCore_decimal (k + 1) k [] (by omega)
  refine ⟨a4, a2 (fun d hd => by cases hd), ?_, ?_⟩
  · intro hh
    rcases Nat.eq_zero_or_pos k with h0 | h0
    · subst h0; rfl
    · exact absurd hh (a3 h0)
  · unfold decimalValue Nat.toDigits
    rw [a1]
    rfl

theorem imageMarker_natCast (k : Nat) :
    imageMarker (k : Int) = "[IMAGE_".toList ++ Nat.toDigits 10 k ++ "]".toList := by
  unfold imageMarker
  rfl

theorem isDigit_value {d : Char} (h : d.isDigit = true) : 48 ≤ d.toNat ∧ d.toNat - 48 < 10 := by
  unfold Char.isDigit at h
  simp only [Bool.and_eq_true, decide_eq_true_eq] at h
  have h1 : (48 : UInt32).toNat ≤ d.val.toNat := h.1
  have h2 : d.val.toNat ≤ (57 : UInt32).toNat := h.2
  have e1 : (48 : UInt32).toNat = 48 := rfl
  have e2 : (57 : UInt32).toNat = 57 := rfl
  unfold Char.toNat
  omega

theorem decimalValue_eq_ofDigits (ds : List Char) :
    decimalValue ds = Nat.ofDigits 10 (ds.reverse.map fun d => d.toNat - 48) := by
  unfold decimalValue
  induction ds using List.reverseRecOn with
  | nil => rfl
  | append_singleton init l ih =>
    rw [List.foldl_append, List.reverse_append]
    simp only [List.foldl_cons, List.foldl_nil, List.reverse_cons, List.reverse_nil,
      List.nil_append, List.singleton_append, List.map_cons, Nat.ofDigits_cons]
    rw [ih]
    omega

theorem digit_char_inj {x y : Char} (hx : x.isDigit = true) (hy : y.isDigit = true)
    (h : x.toNat - 48 = y.toNat - 48) : x = y := by
  have h1 := isDigit_value hx
  have h2 := isDigit_value hy
  apply Char.ext
  apply UInt32.ext
  have : x.toNat = y.toNat := by omega
  exact this

theorem map_digit_inj : ∀ (xs ys : List Char), (∀ d ∈ xs, d.isDigit = true) →
    (∀ d ∈ ys, d.isDigit = true) →
    (xs.map fun d => d.toNat - 48) = (ys.map fun d => d.toNat - 48) → xs = ys
  | [], [], _, _, _ => rfl
  | [], _ :: _, _, _, h => by simp at h
  | _ :: _, [], _, _, h => by simp at h
  | x :: xs, y :: ys, hx, hy, h => by
    simp only [List.map_cons, List.cons.injEq] at h
    rw [digit_char_inj (hx x (List.mem_cons_self _ _)) (hy y (List.mem_cons_self _ _)) h.1,
      map_digit_inj xs ys (fun d hd => hx d (List.mem_cons_of_mem _ hd))
        (fun d hd => hy d (List.mem_cons_of_mem _ hd)) h.2]

theorem IsDecimalOf_digits_eq {ds : List Char} {k : Nat} (h : IsDecimalOf ds k)
    (hz : ds.head? ≠ some (Char.ofNat 48)) :
    (ds.reverse.map fun d => d.toNat - 48) = Nat.digits 10 k := by
  obtain ⟨h1, h2, h3, h4⟩ := h
  rw [decimalValue_eq_ofDigits] at h4
  rw [← h4]
  symm
  apply Nat.digits_ofDigits 10 (by norm_num)
  · intro l hl
    rw [List.mem_map] at hl
    obtain ⟨d, hd, rfl⟩ := hl
    exact (isDigit_value (h2 d (List.mem_reverse.mp hd))).2
  · intro hne
    rw [List.getLast_map, List.getLast_reverse]
    intro h0
    have hd := isDigit_value (h2 _ (List.head_mem (by simpa using hne)))
    have e : ds.head (by simpa using hne) = Char.ofNat 48 := by
      apply Char.ext
      apply UInt32.ext
      have : (ds.head (by simpa using hne)).toNat = 48 := by omega
      exact this
    apply hz
    rw [List.head?_eq_head (by simpa using hne), e]

/-- A number has one decimal numeral only. -/
theorem IsDecimalOf_unique {a b : List Char} {k : Nat} (ha : IsDecimalOf a k)
    (hb : IsDecimalOf b k) : a = b := by
  have zero : ∀ ds, IsDecimalOf ds k → ds.head? = some (Char.ofNat 48) →
      ds = [Char.ofNat 48] ∧ k = 0 := by
    intro ds hds hh
    have e := hds.2.2.1 hh
    refine ⟨e, ?_⟩
    have hv := hds.2.2.2
    rw [e] at hv
    rw [← hv]
    rfl
  have pos : ∀ ds, IsDecimalOf ds k → ds.head? ≠ some (Char.ofNat 48) → 0 < k := by
    intro ds hds hh
    have e := IsDecimalOf_digits_eq hds hh
    rcases Nat.eq_zero_or_pos k with h0 | h0
    · rw [h0, Nat.digits_zero] at e
      simp only [List.map_eq_nil_iff, List.reverse_eq_nil_iff] at e
      exact absurd e hds.1
    · exact h0
  by_cases h1 : a.head? = some (Char.ofNat 48)
  · obtain ⟨ea, hk⟩ := zero a ha h1
    by_cases h2 : b.head? = some (Char.ofNat 48)
    · rw [ea, (zero b hb h2).1]
    · have := pos b hb h2
      omega
  · by_cases h2 : b.head? = some (Char.ofNat 48)
    · have := pos a ha h1
      have := (zero b hb h2).2
      omega
    · have e := (IsDecimalOf_digits_eq ha h1).trans (IsDecimalOf_digits_eq hb h2).symm
      have e2 := map_digit_inj a.reverse b.reverse
        (fun d hd => ha.2.1 d (List.mem_reverse.mp hd))
        (fun d hd => hb.2.1 d (List.mem_reverse.mp hd)) e
      exact List.reverse_injective e2

/-- The marker `AddImageElement` builds for the image index `k` is `[IMAGE_`,
the decimal numeral of `k`, `]`. -/
theorem imageMarker_decimal (k : Nat) :
    ∃ digits, IsDecimalOf digits k ∧ (∀ ds, IsDecimalOf ds k → ds = digits) ∧
      imageMarker (k : Int) = "[IMAGE_".toList ++ digits ++ "]".toList ∧
      ((imageMarker (k : Int)).length : Int) = ((7 + digits.length + 1 : Nat) : Int) :=
  ⟨Nat.toDigits 10 k, toDigits_isDecimalOf k,
    fun _ hds => IsDecimalOf_unique hds (toDigits_isDecimalOf k), imageMarker_natCast k, by
      rw [imageMarker_natCast]
      simp only [List.length_append]
      have e1 : ("[IMAGE_".toList).length = 7 := by decide
      have e2 : ("]".toList).length = 1 := by decide
      rw [e1, e2]⟩

/-- Result of `AddImageElement` when the bitmap is accepted and copied, with
the marker spelled out. -/
theorem AddImageElement_ok_marker (env : Env) (s : TextState) (c : Nat) (bm : Bitmap)
    (hc : s.text_cursor_pos = (c : Int)) (hle : c ≤ s.zoom_text.length)
    (hbm : s.clipboard.bitmap = some bm)
    (hw : 1 ≤ bm.bmWidth ∧ bm.bmWidth ≤ 2000) (hh : 1 ≤ bm.bmHeight ∧ bm.bmHeight ≤ 2000)
    (henv : env.reopenClipboard = true ∧ env.gdiAcquire = true ∧ env.createBitmap = true ∧
      env.blit = true) :
    ∃ (n : Nat) (digits : List Char), (n : Int) = max 0 (⌈(bm.bmHeight : ℚ) / 20⌉ - 6) ∧
      IsDecimalOf digits s.clipboard_images.length ∧
      (∀ ds, IsDecimalOf ds s.clipboard_images.length → ds = digits) ∧
      (s.clipboard_images ++ [some bm]).get? s.clipboard_images.length = some (some bm) ∧
      AddImageElement env s = some (true, { s with
        clipboard_images := s.clipboard_images ++ [some bm],
        zoom_text := s.zoom_text.take c ++ "[IMAGE_".toList ++ digits ++ "]".toList ++
          List.replicate n NL ++ s.zoom_text.drop c,
        text_cursor_pos := (c : Int) + ((7 + digits.length + 1 : Nat) : Int) + (n : Int) }) := by
  obtain ⟨n, hn, himg, hres⟩ := AddImageElement_ok env s c bm hc hle hbm hw hh henv
  obtain ⟨digits, hd, hu, hm, hl⟩ := imageMarker_decimal s.clipboard_images.length
  refine ⟨n, digits, hn, hd, hu, himg, ?_⟩
  rw [hres, hl, hm]
  simp only [List.append_assoc]

/-- C10: for a caret `c` within the buffer, `k` stored images and a clipboard
bitmap of width and height in 1..2000 whose copy succeeds, `AddImageElement`
returns true, appends the bitmap as `clipboard_images[k]`, and turns the buffer
into `text[0,c) ++ "[IMAGE_" ++ digits ++ "]" ++ n newlines ++ text[c,..)`,
where `digits` is the decimal numeral of `k` (the only one) and
`n = max 0 (ceil (h / 20) - 6)`, the caret ending right after the newlines. -/
theorem C10_AddImageElement_success (env : Env) (s : TextState) (c : Nat) (bm : Bitmap)
    (hc : s.text_cursor_pos = (c : Int)) (hle : c ≤ s.zoom_text.length)
    (hbm : s.clipboard.bitmap = some bm)
    (hw : 1 ≤ bm.bmWidth ∧ bm.bmWidth ≤ 2000) (hh : 1 ≤ bm.bmHeight ∧ bm.bmHeight ≤ 2000)
    (henv : env.reopenClipboard = true ∧ env.gdiAcquire = true ∧ env.createBitmap = true ∧
      env.blit = true) :
    ∃ (n : Nat) (digits : List Char), (n : Int) = max 0 (⌈(bm.bmHeight : ℚ) / 20⌉ - 6) ∧
      IsDecimalOf digits s.clipboard_images.length ∧
      (∀ ds, IsDecimalOf ds s.clipboard_images.length → ds = digits) ∧
      (s.clipboard_images ++ [some bm]).get? s.clipboard_images.length = some (some bm) ∧
      AddImageElement env s = some (true, { s with
        clipboard_images := s.clipboard_images ++ [some bm],
        zoom_text := s.zoom_text.take c ++ "[IMAGE_".toList ++ digits ++ "]".toList ++
          List.replicate n NL ++ s.zoom_text.drop c,
        text_cursor_pos := (c : Int) + ((7 + digits.length + 1 : Nat) : Int) + (n : Int) }) :=
  AddImageElement_ok_marker env s c bm hc hle hbm hw hh henv

/-- C10 for a bitmap of height 200 pasted at caret 1 of the buffer "ab" when 12
images are stored: the buffer becomes "a", the marker "[IMAGE_12]", exactly 4
newlines, "b", with the caret at 15 and the bitmap stored as image 12. Into the
empty buffer with no image stored the same bitmap gives "[IMAGE_0]" followed
by 4 newlines, caret 13. -/
theorem C10_AddImageElement_success_witness :
    ((twelveImages.text_cursor_pos = ((1 : Nat) : Int) ∧ 1 ≤ twelveImages.zoom_text.length ∧
      twelveImages.clipboard.bitmap = some ⟨300, 200⟩ ∧
      twelveImages.clipboard_images.length = 12) ∧
     ((1 : Int) ≤ (⟨300, 200⟩ : Bitmap).bmWidth ∧ (⟨300, 200⟩ : Bitmap).bmWidth ≤ 2000) ∧
     ((1 : Int) ≤ (⟨300, 200⟩ : Bitmap).bmHeight ∧ (⟨300, 200⟩ : Bitmap).bmHeight ≤ 2000)) ∧
    (∃ (n : Nat) (digits : List Char),
      (n : Int) = max 0 (⌈(((⟨300, 200⟩ : Bitmap).bmHeight : Int) : ℚ) / 20⌉ - 6) ∧
      IsDecimalOf digits twelveImages.clipboard_images.length ∧
      (∀ ds, IsDecimalOf ds twelveImages.clipboard_images.length → ds = digits) ∧
      (twelveImages.clipboard_images ++ [some (⟨300, 200⟩ : Bitmap)]).get?
        twelveImages.clipboard_images.length = some (some ⟨300, 200⟩) ∧
      AddImageElement Env.allOk twelveImages = some (true, { twelveImages with
        clipboard_images := twelveImages.clipboard_images ++ [some ⟨300, 200⟩],
        zoom_text := twelveImages.zoom_text.take 1 ++ "[IMAGE_".toList ++ digits ++
          "]".toList ++ List.replicate n NL ++ twelveImages.zoom_text.drop 1,
        text_cursor_pos :=
          ((1 : Nat) : Int) + ((7 + digits.length + 1 : Nat) : Int) + (n : Int) })) ∧
    IsDecimalOf "12".toList 12 ∧
    AddImageElement Env.allOk twelveImages = some (true,
      { twelveImages with
        clipboard_images := twelveImages.clipboard_images ++ [some ⟨300, 200⟩],
        zoom_text := "a[IMAGE_12]".toList ++ [NL, NL, NL, NL] ++ "b".toList,
        text_cursor_pos := 15 }) ∧
    AddImageElement Env.allOk (TextState.init ⟨none, some ⟨300, 200⟩⟩) = some (true,
      { TextState.init ⟨none, some ⟨300, 200⟩⟩ with
        clipboard_images := [some ⟨300, 200⟩],
        zoom_text := "[IMAGE_0]".toList ++ [NL, NL, NL, NL],
        text_cursor_pos := 13 }) :=
  ⟨⟨⟨rfl, by decide, rfl, by decide⟩, by decide, by decide⟩,
    C10_AddImageElement_success Env.allOk twelveImages 1 ⟨300, 200⟩
      rfl (by decide) rfl (by decide) (by decide) (by decide),
    by decide, by decide, by decide⟩

/-! ## Selection bounds -/

theorem wstr_insert_some {t : List Char} {pos : Int} {str t1 : List Char}
    (h : wstr_insert t pos str = some t1) :
    0 ≤ pos ∧ pos ≤ (t.length : Int) ∧ (t1.length : Int) = t.length + str.length := by
  unfold wstr_insert at h
  split at h
  · rename_i hp
    simp only [Option.some.injEq] at h
    subst h
    refine ⟨hp.1, hp.2, ?_⟩
    simp only [List.length_append, List.length_take, List.length_drop]
    omega
  · cases h

theorem wstr_erase_some {t : List Char} {pos n : Int} {t1 : List Char}
    (h : wstr_erase t pos n = some t1) (hn : 0 ≤ n) (hle : pos + n ≤ (t.length : Int)) :
    0 ≤ pos ∧ (t1.length : Int) = t.length - n := by
  unfold wstr_erase at h
  split at h
  · rename_i hp
    simp only [Option.some.injEq] at h
    subst h
    refine ⟨hp.1, ?_⟩
    rw [if_neg (by omega)]
    simp only [List.length_append, List.length_take, List.length_drop]
    omega
  · cases h

theorem scanBackI_bounds (p : Char → Bool) (t : List Char) (pos : Int) (h : 0 ≤ pos) :
    0 ≤ scanBackI p t pos ∧ scanBackI p t pos ≤ pos := by
  unfold scanBackI
  split
  · omega
  · have := scanBack_le p t pos.toNat
    omega

theorem scanFwdI_bounds (p : Char → Bool) (t : List Char) (pos : Int) (h : 0 ≤ pos)
    (hle : pos ≤ (t.length : Int)) :
    pos ≤ scanFwdI p t pos ∧ scanFwdI p t pos ≤ (t.length : Int) := by
  unfold scanFwdI
  rw [if_neg (by omega)]
  have := scanFwd_ge p t (t.length - pos.toNat) pos.toNat
  have := scanFwd_le p t (t.length - pos.toNat) pos.toNat (by omega)
  omega

theorem upTarget_bounds {t : List Char} {pos tp : Int} (h : upTarget t pos = some tp)
    (h0 : 0 ≤ pos) : 0 ≤ tp ∧ tp ≤ pos := by
  unfold upTarget at h
  simp only at h
  split at h
  · rename_i hl
    simp only [Option.some.injEq] at h
    have b1 := scanBackI_bounds notNL t pos h0
    have b2 := scanBackI_bounds notNL t (scanBackI notNL t pos - 1) (by omega)
    omega
  · cases h

theorem downTarget_bounds {t : List Char} {pos tp : Int} (h : downTarget t pos = some tp)
    (h0 : 0 ≤ pos) (hle : pos ≤ (t.length : Int)) : pos ≤ tp ∧ tp ≤ (t.length : Int) := by
  unfold downTarget at h
  simp only at h
  split at h
  · rename_i hl
    simp only [Option.some.injEq] at h
    have b0 := scanBackI_bounds notNL t pos h0
    have b1 := scanFwdI_bounds notNL t pos h0 hle
    have b2 := scanFwdI_bounds notNL t (scanFwdI notNL t pos + 1) (by omega) (by omega)
    omega
  · cases h

theorem key_VK_LEFT_inv (shift : Bool) (s : TextState) (h : SelectionInv s) :
    SelectionInv (key_VK_LEFT shift s) := by
  unfold SelectionInv CaretInRange SelectionInRange TextState.len at *
  unfold key_VK_LEFT TextState.clearSelection
  obtain ⟨⟨c0, c1⟩, hsel⟩ := h
  split
  · cases shift <;> cases ha : s.text_selection_active <;> simp [ha] at hsel ⊢ <;> omega
  · exact ⟨⟨c0, c1⟩, hsel⟩

theorem key_VK_RIGHT_inv (shift : Bool) (s : TextState) (h : SelectionInv s) :
    SelectionInv (key_VK_RIGHT shift s) := by
  unfold SelectionInv CaretInRange SelectionInRange TextState.len at *
  unfold key_VK_RIGHT TextState.clearSelection TextState.len
  obtain ⟨⟨c0, c1⟩, hsel⟩ := h
  split
  · cases shift <;> cases ha : s.text_selection_active <;> simp [ha] at hsel ⊢ <;> omega
  · exact ⟨⟨c0, c1⟩, hsel⟩

theorem key_VK_HOME_inv (ctrl shift : Bool) (s : TextState) (h : SelectionInv s) :
    SelectionInv (key_VK_HOME ctrl shift s) := by
  unfold SelectionInv CaretInRange SelectionInRange TextState.len at *
  unfold key_VK_HOME TextState.clearSelection TextState.anchorSelection
  obtain ⟨⟨c0, c1⟩, hsel⟩ := h
  have b := scanBackI_bounds notNL s.zoom_text s.text_cursor_pos c0
  cases ctrl <;> cases shift <;> cases ha : s.text_selection_active <;>
    simp [ha] at hsel ⊢ <;> omega

theorem key_VK_END_inv (ctrl shift : Bool) (s : TextState) (h : SelectionInv s) :
    SelectionInv (key_VK_END ctrl shift s) := by
  unfold SelectionInv CaretInRange SelectionInRange TextState.len at *
  unfold key_VK_END TextState.clearSelection TextState.anchorSelection TextState.len
  obtain ⟨⟨c0, c1⟩, hsel⟩ := h
  have b := scanFwdI_bounds notNL s.zoom_text s.text_cursor_pos c0 c1
  cases ctrl <;> cases shift <;> cases ha : s.text_selection_active <;>
    simp [ha] at hsel ⊢ <;> omega


theorem notNL_eq_false {x : Char} (h : notNL x = false) : x = NL := by
  unfold notNL at h
  simpa [bne] using h

theorem notNL_of_eq {x : Char} (h : x = NL) : notNL x = false := by
  unfold notNL
  simp [bne, h]

theorem scanBack_pos_iff_hasPrevLine (t : List Char) (n : Nat) :
    0 < scanBack notNL t n ↔ hasPrevLine t n := by
  constructor
  · intro h
    rcases scanBack_stop notNL t n with h0 | h0
    · omega
    · exact ⟨scanBack notNL t n - 1, by have := scanBack_le notNL t n; omega,
        notNL_eq_false h0⟩
  · rintro ⟨i, hi, he⟩
    by_contra h0
    have := scanBack_all notNL t n i (by omega) hi
    rw [notNL_of_eq he] at this
    cases this

theorem scanFwd_lt_iff_hasNextLine (t : List Char) (n : Nat) (hn : n ≤ t.length) :
    scanFwd notNL t (t.length - n) n < t.length ↔ hasNextLine t n := by
  constructor
  · intro h
    rcases scanFwd_stop notNL t (t.length - n) n (le_refl _) with h0 | h0 | h0
    · omega
    · omega
    · exact ⟨_, h, scanFwd_ge notNL t _ n, notNL_eq_false h0⟩
  · rintro ⟨i, hi, hc, he⟩
    by_contra h0
    have hl := scanFwd_le notNL t (t.length - n) n hn
    have := scanFwd_all notNL t (t.length - n) n i hc (by omega)
    rw [notNL_of_eq he] at this
    cases this

theorem upTarget_isSome_iff (t : List Char) (pos : Int) (h0 : 0 ≤ pos) :
    (upTarget t pos).isSome = true ↔ hasPrevLine t pos.toNat := by
  obtain ⟨n, rfl⟩ := Int.eq_ofNat_of_zero_le h0
  rw [upTarget_natCast, ← scanBack_pos_iff_hasPrevLine]
  simp only [Int.toNat_ofNat]
  split <;> simp_all

theorem downTarget_isSome_iff (t : List Char) (pos : Int) (h0 : 0 ≤ pos)
    (hle : pos ≤ (t.length : Int)) :
    (downTarget t pos).isSome = true ↔ hasNextLine t pos.toNat := by
  obtain ⟨n, rfl⟩ := Int.eq_ofNat_of_zero_le h0
  rw [downTarget_natCast, ← scanFwd_lt_iff_hasNextLine t _ (by omega)]
  simp only [Int.toNat_ofNat]
  split <;> simp_all

theorem key_VK_UP_inv (ctrl shift : Bool) (s : TextState) (h : SelectionInv s)
    (hg : ctrl = false ∧ shift = true ∧ s.text_selection_active = false →
      hasPrevLine s.zoom_text s.text_cursor_pos.toNat) :
    SelectionInv (key_VK_UP ctrl shift s) := by
  have hi := upTarget_isSome_iff s.zoom_text s.text_cursor_pos h.1.1
  unfold SelectionInv CaretInRange SelectionInRange TextState.len at *
  unfold key_VK_UP TextState.clearSelection TextState.anchorSelection
  obtain ⟨⟨c0, c1⟩, hsel⟩ := h
  cases hu : upTarget s.zoom_text s.text_cursor_pos with
  | none =>
    rw [hu] at hi
    cases ctrl <;> cases shift <;> cases ha : s.text_selection_active <;>
      simp [ha, hu] at hsel hg hi ⊢ <;> first | omega | exact absurd hg hi
  | some tp =>
    have b := upTarget_bounds hu c0
    cases ctrl <;> cases shift <;> cases ha : s.text_selection_active <;>
      simp [ha, hu] at hsel ⊢ <;> omega

theorem key_VK_DOWN_inv (ctrl shift : Bool) (s : TextState) (h : SelectionInv s)
    (hg : ctrl = false ∧ shift = true ∧ s.text_selection_active = false →
      hasNextLine s.zoom_text s.text_cursor_pos.toNat) :
    SelectionInv (key_VK_DOWN ctrl shift s) := by
  have hi := downTarget_isSome_iff s.zoom_text s.text_cursor_pos h.1.1 h.1.2
  unfold SelectionInv CaretInRange SelectionInRange TextState.len at *
  unfold key_VK_DOWN TextState.clearSelection TextState.anchorSelection
  obtain ⟨⟨c0, c1⟩, hsel⟩ := h
  cases hu : downTarget s.zoom_text s.text_cursor_pos with
  | none =>
    rw [hu] at hi
    cases ctrl <;> cases shift <;> cases ha : s.text_selection_active <;>
      simp [ha, hu] at hsel hg hi ⊢ <;> first | omega | exact absurd hg hi
  | some tp =>
    have b := downTarget_bounds hu c0 c1
    cases ctrl <;> cases shift <;> cases ha : s.text_selection_active <;>
      simp [ha, hu] at hsel ⊢ <;> omega


theorem insertChar_inv {s s1 : TextState} (c : Char) (h : SelectionInv s)
    (he : s.insertChar c = some s1) : SelectionInv s1 := by
  unfold TextState.insertChar at he
  cases hw : wstr_insert s.zoom_text s.text_cursor_pos [c] with
  | none => rw [hw] at he; cases he
  | some t1 =>
    rw [hw] at he
    simp only [Option.map_some', Option.some.injEq] at he
    subst he
    have b := wstr_insert_some hw
    unfold SelectionInv CaretInRange SelectionInRange TextState.len at *
    obtain ⟨⟨c0, c1⟩, hsel⟩ := h
    simp only [List.length_singleton] at b
    refine ⟨⟨by simp; omega, by simp; omega⟩, fun ha => ?_⟩
    have := hsel ha
    simp
    omega

theorem key_VK_BACK_inv {s s1 : TextState} (ctrl : Bool) (h : SelectionInv s)
    (hg : s.text_selection_active = false) (he : key_VK_BACK ctrl s = some s1) :
    SelectionInv s1 := by
  unfold SelectionInv CaretInRange SelectionInRange TextState.len at *
  obtain ⟨⟨c0, c1⟩, hsel⟩ := h
  unfold key_VK_BACK at he
  have b1 := scanBackI_bounds isBlank s.zoom_text s.text_cursor_pos c0
  have b2 := scanBackI_bounds notBlank s.zoom_text _ b1.1
  cases ctrl
  · simp only [Bool.false_eq_true, if_false] at he
    split at he
    · cases hw : wstr_erase s.zoom_text (s.text_cursor_pos - 1) 1 with
      | none => rw [hw] at he; cases he
      | some t1 =>
        rw [hw] at he
        simp only [Option.map_some', Option.some.injEq] at he
        subst he
        have b := wstr_erase_some hw (by omega) (by omega)
        simp [hg]
        omega
    · simp only [Option.some.injEq] at he
      subst he
      exact ⟨⟨c0, c1⟩, hsel⟩
  · simp only [if_true] at he
    split at he
    · split at he
      · rename_i hlt
        cases hw : wstr_erase s.zoom_text
            (scanBackI notBlank s.zoom_text (scanBackI isBlank s.zoom_text s.text_cursor_pos))
            (s.text_cursor_pos -
              scanBackI notBlank s.zoom_text (scanBackI isBlank s.zoom_text s.text_cursor_pos)) with
        | none => rw [hw] at he; cases he
        | some t1 =>
          rw [hw] at he
          simp only [Option.map_some', Option.some.injEq] at he
          subst he
          have b := wstr_erase_some hw (by omega) (by omega)
          simp [hg]
          omega
      · simp only [Option.some.injEq] at he
        subst he
        exact ⟨⟨c0, c1⟩, hsel⟩
    · simp only [Option.some.injEq] at he
      subst he
      exact ⟨⟨c0, c1⟩, hsel⟩

theorem key_VK_DELETE_inv {s s1 : TextState} (ctrl : Bool) (h : SelectionInv s)
    (hg : s.text_selection_active = false) (he : key_VK_DELETE ctrl s = some s1) :
    SelectionInv s1 := by
  unfold SelectionInv CaretInRange SelectionInRange TextState.len at *
  obtain ⟨⟨c0, c1⟩, hsel⟩ := h
  unfold key_VK_DELETE TextState.len at he
  have b1 := scanFwdI_bounds notBlank s.zoom_text s.text_cursor_pos c0 c1
  have b2 := scanFwdI_bounds isBlank s.zoom_text _ (by omega) b1.2
  cases ctrl
  · simp only [Bool.false_eq_true, if_false] at he
    split at he
    · cases hw : wstr_erase s.zoom_text s.text_cursor_pos 1 with
      | none => rw [hw] at he; cases he
      | some t1 =>
        rw [hw] at he
        simp only [Option.map_some', Option.some.injEq] at he
        subst he
        have b := wstr_erase_some hw (by omega) (by omega)
        simp [hg]
        omega
    · simp only [Option.some.injEq] at he
      subst he
      exact ⟨⟨c0, c1⟩, hsel⟩
  · simp only [if_true] at he
    split at he
    · split at he
      · rename_i hlt
        cases hw : wstr_erase s.zoom_text s.text_cursor_pos
            (scanFwdI isBlank s.zoom_text (scanFwdI notBlank s.zoom_text s.text_cursor_pos) -
              s.text_cursor_pos) with
        | none => rw [hw] at he; cases he
        | some t1 =>
          rw [hw] at he
          simp only [Option.map_some', Option.some.injEq] at he
          subst he
          have b := wstr_erase_some hw (by omega) (by omega)
          simp [hg]
          omega
      · simp only [Option.some.injEq] at he
        subst he
        exact ⟨⟨c0, c1⟩, hsel⟩
    · simp only [Option.some.injEq] at he
      subst he
      exact ⟨⟨c0, c1⟩, hsel⟩


theorem key_C_inv {s s1 : TextState} (env : Env) (ctrl shift : Bool) (h : SelectionInv s)
    (he : key_C env ctrl shift s = some s1) : SelectionInv s1 := by
  unfold key_C at he
  cases ctrl
  · simp only [Bool.false_eq_true, if_false] at he
    exact insertChar_inv _ h he
  · simp only [if_true] at he
    split at he
    · simp only [Option.map_eq_some'] at he
      obtain ⟨txt, _, rfl⟩ := he
      split <;> exact h
    · simp only [Option.some.injEq] at he
      subst he
      exact h

theorem key_X_inv {s s1 : TextState} (env : Env) (ctrl shift : Bool) (h : SelectionInv s)
    (he : key_X env ctrl shift s = some s1) : SelectionInv s1 := by
  unfold key_X at he
  cases ctrl
  · simp only [Bool.false_eq_true, if_false] at he
    exact insertChar_inv _ h he
  · simp only [if_true] at he
    split at he
    · split at he
      · rename_i hact hcond
        simp only [Option.bind_eq_some] at he
        obtain ⟨cut, _, he⟩ := he
        split at he
        · simp only [Option.map_eq_some'] at he
          obtain ⟨t1, hw, rfl⟩ := he
          unfold TextState.len at hcond
          have b := wstr_erase_some hw (by omega) (by omega)
          unfold SelectionInv CaretInRange SelectionInRange TextState.len at *
          simp
          omega
        · simp only [Option.some.injEq] at he
          subst he
          exact h
      · simp only [Option.some.injEq] at he
        subst he
        exact h
    · simp only [Option.some.injEq] at he
      subst he
      exact h

theorem key_A_inv {s s1 : TextState} (ctrl shift : Bool) (h : SelectionInv s)
    (he : key_A ctrl shift s = some s1) : SelectionInv s1 := by
  unfold key_A at he
  cases ctrl
  · simp only [Bool.false_eq_true, if_false] at he
    exact insertChar_inv _ h he
  · simp only [if_true, Option.some.injEq] at he
    subst he
    unfold SelectionInv CaretInRange SelectionInRange TextState.len at *
    simp

theorem key_Z_inv {s s1 : TextState} (ctrl shift : Bool) (h : SelectionInv s)
    (he : key_Z ctrl shift s = some s1) : SelectionInv s1 := by
  unfold key_Z at he
  cases ctrl
  · simp only [Bool.false_eq_true, if_false] at he
    exact insertChar_inv _ h he
  · simp only [if_true, Option.some.injEq] at he
    subst he
    unfold SelectionInv CaretInRange SelectionInRange TextState.len TextState.clearSelection at *
    simp
    exact h.1

theorem key_default_inv {s s1 : TextState} (wParam : Nat) (shift : Bool) (h : SelectionInv s)
    (he : key_default wParam shift s = some s1) : SelectionInv s1 := by
  unfold key_default at he
  split at he
  · exact insertChar_inv _ h he
  · simp only [Option.some.injEq] at he
    subst he
    exact h

theorem AddImageElement_true {env : Env} {s s1 : TextState}
    (he : AddImageElement env s = some (true, s1)) :
    ∃ bm, s.clipboard.bitmap = some bm ∧ (1 ≤ bm.bmWidth ∧ bm.bmWidth ≤ 2000) ∧
      (1 ≤ bm.bmHeight ∧ bm.bmHeight ≤ 2000) ∧
      (env.reopenClipboard = true ∧ env.gdiAcquire = true ∧ env.createBitmap = true ∧
        env.blit = true) := by
  unfold AddImageElement at he
  split at he
  · simp at he
  · rename_i h1
    split at he
    · simp at he
    · rename_i bm hbm
      split at he
      · simp at he
      · rename_i h2
        split at he
        · rename_i hd
          split at he
          · simp at he
          · rename_i h3
            split at he
            · rename_i h4
              refine ⟨bm, hbm, ⟨by omega, hd.2.2.1⟩, ⟨by omega, hd.2.2.2⟩, ?_, ?_, ?_, h4⟩
              · simpa using h1
              · simpa using h2
              · simpa using h3
            · split at he <;> simp at he
        · simp at he

theorem AddImageElement_inv {env : Env} {s s1 : TextState} (h : SelectionInv s)
    (he : AddImageElement env s = some (true, s1)) : SelectionInv s1 := by
  obtain ⟨bm, hbm, hw, hh, henv⟩ := AddImageElement_true he
  obtain ⟨c, hc⟩ := Int.eq_ofNat_of_zero_le h.1.1
  have hle : c ≤ s.zoom_text.length := by
    have := h.1.2
    unfold TextState.len at this
    omega
  obtain ⟨n, _, _, hr⟩ := AddImageElement_ok env s c bm hc hle hbm hw hh henv
  rw [hr] at he
  simp only [Option.some.injEq, Prod.mk.injEq, true_and] at he
  subst he
  unfold SelectionInv CaretInRange SelectionInRange TextState.len at *
  obtain ⟨⟨c0, c1⟩, hsel⟩ := h
  refine ⟨⟨by simp; omega, by simp [List.length_take]; omega⟩, fun ha => ?_⟩
  have := hsel ha
  simp [List.length_take]
  omega


theorem key_V_inv {s s1 : TextState} (env : Env) (ctrl shift : Bool) (h : SelectionInv s)
    (hg : ctrl = true ∧ CheckClipboardForImage env s = true →
      (AddImageElement env s).map Prod.fst = some true)
    (he : key_V env ctrl shift s = some s1) : SelectionInv s1 := by
  unfold key_V at he
  cases ctrl
  · simp only [Bool.false_eq_true, if_false] at he
    exact insertChar_inv _ h he
  · simp only [if_true] at he
    split at he
    · rename_i hchk
      have hg1 := hg ⟨rfl, hchk⟩
      simp only [Option.map_eq_some'] at hg1
      obtain ⟨⟨b, s2⟩, hadd, hb⟩ := hg1
      simp only at hb
      subst hb
      rw [hadd] at he
      simp only [Option.some_bind, if_true, Option.some.injEq] at he
      subst he
      exact AddImageElement_inv h hadd
    · split at he
      · split at he
        · rename_i txt _
          simp only [Option.map_eq_some'] at he
          obtain ⟨t1, hw, rfl⟩ := he
          have b := wstr_insert_some hw
          unfold SelectionInv CaretInRange SelectionInRange TextState.len at *
          obtain ⟨⟨c0, c1⟩, hsel⟩ := h
          refine ⟨⟨by simp; omega, by simp; omega⟩, fun ha => ?_⟩
          have := hsel ha
          simp
          omega
        · simp only [Option.some.injEq] at he
          subst he
          exact h
      · simp only [Option.some.injEq] at he
        subst he
        exact h

theorem textKeyDown_inv {s s1 : TextState} (k : KeyPress) (h : SelectionInv s)
    (hg : k.guarded s) (he : textKeyDown k.env k.wParam k.ctrl k.shift s = some s1) :
    SelectionInv s1 := by
  obtain ⟨g1, g2, g3, g4⟩ := hg
  unfold textKeyDown at he
  by_cases h0 : k.wParam = VK_F1 ∨ k.wParam = VK_F2 ∨ k.wParam = VK_F3 ∨ k.wParam = VK_F4
  · rw [if_pos h0] at he
    simp only [Option.some.injEq] at he; subst he; exact h
  rw [if_neg h0] at he
  by_cases h1 : k.wParam = VK_RETURN
  · rw [if_pos h1] at he
    exact insertChar_inv _ h he
  rw [if_neg h1] at he
  by_cases h2 : k.wParam = VK_BACK
  · rw [if_pos h2] at he
    exact key_VK_BACK_inv _ h (g1 (Or.inl h2)) he
  rw [if_neg h2] at he
  by_cases h3 : k.wParam = VK_LEFT
  · rw [if_pos h3] at he
    simp only [Option.some.injEq] at he; subst he; exact key_VK_LEFT_inv _ _ h
  rw [if_neg h3] at he
  by_cases h4 : k.wParam = VK_RIGHT
  · rw [if_pos h4] at he
    simp only [Option.some.injEq] at he; subst he; exact key_VK_RIGHT_inv _ _ h
  rw [if_neg h4] at he
  by_cases h5 : k.wParam = VK_HOME
  · rw [if_pos h5] at he
    simp only [Option.some.injEq] at he; subst he; exact key_VK_HOME_inv _ _ _ h
  rw [if_neg h5] at he
  by_cases h6 : k.wParam = VK_END
  · rw [if_pos h6] at he
    simp only [Option.some.injEq] at he; subst he; exact key_VK_END_inv _ _ _ h
  rw [if_neg h6] at he
  by_cases h7 : k.wParam = VK_UP
  · rw [if_pos h7] at he
    simp only [Option.some.injEq] at he; subst he
    exact key_VK_UP_inv _ _ _ h (fun hc => g2 ⟨h7, hc⟩)
  rw [if_neg h7] at he
  by_cases h8 : k.wParam = VK_DOWN
  · rw [if_pos h8] at he
    simp only [Option.some.injEq] at he; subst he
    exact key_VK_DOWN_inv _ _ _ h (fun hc => g3 ⟨h8, hc⟩)
  rw [if_neg h8] at he
  by_cases h9 : k.wParam = VK_DELETE
  · rw [if_pos h9] at he
    exact key_VK_DELETE_inv _ h (g1 (Or.inr h9)) he
  rw [if_neg h9] at he
  by_cases h10 : k.wParam = KEY_C
  · rw [if_pos h10] at he
    exact key_C_inv _ _ _ h he
  rw [if_neg h10] at he
  by_cases h11 : k.wParam = KEY_X
  · rw [if_pos h11] at he
    exact key_X_inv _ _ _ h he
  rw [if_neg h11] at he
  by_cases h12 : k.wParam = KEY_V
  · rw [if_pos h12] at he
    exact key_V_inv _ _ _ h (fun hc => g4 ⟨h12, hc⟩) he
  rw [if_neg h12] at he
  by_cases h13 : k.wParam = KEY_A
  · rw [if_pos h13] at he
    exact key_A_inv _ _ h he
  rw [if_neg h13] at he
  by_cases h14 : k.wParam = KEY_Z
  · rw [if_pos h14] at he
    exact key_Z_inv _ _ h he
  rw [if_neg h14] at he
  exact key_default_inv _ _ h he

theorem TextEvent.apply_inv {s s1 : TextState} (e : TextEvent) (h : SelectionInv s)
    (hg : e.guarded s) (he : e.apply s = some s1) : SelectionInv s1 := by
  cases e with
  | key k =>
    simp only [TextEvent.apply] at he
    split at he
    · simp only [Option.some.injEq] at he
      subst he
      exact h
    · exact textKeyDown_inv k h hg he
  | capture =>
    simp only [TextEvent.apply, Option.some.injEq] at he
    subst he
    have hg1 : s.text_selection_active = false := hg
    unfold SelectionInv CaretInRange SelectionInRange TextState.len CaptureZoomRegion_text
    simp [hg1]
  | cleanup =>
    simp only [TextEvent.apply, Option.some.injEq] at he
    subst he
    unfold SelectionInv CaretInRange SelectionInRange TextState.len CleanupZoomResources_text
    simp
  | clipboardSet cb =>
    simp only [TextEvent.apply, Option.some.injEq] at he
    subst he
    exact h

theorem ReachableGuarded.selectionInv {s : TextState} (h : ReachableGuarded s) :
    SelectionInv s := by
  induction h with
  | init cb => unfold SelectionInv CaretInRange SelectionInRange TextState.len TextState.init; simp
  | step e _ hg he ih => exact TextEvent.apply_inv e ih hg he

theorem Reachable.runEvents {s s1 : TextState} (es : List TextEvent) (h : Reachable s)
    (he : runEvents es s = some s1) : Reachable s1 := by
  induction es generalizing s with
  | nil =>
    simp only [Highlighter.runEvents, Option.some.injEq] at he
    subst he; exact h
  | cons e es ih =>
    simp only [Highlighter.runEvents, Option.bind_eq_some] at he
    obtain ⟨s2, h2, h3⟩ := he
    exact ih (Reachable.step e h h2) h3

/-- C4 as stated fails: four reachable states with an active selection that
has an end outside of the buffer. (1) A, Ctrl+A, Backspace: the selection stays
(0, 1) over the emptied buffer. (2) A, Ctrl+A, zoom capture: the buffer is
cleared and the selection stays (0, 1). (3) A, Shift+Up on the only line: the
selection is opened with its end still -1. (4) A rejected image paste puts the
caret at 15 in a buffer of length 14 and Shift+Left anchors the selection
there. -/
theorem C4_counterexample :
    (∃ s, Reachable s ∧ runEvents selectAllThenBackspace (TextState.init Clipboard.empty) = some s ∧
      s.text_selection_active = true ∧ s.text_selection_end = 1 ∧ s.len = 0 ∧
      ¬ SelectionInRange s) ∧
    (∃ s, Reachable s ∧ runEvents selectAllThenCapture (TextState.init Clipboard.empty) = some s ∧
      s.text_selection_active = true ∧ s.text_selection_end = 1 ∧ s.len = 0 ∧
      ¬ SelectionInRange s) ∧
    (∃ s, Reachable s ∧ runEvents shiftUpOnFirstLine (TextState.init Clipboard.empty) = some s ∧
      s.text_selection_active = true ∧ s.text_selection_end = -1 ∧
      ¬ SelectionInRange s) ∧
    (∃ s, Reachable s ∧
      runEvents failedPasteThenShiftLeft (TextState.init Clipboard.empty) = some s ∧
      s.text_selection_active = true ∧ s.text_selection_start = 15 ∧ s.len = 14 ∧
      ¬ SelectionInRange s) :=
  ⟨⟨_, Reachable.runEvents selectAllThenBackspace (Reachable.init _) rfl, rfl,
      by decide, by decide, by decide, by decide⟩,
    ⟨_, Reachable.runEvents selectAllThenCapture (Reachable.init _) rfl, rfl,
      by decide, by decide, by decide, by decide⟩,
    ⟨_, Reachable.runEvents shiftUpOnFirstLine (Reachable.init _) rfl, rfl,
      by decide, by decide, by decide⟩,
    ⟨_, Reachable.runEvents failedPasteThenShiftLeft (Reachable.init _) rfl, rfl,
      by decide, by decide, by decide, by decide⟩⟩

/-- C4 (amended): in every state reachable from the initial text globals by
guarded events (text-mode key presses, zoom capture, zoom teardown, clipboard
changes, with no Backspace / Delete and no capture while a selection is active,
no Shift+Up / Shift+Down opening a selection where there is no line to go to,
and no rejected image paste), an active selection has both ends in
`[0, len(zoom_text)]`. -/
theorem C4_selection_in_range (s : TextState) (h : ReachableGuarded s) :
    s.text_selection_active = true → SelectionInRange s :=
  (ReachableGuarded.selectionInv h).2

/-- C4 (amended) at the state reached by typing A and pressing Shift+Left: the
selection (1, 0) is active and within the one-character buffer. -/
theorem C4_selection_in_range_witness :
    ReachableGuarded (selectedText "a" 0 1 0 Clipboard.empty) ∧
    (selectedText "a" 0 1 0 Clipboard.empty).text_selection_active = true ∧
    SelectionInRange (selectedText "a" 0 1 0 Clipboard.empty) :=
  ⟨ReachableGuarded.step (pressShift VK_LEFT)
      (ReachableGuarded.step (press 65) (ReachableGuarded.init Clipboard.empty) (by decide) rfl)
      (by decide) rfl,
   rfl,
   C4_selection_in_range (selectedText "a" 0 1 0 Clipboard.empty)
    (ReachableGuarded.step (pressShift VK_LEFT)
      (ReachableGuarded.step (press 65) (ReachableGuarded.init Clipboard.empty) (by decide) rfl)
      (by decide) rfl) rfl⟩

/-! ## Shift and plain navigation -/

theorem textKeyDown_nav (env : Env) (k : NavKey) (ctrl shift : Bool) (s : TextState) :
    textKeyDown env k.code ctrl shift s = some (match k with
      | .left => key_VK_LEFT shift s
      | .right => key_VK_RIGHT shift s
      | .up => key_VK_UP ctrl shift s
      | .down => key_VK_DOWN ctrl shift s
      | .home => key_VK_HOME ctrl shift s
      | .endKey => key_VK_END ctrl shift s) := by
  cases k <;> rfl

/-- C5 as stated fails: with no selection active, Shift+Left at caret 0 leaves
the selection inactive, and Shift+Up on the only line opens the selection but
leaves its end at -1 while the caret stays at 1. -/
theorem C5_counterexample :
    (∃ s1, textKeyDown Env.allOk VK_LEFT false true (plainText "a" 0 Clipboard.empty) = some s1 ∧
      (plainText "a" 0 Clipboard.empty).text_selection_active = false ∧
      s1.text_selection_active = false) ∧
    (∃ s1, textKeyDown Env.allOk VK_UP false true (plainText "a" 1 Clipboard.empty) = some s1 ∧
      (plainText "a" 1 Clipboard.empty).text_selection_active = false ∧
      s1.text_selection_active = true ∧ s1.text_cursor_pos = 1 ∧
      s1.text_selection_end = -1) :=
  ⟨⟨_, rfl, by decide, by decide⟩, ⟨_, rfl, by decide, by decide, by decide, by decide⟩⟩

/-- C5 (amended): for a caret within the buffer and a Shift-modified navigation
key that has somewhere to go (Shift+Left with caret > 0, Shift+Right with
caret < len, Shift+Up with a previous line, Shift+Down with a next line,
Shift+Home, Shift+End; Left, Right, Home and End also with Ctrl), the selection is active
afterwards, its start is the old start when a selection was active and the
pre-key caret otherwise, and its end is the post-key caret; Shift+Left at
caret 0 and Shift+Right at caret = len change nothing. -/
theorem C5_shift_navigation (env : Env) (k : NavKey) (ctrl : Bool) (s : TextState)
    (hr : CaretInRange s) (hctrl : k = .up ∨ k = .down → ctrl = false) :
    ∃ s1, textKeyDown env k.code ctrl true s = some s1 ∧
      (k.canMove s →
        s1.text_selection_active = true ∧
        s1.text_selection_start =
          (if s.text_selection_active then s.text_selection_start else s.text_cursor_pos) ∧
        s1.text_selection_end = s1.text_cursor_pos) ∧
      (¬ k.canMove s → k = .left ∨ k = .right → s1 = s) := by
  refine ⟨_, textKeyDown_nav env k ctrl true s, ?_, ?_⟩
  · intro hm
    cases k with
    | left =>
      have hm1 : 0 < s.text_cursor_pos := hm
      simp only [key_VK_LEFT, if_pos hm1]
      cases ha : s.text_selection_active <;> simp
    | right =>
      have hm1 : s.text_cursor_pos < s.len := hm
      simp only [key_VK_RIGHT, if_pos hm1]
      cases ha : s.text_selection_active <;> simp
    | up =>
      have hc := hctrl (Or.inl rfl)
      subst hc
      have hm1 : hasPrevLine s.zoom_text s.text_cursor_pos.toNat := hm
      rw [← upTarget_isSome_iff _ _ hr.1] at hm1
      obtain ⟨tp, hu⟩ := Option.isSome_iff_exists.mp hm1
      simp only [key_VK_UP, anchorSelection_zoom_text, anchorSelection_text_cursor_pos, hu]
      cases ha : s.text_selection_active <;> simp [TextState.anchorSelection, ha]
    | down =>
      have hc := hctrl (Or.inr rfl)
      subst hc
      have hm1 : hasNextLine s.zoom_text s.text_cursor_pos.toNat := hm
      rw [← downTarget_isSome_iff _ _ hr.1 hr.2] at hm1
      obtain ⟨tp, hu⟩ := Option.isSome_iff_exists.mp hm1
      simp only [key_VK_DOWN, anchorSelection_zoom_text, anchorSelection_text_cursor_pos, hu]
      cases ha : s.text_selection_active <;> simp [TextState.anchorSelection, ha]
    | home =>
      simp only [key_VK_HOME]
      cases ctrl <;> cases ha : s.text_selection_active <;> simp [TextState.anchorSelection, ha]
    | endKey =>
      simp only [key_VK_END]
      cases ctrl <;> cases ha : s.text_selection_active <;> simp [TextState.anchorSelection, ha]
  · intro hm hk
    rcases hk with rfl | rfl
    · have hm1 : ¬ 0 < s.text_cursor_pos := hm
      simp only [key_VK_LEFT, if_neg hm1]
    · have hm1 : ¬ s.text_cursor_pos < s.len := hm
      simp only [key_VK_RIGHT, if_neg hm1]

/-- C6 as stated fails: with an active selection, Left at caret 0 leaves it
active, and plain Down from the first line of "a", newline, "b" moves the caret
to 3 and leaves the selection active. -/
theorem C6_counterexample :
    (∃ s1, textKeyDown Env.allOk VK_LEFT false false (selectedText "a" 0 1 0 Clipboard.empty)
        = some s1 ∧ s1.text_selection_active = true) ∧
    (∃ s1, textKeyDown Env.allOk VK_DOWN false false (selectedText "a\nb" 1 0 1 Clipboard.empty)
        = some s1 ∧ s1.text_cursor_pos = 3 ∧ s1.text_selection_active = true) :=
  ⟨⟨_, rfl, by decide⟩, ⟨_, rfl, by decide, by decide⟩⟩

/-- C6 (amended): for a caret within the buffer and a navigation key without
Shift other than plain Down (Left, Right, Up, Home, End, with or without Ctrl,
and Ctrl+Down): when the key has somewhere to go (always for Home and End) the
selection is inactive afterwards; when it has not (Left at caret 0, Right at
caret = len, Up on the first line, Ctrl+Down on the last line) the state is
unchanged. -/
theorem C6_plain_navigation (env : Env) (k : NavKey) (ctrl : Bool) (s : TextState)
    (hr : CaretInRange s) (hk : ¬ (k = .down ∧ ctrl = false)) :
    ∃ s1, textKeyDown env k.code ctrl false s = some s1 ∧
      (k.canMove s → s1.text_selection_active = false) ∧
      (¬ k.canMove s → s1 = s) := by
  refine ⟨_, textKeyDown_nav env k ctrl false s, ?_, ?_⟩
  · intro hm
    cases k with
    | left =>
      have hm1 : 0 < s.text_cursor_pos := hm
      simp [key_VK_LEFT, if_pos hm1, TextState.clearSelection]
    | right =>
      have hm1 : s.text_cursor_pos < s.len := hm
      simp [key_VK_RIGHT, if_pos hm1, TextState.clearSelection]
    | up =>
      have hm1 : hasPrevLine s.zoom_text s.text_cursor_pos.toNat := hm
      rw [← upTarget_isSome_iff _ _ hr.1] at hm1
      obtain ⟨tp, hu⟩ := Option.isSome_iff_exists.mp hm1
      cases ctrl <;> simp [key_VK_UP, hu, TextState.clearSelection]
    | down =>
      have hc : ctrl = true := by
        cases ctrl
        · exact absurd ⟨rfl, rfl⟩ hk
        · rfl
      subst hc
      have hm1 : hasNextLine s.zoom_text s.text_cursor_pos.toNat := hm
      rw [← downTarget_isSome_iff _ _ hr.1 hr.2] at hm1
      obtain ⟨tp, hu⟩ := Option.isSome_iff_exists.mp hm1
      simp [key_VK_DOWN, hu, TextState.clearSelection]
    | home => cases ctrl <;> simp [key_VK_HOME, TextState.clearSelection]
    | endKey => cases ctrl <;> simp [key_VK_END, TextState.clearSelection]
  · intro hm
    cases k with
    | left =>
      have hm1 : ¬ 0 < s.text_cursor_pos := hm
      simp only [key_VK_LEFT, if_neg hm1]
    | right =>
      have hm1 : ¬ s.text_cursor_pos < s.len := hm
      simp only [key_VK_RIGHT, if_neg hm1]
    | up =>
      have hm1 : ¬ hasPrevLine s.zoom_text s.text_cursor_pos.toNat := hm
      rw [← upTarget_isSome_iff _ _ hr.1] at hm1
      have hu : upTarget s.zoom_text s.text_cursor_pos = none := by
        cases h : upTarget s.zoom_text s.text_cursor_pos with
        | none => rfl
        | some tp => rw [h] at hm1; simp at hm1
      cases ctrl <;> simp [key_VK_UP, hu]
    | down =>
      have hc : ctrl = true := by
        cases ctrl
        · exact absurd ⟨rfl, rfl⟩ hk
        · rfl
      subst hc
      have hm1 : ¬ hasNextLine s.zoom_text s.text_cursor_pos.toNat := hm
      rw [← downTarget_isSome_iff _ _ hr.1 hr.2] at hm1
      have hu : downTarget s.zoom_text s.text_cursor_pos = none := by
        cases h : downTarget s.zoom_text s.text_cursor_pos with
        | none => rfl
        | some tp => rw [h] at hm1; simp at hm1
      simp [key_VK_DOWN, hu]
    | home => exact absurd trivial hm
    | endKey => exact absurd trivial hm

/-- C5 (amended) for Shift+Up from the end of "a", newline, "b". -/
theorem C5_shift_navigation_witness :
    CaretInRange (plainText "a\nb" 3 Clipboard.empty) ∧
    (NavKey.up = NavKey.up ∨ NavKey.up = NavKey.down → false = false) ∧
    ∃ s1, textKeyDown Env.allOk NavKey.up.code false true (plainText "a\nb" 3 Clipboard.empty)
        = some s1 ∧
      (NavKey.up.canMove (plainText "a\nb" 3 Clipboard.empty) →
        s1.text_selection_active = true ∧
        s1.text_selection_start =
          (if (plainText "a\nb" 3 Clipboard.empty).text_selection_active
            then (plainText "a\nb" 3 Clipboard.empty).text_selection_start
            else (plainText "a\nb" 3 Clipboard.empty).text_cursor_pos) ∧
        s1.text_selection_end = s1.text_cursor_pos) ∧
      (¬ NavKey.up.canMove (plainText "a\nb" 3 Clipboard.empty) →
        NavKey.up = NavKey.left ∨ NavKey.up = NavKey.right →
        s1 = plainText "a\nb" 3 Clipboard.empty) :=
  ⟨by decide, fun _ => rfl,
    C5_shift_navigation Env.allOk NavKey.up false (plainText "a\nb" 3 Clipboard.empty)
      (by decide) (fun _ => rfl)⟩

/-- C6 (amended) for plain Up from the end of "a", newline, "b" with the
selection (2, 3). -/
theorem C6_plain_navigation_witness :
    CaretInRange (selectedText "a\nb" 3 2 3 Clipboard.empty) ∧
    ¬ (NavKey.up = NavKey.down ∧ false = false) ∧
    ∃ s1, textKeyDown Env.allOk NavKey.up.code false false
        (selectedText "a\nb" 3 2 3 Clipboard.empty) = some s1 ∧
      (NavKey.up.canMove (selectedText "a\nb" 3 2 3 Clipboard.empty) →
        s1.text_selection_active = false) ∧
      (¬ NavKey.up.canMove (selectedText "a\nb" 3 2 3 Clipboard.empty) →
        s1 = selectedText "a\nb" 3 2 3 Clipboard.empty) :=
  ⟨by decide, by decide,
    C6_plain_navigation Env.allOk NavKey.up false (selectedText "a\nb" 3 2 3 Clipboard.empty)
      (by decide) (by decide)⟩

/-! ## Copy and cut of selections that end before the buffer end -/


theorem textKeyDown_KEY_C (env : Env) (ctrl shift : Bool) (s : TextState) :
    textKeyDown env KEY_C ctrl shift s = key_C env ctrl shift s := rfl

theorem textKeyDown_KEY_X (env : Env) (ctrl shift : Bool) (s : TextState) :
    textKeyDown env KEY_X ctrl shift s = key_X env ctrl shift s := rfl

/-- The part of C2 that the code meets: for an active selection with
`a = min (start, end) < b = max (start, end)` and `b` strictly before the end of
the buffer, Ctrl+C puts `text[a, b)` on the clipboard and leaves the text globals
alone, and Ctrl+X puts `text[a, b)` on the clipboard, erases it from the buffer,
moves the caret to `a` and deactivates the selection. -/
theorem copy_cut_inner_selection (env : Env) (shift : Bool) (s : TextState) (a b : Nat)
    (hact : s.text_selection_active = true)
    (hmin : min s.text_selection_start s.text_selection_end = (a : Int))
    (hmax : max s.text_selection_start s.text_selection_end = (b : Int))
    (hab : a < b) (hb : b < s.zoom_text.length)
    (ho : env.openClipboard = true) (hg : env.globalAlloc = true) :
    textKeyDown env KEY_C true shift s =
      some { s with clipboard := ⟨some (cstr ((s.zoom_text.drop a).take (b - a))), none⟩ } ∧
    textKeyDown env KEY_X true shift s =
      some { s with clipboard := ⟨some (cstr ((s.zoom_text.drop a).take (b - a))), none⟩,
                    zoom_text := s.zoom_text.take a ++ s.zoom_text.drop b,
                    text_cursor_pos := (a : Int),
                    text_selection_active := false } := by
  have hne : s.zoom_text ≠ [] := by
    intro h; rw [h] at hb; simp at hb
  have hsub : wstr_substr s.zoom_text (a : Int) ((b : Int) - (a : Int)) =
      some ((s.zoom_text.drop a).take (b - a)) := by
    unfold wstr_substr
    rw [if_pos ⟨by omega, by omega⟩, if_neg (by omega)]
    simp only [Int.toNat_ofNat]
    congr 2
    omega
  have hers : wstr_erase s.zoom_text (a : Int) ((b : Int) - (a : Int)) =
      some (s.zoom_text.take a ++ s.zoom_text.drop b) := by
    unfold wstr_erase
    rw [if_pos ⟨by omega, by omega⟩, if_neg (by omega)]
    simp only [Int.toNat_ofNat]
    congr 3
    omega
  have hcond : 0 ≤ (a : Int) ∧ (b : Int) < s.len ∧ (a : Int) < (b : Int) := by
    unfold TextState.len; omega
  have hnn : (s.zoom_text.drop a).take (b - a) ≠ [] := by
    intro h
    have := congrArg List.length h
    simp [List.length_take, List.length_drop] at this
    omega
  constructor
  · rw [textKeyDown_KEY_C]
    unfold key_C
    simp only [if_true, hact, hmin, hmax]
    rw [if_pos ⟨hne, ho⟩, if_pos hcond, hsub]
    simp only [Option.map_some']
    rw [if_pos hnn]
    simp [setClipboardText, hg, Clipboard.empty]
  · rw [textKeyDown_KEY_X]
    unfold key_X
    simp only [if_true, hact, hmin, hmax]
    rw [if_pos ⟨trivial, hne⟩, if_pos hcond, hsub]
    simp only [Option.some_bind, ho, if_true, hers, Option.map_some']
    simp [setClipboardText, hg, Clipboard.empty]

/-- The part of C2 about an empty selection: with `start = end` Ctrl+C stores
nothing (it only empties the clipboard when it can open it) and Ctrl+X does
nothing; neither throws and the buffer is unchanged. -/
theorem copy_cut_empty_selection (env : Env) (shift : Bool) (s : TextState)
    (hact : s.text_selection_active = true)
    (heq : s.text_selection_start = s.text_selection_end) :
    (∃ cb, textKeyDown env KEY_C true shift s = some { s with clipboard := cb } ∧
      cb.text = (if s.zoom_text ≠ [] ∧ env.openClipboard = true then none
        else s.clipboard.text)) ∧
    textKeyDown env KEY_X true shift s = some s := by
  have hc : ¬ (0 ≤ min s.text_selection_start s.text_selection_end ∧
      max s.text_selection_start s.text_selection_end < s.len ∧
      min s.text_selection_start s.text_selection_end <
        max s.text_selection_start s.text_selection_end) := by
    rw [heq]; simp
  constructor
  · rw [textKeyDown_KEY_C]
    unfold key_C
    simp only [if_true]
    by_cases h1 : s.zoom_text ≠ [] ∧ env.openClipboard = true
    · rw [if_pos h1, if_pos h1, if_pos hact, if_neg hc]
      exact ⟨Clipboard.empty, by simp, rfl⟩
    · rw [if_neg h1, if_neg h1]
      exact ⟨s.clipboard, rfl, rfl⟩
  · rw [textKeyDown_KEY_X]
    unfold key_X
    simp only [if_true]
    rw [if_neg hc]
    split <;> rfl

/-! ## Overlay session: regions -/

theorem adjustForOverlap_size {x1 y1 x2 y2 : Int} {l : List ScreenRectangle}
    {a : ScreenRectangle} (h : adjustForOverlap x1 y1 x2 y2 l = some a) :
    a.x2 - a.x1 = x2 - x1 ∧ a.y2 - a.y1 = y2 - y1 := by
  induction l with
  | nil => simp [adjustForOverlap] at h
  | cons rect rest ih =>
    simp only [adjustForOverlap] at h
    split at h
    · split at h
      · simp only [Option.some.injEq] at h; subst h; constructor <;> simp
      · split at h
        · simp only [Option.some.injEq] at h; subst h; constructor <;> simp
        · split at h
          · simp only [Option.some.injEq] at h; subst h; constructor <;> simp
          · split at h
            · simp only [Option.some.injEq] at h; subst h; constructor <;> simp
            · cases h
    · exact ih h

theorem RegionsOk_append {l : List ScreenRectangle} {r : ScreenRectangle}
    (h : ∀ q ∈ l, 5 ≤ q.x2 - q.x1 ∧ 5 ≤ q.y2 - q.y1) (hr : 5 ≤ r.x2 - r.x1 ∧ 5 ≤ r.y2 - r.y1) :
    ∀ q ∈ l ++ [r], 5 ≤ q.x2 - q.x1 ∧ 5 ≤ q.y2 - q.y1 := by
  intro q hq
  rw [List.mem_append] at hq
  rcases hq with hq | hq
  · exact h q hq
  · simp only [List.mem_singleton] at hq
    subst hq; exact hr

theorem onLButtonUp_regions {env : Env} {s s1 : OverlayState}
    (h : onLButtonUp env s = some s1) (hok : RegionsOk s) : RegionsOk s1 := by
  unfold onLButtonUp at h
  split at h
  · simp only [Option.some.injEq] at h
    subst h
    unfold RegionsOk at *
    split <;> exact hok
  · split at h
    · simp only [Option.map_eq_some'] at h
      obtain ⟨valid, _, rfl⟩ := h
      unfold RegionsOk at *
      split <;> exact hok
    · split at h
      · simp only [Option.some.injEq] at h
        subst h
        unfold RegionsOk at *
        simp only
        split
        · rename_i hsz
          split
          · rename_i adjusted hadj
            have := adjustForOverlap_size hadj
            exact RegionsOk_append hok (by omega)
          · exact RegionsOk_append hok hsz
        · exact hok
      · simp only [Option.some.injEq] at h
        subst h; exact hok

theorem onLButtonDown_frame (x y : Nat) (s : OverlayState) :
    (onLButtonDown x y s).screenRectangles = s.screenRectangles ∧
    (onLButtonDown x y s).zoom_factor = s.zoom_factor ∧
    (onLButtonDown x y s).selection_mode = s.selection_mode := by
  unfold onLButtonDown
  simp only
  split
  · exact ⟨rfl, rfl, rfl⟩
  · split
    · exact ⟨rfl, rfl, rfl⟩
    · split <;> exact ⟨rfl, rfl, rfl⟩

theorem onMouseMove_frame (x y : Nat) (s : OverlayState) :
    (onMouseMove x y s).screenRectangles = s.screenRectangles ∧
    (onMouseMove x y s).zoom_factor = s.zoom_factor ∧
    (onMouseMove x y s).selection_mode = s.selection_mode := by
  unfold onMouseMove
  simp only
  split
  · exact ⟨rfl, rfl, rfl⟩
  · split
    · exact ⟨rfl, rfl, rfl⟩
    · split <;> exact ⟨rfl, rfl, rfl⟩

theorem CaptureZoomRegion_frame (pf : Platform) (out : CaptureOutcome) (rect : ScreenRectangle)
    (s : OverlayState) :
    (CaptureZoomRegion pf out rect s).screenRectangles = s.screenRectangles ∧
    (CaptureZoomRegion pf out rect s).zoom_factor = s.zoom_factor ∧
    (CaptureZoomRegion pf out rect s).selection_mode = s.selection_mode ∧
    (CaptureZoomRegion pf out rect s).zoom_active = s.zoom_active ∧
    (CaptureZoomRegion pf out rect s).drawing_active = s.drawing_active ∧
    (CaptureZoomRegion pf out rect s).captureCalls = s.captureCalls + 1 := by
  cases out <;> exact ⟨rfl, rfl, rfl, rfl, rfl, rfl⟩

theorem applyZoomChange_frame (pf : Platform) (delta : Int) (s : OverlayState) :
    (applyZoomChange pf delta s).screenRectangles = s.screenRectangles ∧
    (applyZoomChange pf delta s).selection_mode = s.selection_mode ∧
    (applyZoomChange pf delta s).drawing_active = s.drawing_active ∧
    (applyZoomChange pf delta s).zoom_active = s.zoom_active ∧
    (applyZoomChange pf delta s).captureCalls = s.captureCalls ∧
    (ZoomOk s → ZoomOk (applyZoomChange pf delta s)) := by
  unfold applyZoomChange
  generalize (if 0 < delta then F32_1_1 else F32_0_9) = zoomChange
  simp only
  split
  · rename_i hz
    exact ⟨rfl, rfl, rfl, rfl, rfl, fun _ => hz⟩
  · exact ⟨rfl, rfl, rfl, rfl, rfl, id⟩

theorem onMouseWheel_frame (pf : Platform) (delta : Int) (out : CaptureOutcome)
    (s : OverlayState) :
    (onMouseWheel pf delta out s).screenRectangles = s.screenRectangles ∧
    (onMouseWheel pf delta out s).selection_mode = s.selection_mode ∧
    (onMouseWheel pf delta out s).drawing_active = s.drawing_active ∧
    (ZoomOk s → ZoomOk (onMouseWheel pf delta out s)) := by
  unfold onMouseWheel
  cases hl : s.screenRectangles.getLast? with
  | none => exact ⟨rfl, rfl, rfl, id⟩
  | some back =>
    simp only
    have hc := CaptureZoomRegion_frame pf out back s
    split
    · exact ⟨rfl, rfl, rfl, id⟩
    · split
      · have ha := applyZoomChange_frame pf delta s
        exact ⟨ha.1, ha.2.1, ha.2.2.1, ha.2.2.2.2.2⟩
      · have ha := applyZoomChange_frame pf delta
          { CaptureZoomRegion pf out back s with zoom_active := true }
        refine ⟨ha.1.trans hc.1, ha.2.1.trans hc.2.2.1, ha.2.2.1.trans hc.2.2.2.2.1,
          fun h => ha.2.2.2.2.2 ?_⟩
        unfold ZoomOk at *
        simp only
        rw [hc.2.1]
        exact h

theorem onLButtonUp_frame {env : Env} {s s1 : OverlayState}
    (h : onLButtonUp env s = some s1) :
    s1.zoom_factor = s.zoom_factor ∧ s1.selection_mode = s.selection_mode := by
  unfold onLButtonUp at h
  split at h
  · simp only [Option.some.injEq] at h
    subst h
    split <;> exact ⟨rfl, rfl⟩
  · split at h
    · simp only [Option.map_eq_some'] at h
      obtain ⟨valid, _, rfl⟩ := h
      split <;> exact ⟨rfl, rfl⟩
    · split at h
      · simp only [Option.some.injEq] at h
        subst h
        simp only
        split
        · split <;> exact ⟨rfl, rfl⟩
        · exact ⟨rfl, rfl⟩
      · simp only [Option.some.injEq] at h
        subst h; exact ⟨rfl, rfl⟩

theorem dropLast_regions {l : List ScreenRectangle}
    (h : ∀ q ∈ l, 5 ≤ q.x2 - q.x1 ∧ 5 ≤ q.y2 - q.y1) :
    ∀ q ∈ l.dropLast, 5 ≤ q.x2 - q.x1 ∧ 5 ≤ q.y2 - q.y1 :=
  fun q hq => h q (List.dropLast_subset l hq)

theorem onEscape_frame (s : OverlayState) :
    (onEscape s).screenRectangles = s.screenRectangles ∧
    (onEscape s).selection_mode = s.selection_mode ∧
    (ZoomOk s → ZoomOk (onEscape s)) := by
  unfold onEscape
  split
  · exact ⟨rfl, rfl, id⟩
  · split
    · exact ⟨rfl, rfl, id⟩
    · split
      · split
        · exact ⟨rfl, rfl, id⟩
        · refine ⟨rfl, rfl, fun _ => ?_⟩
          unfold ZoomOk CleanupZoomResources
          norm_num
      · exact ⟨rfl, rfl, id⟩

theorem onUndo_frame (s : OverlayState) :
    (RegionsOk s → RegionsOk (onUndo s)) ∧
    (onUndo s).selection_mode = s.selection_mode ∧
    (ZoomOk s → ZoomOk (onUndo s)) := by
  unfold onUndo
  split
  · exact ⟨id, rfl, id⟩
  · split
    · simp only
      split
      · refine ⟨fun h => dropLast_regions h, rfl, fun _ => ?_⟩
        unfold ZoomOk CleanupZoomResources
        norm_num
      · exact ⟨fun h => dropLast_regions h, rfl, id⟩
    · exact ⟨id, rfl, id⟩

theorem onKeyDown_frame {env : Env} {wParam : Nat} {ctrl shift : Bool} {s s1 : OverlayState}
    (h : onKeyDown env wParam ctrl shift s = some s1) :
    (RegionsOk s → RegionsOk s1) ∧ s1.selection_mode = s.selection_mode ∧
    (ZoomOk s → ZoomOk s1) := by
  unfold onKeyDown at h
  split at h
  · simp only [Option.some.injEq] at h
    subst h; exact ⟨id, rfl, id⟩
  · split at h
    · simp only [Option.some.injEq] at h
      subst h
      have := onEscape_frame s
      exact ⟨fun hr => by unfold RegionsOk at *; rw [this.1]; exact hr, this.2.1, this.2.2⟩
    · split at h
      · simp only [Option.some.injEq] at h
        subst h; exact onUndo_frame s
      · split at h
        · simp only [Option.some.injEq] at h
          subst h; exact ⟨id, rfl, id⟩
        · split at h
          · simp only [Option.some.injEq] at h
            subst h; exact ⟨id, rfl, id⟩
          · split at h
            · split at h
              · simp only [Option.some.injEq] at h
                subst h; exact ⟨id, rfl, id⟩
              · simp only [Option.map_eq_some'] at h
                obtain ⟨t, _, rfl⟩ := h
                exact ⟨id, rfl, id⟩
            · simp only [Option.some.injEq] at h
              subst h; exact ⟨id, rfl, id⟩

theorem OverlayWndProc_frame {pf : Platform} {m : Msg} {s s1 : OverlayState}
    (h : OverlayWndProc pf m s = some s1) :
    (RegionsOk s → RegionsOk s1) ∧ s1.selection_mode = s.selection_mode ∧
    (ZoomOk s → ZoomOk s1) := by
  cases m with
  | WM_LBUTTONDOWN x y =>
    simp only [OverlayWndProc, Option.some.injEq] at h
    subst h
    have := onLButtonDown_frame x y s
    exact ⟨fun hr => by unfold RegionsOk at *; rw [this.1]; exact hr, this.2.2,
      fun hz => by unfold ZoomOk at *; rw [this.2.1]; exact hz⟩
  | WM_MOUSEMOVE x y =>
    simp only [OverlayWndProc, Option.some.injEq] at h
    subst h
    have := onMouseMove_frame x y s
    exact ⟨fun hr => by unfold RegionsOk at *; rw [this.1]; exact hr, this.2.2,
      fun hz => by unfold ZoomOk at *; rw [this.2.1]; exact hz⟩
  | WM_MOUSEWHEEL delta out =>
    simp only [OverlayWndProc, Option.some.injEq] at h
    subst h
    have := onMouseWheel_frame pf delta out s
    exact ⟨fun hr => by unfold RegionsOk at *; rw [this.1]; exact hr, this.2.1, this.2.2.2⟩
  | WM_LBUTTONUP env =>
    simp only [OverlayWndProc] at h
    have := onLButtonUp_frame h
    exact ⟨onLButtonUp_regions h, this.2,
      fun hz => by unfold ZoomOk at *; rw [this.1]; exact hz⟩
  | WM_KEYDOWN k =>
    simp only [OverlayWndProc] at h
    exact onKeyDown_frame h
  | WM_DESTROY =>
    simp only [OverlayWndProc, Option.some.injEq] at h
    subst h
    exact ⟨id, rfl, id⟩

theorem Reach.regions_zoom {pf : Platform} {s : OverlayState} (h : Reach pf s) :
    RegionsOk s ∧ ZoomOk s := by
  induction h with
  | boot cb =>
    constructor
    · intro r hr; simp [OverlayState.init] at hr
    · unfold ZoomOk OverlayState.init; norm_num
  | enter _ _ ih =>
    constructor
    · intro r hr; simp [ShowOverlay_enter] at hr
    · exact ih.2
  | msg m _ hm ih =>
    have := OverlayWndProc_frame hm
    exact ⟨this.1 ih.1, this.2.2 ih.2⟩
  | leave _ _ ih =>
    constructor
    · exact ih.1
    · unfold ZoomOk CleanupZoomResources; norm_num
  | clipboard cb _ ih => exact ih

theorem SessionReach.reach {pf : Platform} {s : OverlayState} (h : SessionReach pf s) :
    Reach pf s := by
  induction h with
  | start h0 ha => exact Reach.enter h0 ha
  | msg m _ hm ih => exact Reach.msg m ih hm
  | clipboard cb _ ih => exact Reach.clipboard cb ih

theorem SessionReach.selection_mode {pf : Platform} {s : OverlayState}
    (h : SessionReach pf s) : s.selection_mode = true := by
  induction h with
  | start _ _ => rfl
  | msg m _ hm ih => rw [(OverlayWndProc_frame hm).2.1]; exact ih
  | clipboard cb _ ih => exact ih

theorem Reach.after_msgs {pf : Platform} {s s1 : OverlayState} (ms : List Msg) (h : Reach pf s)
    (he : runMsgs pf ms s = some s1) : Reach pf s1 := by
  induction ms generalizing s with
  | nil =>
    simp only [Highlighter.runMsgs, Option.some.injEq] at he
    subst he; exact h
  | cons m ms ih =>
    simp only [Highlighter.runMsgs, Option.bind_eq_some] at he
    obtain ⟨s2, h2, h3⟩ := he
    exact ih (Reach.msg m h h2) h3

theorem SessionReach.after_session_msgs {pf : Platform} {s s1 : OverlayState} (ms : List Msg)
    (h : SessionReach pf s) (he : runMsgs pf ms s = some s1) : SessionReach pf s1 := by
  induction ms generalizing s with
  | nil =>
    simp only [Highlighter.runMsgs, Option.some.injEq] at he
    subst he; exact h
  | cons m ms ih =>
    simp only [Highlighter.runMsgs, Option.bind_eq_some] at he
    obtain ⟨s2, h2, h3⟩ := he
    exact ih (SessionReach.msg m h h2) h3

theorem sessionStart_reach (pf : Platform) : SessionReach pf sessionStart :=
  SessionReach.start (Reach.boot Clipboard.empty) rfl

theorem runMsgs_dragTwoRegions (pf : Platform) :
    runMsgs pf dragTwoRegions sessionStart = some twoRegions := by
  rfl

/-- C11: in every reachable state each committed region `r`, moved by the
overlap adjustment or not, has `r.x2 - r.x1 ≥ 5` and `r.y2 - r.y1 ≥ 5`, so its
normalized width and height are strictly positive. -/
theorem C11_regions_min_size (pf : Platform) (s : OverlayState) (h : Reach pf s) :
    ∀ r ∈ s.screenRectangles, 5 ≤ r.x2 - r.x1 ∧ 5 ≤ r.y2 - r.y1 ∧
      0 < max r.x1 r.x2 - min r.x1 r.x2 ∧ 0 < max r.y1 r.y2 - min r.y1 r.y2 := by
  intro r hr
  have := (Reach.regions_zoom h).1 r hr
  omega

/-- C11 at the state reached by dragging (10,10)-(100,100) and then
(99,50)-(199,150), which the overlap adjustment moves to (102,50,202,150). -/
theorem C11_regions_min_size_witness :
    Reach Platform.pc twoRegions ∧
    ∀ r ∈ twoRegions.screenRectangles, 5 ≤ r.x2 - r.x1 ∧ 5 ≤ r.y2 - r.y1 ∧
      0 < max r.x1 r.x2 - min r.x1 r.x2 ∧ 0 < max r.y1 r.y2 - min r.y1 r.y2 :=
  ⟨Reach.after_msgs dragTwoRegions (sessionStart_reach Platform.pc).reach
      (runMsgs_dragTwoRegions Platform.pc),
    C11_regions_min_size Platform.pc twoRegions
      (Reach.after_msgs dragTwoRegions (sessionStart_reach Platform.pc).reach
        (runMsgs_dragTwoRegions Platform.pc))⟩

/-! ## Overlay session: undo and Escape -/

theorem OverlayWndProc_undo (pf : Platform) (env : Env) (shift : Bool) (s : OverlayState) :
    OverlayWndProc pf (.WM_KEYDOWN ⟨env, KEY_Z, true, shift⟩) s = some (onUndo s) := rfl

theorem OverlayWndProc_escape (pf : Platform) (env : Env) (ctrl shift : Bool)
    (s : OverlayState) :
    OverlayWndProc pf (.WM_KEYDOWN ⟨env, VK_ESCAPE, ctrl, shift⟩) s = some (onEscape s) := rfl

theorem dropLast_append_last {α : Type} (l : List α) (h : l ≠ []) :
    ∃ e, l = l.dropLast ++ [e] :=
  ⟨l.getLast h, (List.dropLast_append_getLast h).symm⟩

/-- C12: Ctrl+Z on any state: with a non-empty drawing store it removes the last
drawing element and changes nothing else; with an empty drawing store and a
non-empty region store it removes the last region; with both empty it changes
nothing. What remains is the old list without its last element, in order. -/
theorem C12_undo_pops_last (pf : Platform) (env : Env) (shift : Bool) (s : OverlayState) :
    ∃ s1, OverlayWndProc pf (.WM_KEYDOWN ⟨env, KEY_Z, true, shift⟩) s = some s1 ∧
      (s.drawing_elements ≠ [] →
        s1 = { s with drawing_elements := s.drawing_elements.dropLast } ∧
        (∃ e, s.drawing_elements = s1.drawing_elements ++ [e]) ∧
        s1.screenRectangles = s.screenRectangles) ∧
      (s.drawing_elements = [] → s.screenRectangles ≠ [] →
        (∃ r, s.screenRectangles = s1.screenRectangles ++ [r]) ∧
        s1.screenRectangles = s.screenRectangles.dropLast ∧ s1.drawing_elements = []) ∧
      (s.drawing_elements = [] → s.screenRectangles = [] → s1 = s) := by
  refine ⟨_, OverlayWndProc_undo pf env shift s, ?_, ?_, ?_⟩
  · intro hd
    unfold onUndo
    rw [if_pos hd]
    exact ⟨rfl, dropLast_append_last _ hd, rfl⟩
  · intro hd hr
    unfold onUndo
    rw [if_neg (by simp [hd]), if_pos hr]
    simp only
    split
    · exact ⟨dropLast_append_last _ hr, rfl, rfl⟩
    · exact ⟨dropLast_append_last _ hr, rfl, hd⟩
  · intro hd hr
    unfold onUndo
    rw [if_neg (by simp [hd]), if_neg (by simp [hr])]

/-- C13: when Ctrl+Z pops a region (empty drawing store, non-empty region
store): if zoom was active or no region remains, zoom is inactive afterwards,
the snapshot bitmap and DC are released and the scale factor is 1; if zoom was
inactive and regions remain, only the region store changes. -/
theorem C13_undo_region_teardown (pf : Platform) (env : Env) (shift : Bool) (s : OverlayState)
    (hd : s.drawing_elements = []) (hr : s.screenRectangles ≠ []) :
    ∃ s1, OverlayWndProc pf (.WM_KEYDOWN ⟨env, KEY_Z, true, shift⟩) s = some s1 ∧
      s1.screenRectangles = s.screenRectangles.dropLast ∧
      (s.zoom_active = true ∨ s.screenRectangles.dropLast = [] →
        s1.zoom_active = false ∧ s1.hZoomedBitmap = none ∧ s1.hZoomedDC = false ∧
        s1.zoom_factor = 1) ∧
      (s.zoom_active = false → s.screenRectangles.dropLast ≠ [] →
        s1 = { s with screenRectangles := s.screenRectangles.dropLast }) := by
  refine ⟨_, OverlayWndProc_undo pf env shift s, ?_, ?_, ?_⟩
  · unfold onUndo
    rw [if_neg (by simp [hd]), if_pos hr]
    simp only
    split <;> rfl
  · intro hz
    unfold onUndo
    rw [if_neg (by simp [hd]), if_pos hr]
    simp only
    rw [if_pos (by rcases hz with h | h; exact Or.inr h; exact Or.inl h)]
    exact ⟨rfl, rfl, rfl, rfl⟩
  · intro hz hne
    unfold onUndo
    rw [if_neg (by simp [hd]), if_pos hr]
    simp only
    rw [if_neg (by simp [hz, hne])]

/-- C13 at the state with two regions and an active zoom of factor 2. -/
theorem C13_undo_region_teardown_witness :
    ({ twoRegions with zoom_active := true, zoom_factor := 2 } : OverlayState).drawing_elements
      = [] ∧
    ({ twoRegions with zoom_active := true, zoom_factor := 2 } : OverlayState).screenRectangles
      ≠ [] ∧
    ∃ s1, OverlayWndProc Platform.pc (.WM_KEYDOWN ⟨Env.allOk, KEY_Z, true, false⟩)
        { twoRegions with zoom_active := true, zoom_factor := 2 } = some s1 ∧
      s1.screenRectangles =
        ({ twoRegions with zoom_active := true, zoom_factor := 2 } :
          OverlayState).screenRectangles.dropLast ∧
      (({ twoRegions with zoom_active := true, zoom_factor := 2 } : OverlayState).zoom_active
          = true ∨
        ({ twoRegions with zoom_active := true, zoom_factor := 2 } :
          OverlayState).screenRectangles.dropLast = [] →
        s1.zoom_active = false ∧ s1.hZoomedBitmap = none ∧ s1.hZoomedDC = false ∧
        s1.zoom_factor = 1) ∧
      (({ twoRegions with zoom_active := true, zoom_factor := 2 } : OverlayState).zoom_active
          = false →
        ({ twoRegions with zoom_active := true, zoom_factor := 2 } :
          OverlayState).screenRectangles.dropLast ≠ [] →
        s1 = { ({ twoRegions with zoom_active := true, zoom_factor := 2 } : OverlayState) with
          screenRectangles := ({ twoRegions with zoom_active := true, zoom_factor := 2 } :
            OverlayState).screenRectangles.dropLast }) :=
  ⟨rfl, by decide,
    C13_undo_region_teardown Platform.pc Env.allOk false
      { twoRegions with zoom_active := true, zoom_factor := 2 } rfl (by decide)⟩

/-- C14: one Escape press performs the first applicable action and nothing
else: it leaves screenshot mode (drag coordinates reset to -1); else it leaves
drawing mode (tool None, drawing drag start reset); else, with zoom active, it
switches text input off when that is on and otherwise runs
`CleanupZoomResources`; else it clears `overlay_active`. With zoom and text
input active (and neither screenshot nor drawing mode), the first press leaves
zoom active and the second one tears it down. -/
theorem C14_escape_priority (pf : Platform) (env : Env) (ctrl shift : Bool) (s : OverlayState) :
    ∃ s1, OverlayWndProc pf (.WM_KEYDOWN ⟨env, VK_ESCAPE, ctrl, shift⟩) s = some s1 ∧
      (s.screenshot_mode = true →
        s1 = { s with screenshot_mode := false, screenshot_start_x := -1,
                      screenshot_start_y := -1, screenshot_end_x := -1,
                      screenshot_end_y := -1 }) ∧
      (s.screenshot_mode = false → s.drawing_active = true →
        s1 = { s with drawing_active := false, current_drawing_tool := DrawingTool.None,
                      drawing_start_x := -1, drawing_start_y := -1 }) ∧
      (s.screenshot_mode = false → s.drawing_active = false → s.zoom_active = true →
        s.text_input_mode = true → s1 = { s with text_input_mode := false }) ∧
      (s.screenshot_mode = false → s.drawing_active = false → s.zoom_active = true →
        s.text_input_mode = false → s1 = CleanupZoomResources s) ∧
      (s.screenshot_mode = false → s.drawing_active = false → s.zoom_active = false →
        s1 = { s with overlay_active := false }) ∧
      (s.screenshot_mode = false → s.drawing_active = false → s.zoom_active = true →
        s.text_input_mode = true →
        s1.zoom_active = true ∧
        ∃ s2, OverlayWndProc pf (.WM_KEYDOWN ⟨env, VK_ESCAPE, ctrl, shift⟩) s1 = some s2 ∧
          s2 = CleanupZoomResources s1 ∧ s2.zoom_active = false) := by
  refine ⟨_, OverlayWndProc_escape pf env ctrl shift s, ?_, ?_, ?_, ?_, ?_, ?_⟩
  · intro h1
    simp [onEscape, h1]
  · intro h1 h2
    simp [onEscape, h1, h2]
  · intro h1 h2 h3 h4
    simp [onEscape, h1, h2, h3, h4]
  · intro h1 h2 h3 h4
    simp [onEscape, h1, h2, h3, h4]
  · intro h1 h2 h3
    simp [onEscape, h1, h2, h3]
  · intro h1 h2 h3 h4
    have e : onEscape s = { s with text_input_mode := false } := by
      simp [onEscape, h1, h2, h3, h4]
    rw [e]
    refine ⟨h3, _, OverlayWndProc_escape pf env ctrl shift _, ?_, ?_⟩
    · simp [onEscape, h1, h2, h3]
    · simp [onEscape, h1, h2, h3, CleanupZoomResources]

/-! ## Overlay session: mode flags and tool keys -/

theorem OverlayWndProc_toolKey (pf : Platform) (k : KeyPress) (tool : DrawingTool)
    (s : OverlayState) (h : toolOfKey k.wParam = some tool) :
    OverlayWndProc pf (.WM_KEYDOWN k) s =
      some { s with current_drawing_tool := tool, drawing_active := true } := by
  simp only [OverlayWndProc, onKeyDown, h]

theorem OverlayWndProc_ctrlEnter (pf : Platform) (env : Env) (shift : Bool) (s : OverlayState) :
    OverlayWndProc pf (.WM_KEYDOWN ⟨env, VK_RETURN, true, shift⟩) s =
      some { s with screenshot_mode := true, drawing_active := false,
                    current_drawing_tool := DrawingTool.None, text_input_mode := false } := rfl

/-- C15 as stated fails: after Ctrl+Enter, F1, Ctrl+T in a fresh session all of
`selection_mode`, `drawing_active`, `screenshot_mode` and `text_input_mode` are
set. -/
theorem C15_counterexample :
    SessionReach Platform.pc allModesOn ∧
    runMsgs Platform.pc enterThreeModes sessionStart = some allModesOn ∧
    allModesOn.selection_mode = true ∧ allModesOn.drawing_active = true ∧
    allModesOn.screenshot_mode = true ∧ allModesOn.text_input_mode = true :=
  ⟨SessionReach.after_session_msgs enterThreeModes (sessionStart_reach Platform.pc) rfl, rfl,
    rfl, rfl, rfl, rfl⟩

/-- C15 (amended): in every state reachable within an overlay session
`selection_mode` is set, whatever the other flags are; and Ctrl+Enter is an
exclusive mode entry: right after it `screenshot_mode` is set and
`drawing_active` and `text_input_mode` are clear. -/
theorem C15_mode_flags (pf : Platform) (s : OverlayState) (h : SessionReach pf s) :
    s.selection_mode = true ∧
    ∀ (env : Env) (shift : Bool),
      ∃ s1, OverlayWndProc pf (.WM_KEYDOWN ⟨env, VK_RETURN, true, shift⟩) s = some s1 ∧
        SessionReach pf s1 ∧ s1.selection_mode = true ∧ s1.screenshot_mode = true ∧
        s1.drawing_active = false ∧ s1.text_input_mode = false := by
  have hs := SessionReach.selection_mode h
  refine ⟨hs, fun env shift => ⟨_, OverlayWndProc_ctrlEnter pf env shift s, ?_, hs, rfl, rfl, rfl⟩⟩
  exact SessionReach.msg _ h (OverlayWndProc_ctrlEnter pf env shift s)

/-- C15 (amended) at the state with every mode flag set. -/
theorem C15_mode_flags_witness :
    SessionReach Platform.pc allModesOn ∧
    allModesOn.selection_mode = true ∧
    ∀ (env : Env) (shift : Bool),
      ∃ s1, OverlayWndProc Platform.pc (.WM_KEYDOWN ⟨env, VK_RETURN, true, shift⟩) allModesOn
          = some s1 ∧
        SessionReach Platform.pc s1 ∧ s1.selection_mode = true ∧ s1.screenshot_mode = true ∧
        s1.drawing_active = false ∧ s1.text_input_mode = false :=
  ⟨SessionReach.after_session_msgs enterThreeModes (sessionStart_reach Platform.pc) rfl,
    C15_mode_flags Platform.pc allModesOn
      (SessionReach.after_session_msgs enterThreeModes (sessionStart_reach Platform.pc) rfl)⟩

/-- C16 as stated fails: after a selection drag from (10,10) to (100,100), F1
leaves the drag coordinates in place (`start_x` is 10, not -1), and the
following pointer-up commits the region (10,10,100,100). -/
theorem C16_counterexample :
    SessionReach Platform.pc pendingDragWithTool ∧
    runMsgs Platform.pc dragThenF1 sessionStart = some pendingDragWithTool ∧
    pendingDragWithTool.start_x = 10 ∧ pendingDragWithTool.drawing_active = true ∧
    OverlayWndProc Platform.pc (.WM_LBUTTONUP Env.allOk) pendingDragWithTool =
      some { pendingDragWithTool with
        screenRectangles := [⟨10, 10, 100, 100⟩],
        start_x := -1, start_y := -1, end_x := -1, end_y := -1 } :=
  ⟨SessionReach.after_session_msgs dragThenF1 (sessionStart_reach Platform.pc) rfl,
    rfl, rfl, rfl, rfl⟩

/-- C16 (amended): with a selection drag in progress (`start_x ≠ -1`), a
drawing-tool key (F1-F4) selects its tool, sets `drawing_active` and changes
nothing else: the region store and the drawing store are unchanged and the
in-progress selection coordinates are kept, not reset. -/
theorem C16_tool_key_keeps_drag (pf : Platform) (k : KeyPress) (tool : DrawingTool)
    (s : OverlayState) (hk : toolOfKey k.wParam = some tool) (hdrag : s.start_x ≠ -1) :
    ∃ s1, OverlayWndProc pf (.WM_KEYDOWN k) s = some s1 ∧
      s1 = { s with current_drawing_tool := tool, drawing_active := true } ∧
      s1.screenRectangles = s.screenRectangles ∧ s1.drawing_elements = s.drawing_elements ∧
      s1.start_x = s.start_x ∧ s1.start_y = s.start_y ∧ s1.end_x = s.end_x ∧
      s1.end_y = s.end_y ∧ s1.start_x ≠ -1 :=
  ⟨_, OverlayWndProc_toolKey pf k tool s hk, rfl, rfl, rfl, rfl, rfl, rfl, rfl, hdrag⟩

/-- C16 (amended) for F3 pressed during the drag from (10,10) to (100,100). -/
theorem C16_tool_key_keeps_drag_witness :
    toolOfKey (⟨Env.allOk, VK_F3, false, false⟩ : KeyPress).wParam = some DrawingTool.Rectangle ∧
    pendingDragWithTool.start_x ≠ -1 ∧
    ∃ s1, OverlayWndProc Platform.pc (.WM_KEYDOWN ⟨Env.allOk, VK_F3, false, false⟩)
        pendingDragWithTool = some s1 ∧
      s1 = { pendingDragWithTool with current_drawing_tool := DrawingTool.Rectangle,
                                      drawing_active := true } ∧
      s1.screenRectangles = pendingDragWithTool.screenRectangles ∧
      s1.drawing_elements = pendingDragWithTool.drawing_elements ∧
      s1.start_x = pendingDragWithTool.start_x ∧ s1.start_y = pendingDragWithTool.start_y ∧
      s1.end_x = pendingDragWithTool.end_x ∧ s1.end_y = pendingDragWithTool.end_y ∧
      s1.start_x ≠ -1 :=
  ⟨rfl, by decide,
    C16_tool_key_keeps_drag Platform.pc ⟨Env.allOk, VK_F3, false, false⟩ DrawingTool.Rectangle
      pendingDragWithTool rfl (by decide)⟩

/-- C17 (code defect): with text mode on (state reached by Ctrl+T), each of F1,
F2, F3, F4 is taken by the top-level branch of `WM_KEYDOWN`, which selects the
tool and sets `drawing_active` but leaves `text_input_mode` set; the F1-F4 tests
of the text branch, which would clear it, are never reached. -/
theorem C17_tool_key_leaves_text_mode_on (pf : Platform) (env : Env) (ctrl shift : Bool) :
    SessionReach pf textModeOn ∧ textModeOn.text_input_mode = true ∧
    OverlayWndProc pf (.WM_KEYDOWN ⟨env, VK_F1, ctrl, shift⟩) textModeOn =
      some { textModeOn with current_drawing_tool := DrawingTool.Line, drawing_active := true,
                             text_input_mode := true } ∧
    OverlayWndProc pf (.WM_KEYDOWN ⟨env, VK_F2, ctrl, shift⟩) textModeOn =
      some { textModeOn with current_drawing_tool := DrawingTool.Arrow, drawing_active := true,
                             text_input_mode := true } ∧
    OverlayWndProc pf (.WM_KEYDOWN ⟨env, VK_F3, ctrl, shift⟩) textModeOn =
      some { textModeOn with current_drawing_tool := DrawingTool.Rectangle,
                             drawing_active := true, text_input_mode := true } ∧
    OverlayWndProc pf (.WM_KEYDOWN ⟨env, VK_F4, ctrl, shift⟩) textModeOn =
      some { textModeOn with current_drawing_tool := DrawingTool.Highlighter,
                             drawing_active := true, text_input_mode := true } :=
  ⟨SessionReach.msg (keyMsg KEY_T true false) (sessionStart_reach pf) rfl, rfl,
    rfl, rfl, rfl, rfl⟩

/-- Whatever the state, a tool key never reaches the text branch: the result
keeps `text_input_mode` as it was. -/
theorem toolKey_keeps_text_input_mode (pf : Platform) (k : KeyPress) (tool : DrawingTool)
    (s s1 : OverlayState) (hk : toolOfKey k.wParam = some tool)
    (h : OverlayWndProc pf (.WM_KEYDOWN k) s = some s1) :
    s1.text_input_mode = s.text_input_mode ∧ s1.drawing_active = true ∧
      s1.current_drawing_tool = tool := by
  rw [OverlayWndProc_toolKey pf k tool s hk] at h
  simp only [Option.some.injEq] at h
  subst h
  exact ⟨rfl, rfl, rfl⟩

/-! ## Overlay session: drawing drags -/

theorem pointDistance_valid {x1 y1 x2 y2 : Int}
    (hfit : (x2 - x1) * (x2 - x1) + (y2 - y1) * (y2 - y1) < 2 ^ 31) :
    (pointDistance x1 y1 x2 y2).map (fun distance => decide (10 ≤ distance)) =
      some (decide (100 ≤ (x2 - x1) * (x2 - x1) + (y2 - y1) * (y2 - y1))) := by
  unfold pointDistance
  simp only
  rw [if_pos hfit]
  simp only [Option.map_some', Option.some.injEq, decide_eq_decide]
  have h0 : 0 ≤ (x2 - x1) * (x2 - x1) + (y2 - y1) * (y2 - y1) :=
    add_nonneg (mul_self_nonneg _) (mul_self_nonneg _)
  generalize (x2 - x1) * (x2 - x1) + (y2 - y1) * (y2 - y1) = d at *
  have hs : (10 : Nat) ≤ Nat.sqrt d.toNat ↔ 10 * 10 ≤ d.toNat := Nat.le_sqrt
  constructor
  · intro h
    have : (10 : Nat) ≤ Nat.sqrt d.toNat := by omega
    have := hs.mp this
    omega
  · intro h
    have : (10 : Nat) ≤ Nat.sqrt d.toNat := hs.mpr (by omega)
    omega

theorem onLButtonUp_drawing (env : Env) (s : OverlayState)
    (hact : s.drawing_active = true) (hdrag : s.drawing_start_x ≠ -1)
    (hshot : ¬ (s.screenshot_mode = true ∧ s.screenshot_start_x ≠ -1))
    (hfit : s.current_drawing_tool = DrawingTool.Line ∨
        s.current_drawing_tool = DrawingTool.Arrow →
      (s.end_x - s.drawing_start_x) * (s.end_x - s.drawing_start_x) +
        (s.end_y - s.drawing_start_y) * (s.end_y - s.drawing_start_y) < 2 ^ 31) :
    onLButtonUp env s = some
      { (if largeEnough s.current_drawing_tool s.drawing_start_x s.drawing_start_y
            s.end_x s.end_y
          then { s with drawing_elements := s.drawing_elements ++ [draggedElement s] }
          else s) with drawing_start_x := -1, drawing_start_y := -1 } := by
  unfold onLButtonUp
  rw [if_neg hshot, if_pos ⟨hact, hdrag⟩]
  simp only
  by_cases hl : s.current_drawing_tool = DrawingTool.Line ∨
      s.current_drawing_tool = DrawingTool.Arrow
  · simp only [if_pos hl, pointDistance_valid (hfit hl), Option.map_some', largeEnough,
      draggedElement, decide_eq_true_eq]
  · simp only [if_neg hl, Option.map_some', largeEnough, draggedElement, decide_eq_true_eq]

/-- C18 as stated fails. (1) With a drawing drag from (10,10) to (100,100)
pending and a screenshot drag pending too, the pointer-up is taken by the
screenshot branch: no element is appended and `drawing_start_x` stays 10.
(2) For a Line drag from (0,0) to (65535,65535) the squared length does not fit
an `int`: the size test is undefined. -/
theorem C18_counterexample :
    (SessionReach Platform.pc bothDragsPending ∧
      runMsgs Platform.pc drawingThenScreenshotDrag sessionStart = some bothDragsPending ∧
      bothDragsPending.drawing_active = true ∧ bothDragsPending.drawing_start_x ≠ -1 ∧
      largeEnough bothDragsPending.current_drawing_tool bothDragsPending.drawing_start_x
        bothDragsPending.drawing_start_y bothDragsPending.end_x bothDragsPending.end_y ∧
      ∃ s1, OverlayWndProc Platform.pc (.WM_LBUTTONUP Env.allOk) bothDragsPending = some s1 ∧
        s1.drawing_start_x = 10 ∧ s1.drawing_elements = []) ∧
    (SessionReach Platform.pc hugeLinePending ∧
      runMsgs Platform.pc hugeLineDrag sessionStart = some hugeLinePending ∧
      hugeLinePending.drawing_active = true ∧ hugeLinePending.drawing_start_x ≠ -1 ∧
      OverlayWndProc Platform.pc (.WM_LBUTTONUP Env.allOk) hugeLinePending = none) :=
  ⟨⟨SessionReach.after_session_msgs drawingThenScreenshotDrag
        (sessionStart_reach Platform.pc) rfl, rfl,
      rfl, by decide, by decide, _, rfl, rfl, rfl⟩,
    ⟨SessionReach.after_session_msgs hugeLineDrag (sessionStart_reach Platform.pc) rfl, rfl,
      rfl, by decide, rfl⟩⟩

/-- C18 (amended): with `drawing_active` on, tool `t`, a drawing drag in
progress, no screenshot drag pending (the screenshot branch comes first) and,
for Line and Arrow, a squared drag length that fits an `int`, a pointer-up
keeps `drawing_active` and the tool, resets the drag start to -1, leaves the
region store alone, and appends exactly the dragged element with the current
colour, thickness and fill when the drag is large enough (Line/Arrow:
`dx^2 + dy^2 ≥ 100`; other tools: normalized width and height at least 5), and
nothing otherwise. -/
theorem C18_drawing_pointer_up (pf : Platform) (env : Env) (s : OverlayState)
    (hact : s.drawing_active = true) (hdrag : s.drawing_start_x ≠ -1)
    (hshot : ¬ (s.screenshot_mode = true ∧ s.screenshot_start_x ≠ -1))
    (hfit : s.current_drawing_tool = DrawingTool.Line ∨
        s.current_drawing_tool = DrawingTool.Arrow →
      (s.end_x - s.drawing_start_x) * (s.end_x - s.drawing_start_x) +
        (s.end_y - s.drawing_start_y) * (s.end_y - s.drawing_start_y) < 2 ^ 31) :
    ∃ s1, OverlayWndProc pf (.WM_LBUTTONUP env) s = some s1 ∧
      s1.drawing_active = true ∧ s1.current_drawing_tool = s.current_drawing_tool ∧
      s1.drawing_start_x = -1 ∧ s1.drawing_start_y = -1 ∧
      s1.screenRectangles = s.screenRectangles ∧
      (largeEnough s.current_drawing_tool s.drawing_start_x s.drawing_start_y s.end_x s.end_y →
        s1.drawing_elements = s.drawing_elements ++ [draggedElement s] ∧
        (draggedElement s).tool_type = s.current_drawing_tool ∧
        (draggedElement s).color = s.drawing_color ∧
        (draggedElement s).thickness = s.drawing_thickness ∧
        (draggedElement s).filled = s.drawing_fill) ∧
      (¬ largeEnough s.current_drawing_tool s.drawing_start_x s.drawing_start_y s.end_x s.end_y →
        s1.drawing_elements = s.drawing_elements) := by
  refine ⟨_, onLButtonUp_drawing env s hact hdrag hshot hfit, ?_, ?_, rfl, rfl, ?_, ?_, ?_⟩
  · split <;> exact hact
  · split <;> rfl
  · split <;> rfl
  · intro hl
    rw [if_pos hl]
    refine ⟨rfl, ?_, ?_, ?_, ?_⟩ <;> (unfold draggedElement; split <;> rfl)
  · intro hl
    rw [if_neg hl]

/-- C18 (amended) for a Rectangle drag from (80,20) to (20,90): the element
(20,20,80,90) is appended. -/
theorem C18_drawing_pointer_up_witness :
    (rectangleDragPending.drawing_active = true ∧ rectangleDragPending.drawing_start_x ≠ -1 ∧
      ¬ (rectangleDragPending.screenshot_mode = true ∧
        rectangleDragPending.screenshot_start_x ≠ -1)) ∧
    (∃ s1, OverlayWndProc Platform.pc (.WM_LBUTTONUP Env.allOk) rectangleDragPending = some s1 ∧
      s1.drawing_active = true ∧
      s1.current_drawing_tool = rectangleDragPending.current_drawing_tool ∧
      s1.drawing_start_x = -1 ∧ s1.drawing_start_y = -1 ∧
      s1.screenRectangles = rectangleDragPending.screenRectangles ∧
      (largeEnough rectangleDragPending.current_drawing_tool
          rectangleDragPending.drawing_start_x rectangleDragPending.drawing_start_y
          rectangleDragPending.end_x rectangleDragPending.end_y →
        s1.drawing_elements =
          rectangleDragPending.drawing_elements ++ [draggedElement rectangleDragPending] ∧
        (draggedElement rectangleDragPending).tool_type =
          rectangleDragPending.current_drawing_tool ∧
        (draggedElement rectangleDragPending).color = rectangleDragPending.drawing_color ∧
        (draggedElement rectangleDragPending).thickness =
          rectangleDragPending.drawing_thickness ∧
        (draggedElement rectangleDragPending).filled = rectangleDragPending.drawing_fill) ∧
      (¬ largeEnough rectangleDragPending.current_drawing_tool
          rectangleDragPending.drawing_start_x rectangleDragPending.drawing_start_y
          rectangleDragPending.end_x rectangleDragPending.end_y →
        s1.drawing_elements = rectangleDragPending.drawing_elements)) ∧
    largeEnough rectangleDragPending.current_drawing_tool
      rectangleDragPending.drawing_start_x rectangleDragPending.drawing_start_y
      rectangleDragPending.end_x rectangleDragPending.end_y ∧
    draggedElement rectangleDragPending =
      ⟨DrawingTool.Rectangle, 20, 20, 80, 90, 255, 3, false, []⟩ :=
  ⟨⟨rfl, by decide, by decide⟩,
    C18_drawing_pointer_up Platform.pc Env.allOk rectangleDragPending rfl (by decide)
      (by decide) (by decide),
    by decide, by decide⟩

/-! ## Overlay session: zoom -/

theorem oneRegion_reach (pf : Platform) : SessionReach pf oneRegion :=
  SessionReach.after_session_msgs dragOneRegion (sessionStart_reach pf) rfl

/-- C19: in every reachable state (mouse-wheel, undo, Escape, teardown and
every other event, from the initial scale 1.0) the scale factor lies in
`[0.5, 5.0]`, whatever the rounding of the `float` product. -/
theorem C19_zoom_factor_range (pf : Platform) (s : OverlayState) (h : Reach pf s) :
    1 / 2 ≤ s.zoom_factor ∧ s.zoom_factor ≤ 5 :=
  (Reach.regions_zoom h).2

/-- C19 at the state reached by one wheel-up event over the region
(100,100,300,250). -/
theorem C19_zoom_factor_range_witness :
    Reach Platform.pc (onMouseWheel Platform.pc 120 CaptureOutcome.ok oneRegion) ∧
    1 / 2 ≤ (onMouseWheel Platform.pc 120 CaptureOutcome.ok oneRegion).zoom_factor ∧
    (onMouseWheel Platform.pc 120 CaptureOutcome.ok oneRegion).zoom_factor ≤ 5 :=
  ⟨Reach.msg (.WM_MOUSEWHEEL 120 CaptureOutcome.ok) (oneRegion_reach Platform.pc).reach rfl,
    C19_zoom_factor_range Platform.pc _
      (Reach.msg (.WM_MOUSEWHEEL 120 CaptureOutcome.ok) (oneRegion_reach Platform.pc).reach rfl)⟩

theorem onMouseWheel_first (pf : Platform) (delta : Int) (out : CaptureOutcome)
    (s : OverlayState) (hne : s.screenRectangles ≠ []) (hdraw : s.drawing_active = false)
    (hzoom : s.zoom_active = false) :
    (onMouseWheel pf delta out s).captureCalls = s.captureCalls + 1 ∧
    (onMouseWheel pf delta out s).zoom_active = true := by
  unfold onMouseWheel
  cases hl : s.screenRectangles.getLast? with
  | none => exact absurd (List.getLast?_eq_none_iff.mp hl) hne
  | some back =>
    simp only [hdraw, hzoom, Bool.false_eq_true, if_false]
    have hc := CaptureZoomRegion_frame pf out back s
    have ha := applyZoomChange_frame pf delta
      { CaptureZoomRegion pf out back s with zoom_active := true }
    exact ⟨ha.2.2.2.2.1.trans hc.2.2.2.2.2, ha.2.2.2.1⟩

theorem onMouseWheel_zoomed (pf : Platform) (delta : Int) (out : CaptureOutcome)
    (s : OverlayState) (hzoom : s.zoom_active = true) :
    (onMouseWheel pf delta out s).captureCalls = s.captureCalls ∧
    (onMouseWheel pf delta out s).zoom_active = true := by
  unfold onMouseWheel
  cases s.screenRectangles.getLast? with
  | none => exact ⟨rfl, hzoom⟩
  | some back =>
    simp only [hzoom, if_true]
    split
    · exact ⟨rfl, hzoom⟩
    · have ha := applyZoomChange_frame pf delta s
      exact ⟨ha.2.2.2.2.1, ha.2.2.2.1.trans hzoom⟩

theorem onMouseWheel_idle (pf : Platform) (delta : Int) (out : CaptureOutcome)
    (s : OverlayState) (h : s.drawing_active = true ∨ s.screenRectangles = []) :
    onMouseWheel pf delta out s = s := by
  unfold onMouseWheel
  cases hl : s.screenRectangles.getLast? with
  | none => rfl
  | some back =>
    rcases h with h | h
    · simp only [h, if_true]
    · rw [h] at hl
      exact absurd hl (by simp)

theorem runMsgs_wheel_zoomed (pf : Platform) (ws : List (Int × CaptureOutcome))
    (s : OverlayState) (hzoom : s.zoom_active = true) :
    ∃ sN, runMsgs pf (wheelMsgs ws) s = some sN ∧ sN.captureCalls = s.captureCalls ∧
      sN.zoom_active = true := by
  induction ws generalizing s with
  | nil => exact ⟨s, rfl, rfl, hzoom⟩
  | cons w ws ih =>
    have h1 := onMouseWheel_zoomed pf w.1 w.2 s hzoom
    obtain ⟨sN, hr, hc, hz⟩ := ih (onMouseWheel pf w.1 w.2 s) h1.2
    exact ⟨sN, hr, hc.trans h1.1, hz⟩

/-- C20: with a non-empty region store, drawing inactive and zoom inactive, a
run of N ≥ 1 wheel events (any deltas, any capture outcomes) calls
`CaptureZoomRegion` exactly once, on the first event, which also sets
`zoom_active`; a wheel event in a state with `zoom_active` set never calls it;
and a wheel event with drawing active or with no committed region returns the
state unchanged (so calls nothing). The calls are counted by the ghost field
`captureCalls`. -/
theorem C20_capture_once (pf : Platform) (s : OverlayState) (w : Int × CaptureOutcome)
    (ws : List (Int × CaptureOutcome)) (hne : s.screenRectangles ≠ [])
    (hdraw : s.drawing_active = false) (hzoom : s.zoom_active = false) :
    (∃ s1 sN, OverlayWndProc pf (.WM_MOUSEWHEEL w.1 w.2) s = some s1 ∧
      s1.captureCalls = s.captureCalls + 1 ∧ s1.zoom_active = true ∧
      runMsgs pf (wheelMsgs ws) s1 = some sN ∧
      runMsgs pf (wheelMsgs (w :: ws)) s = some sN ∧
      sN.captureCalls = s.captureCalls + 1 ∧ sN.zoom_active = true) ∧
    (∀ (t : OverlayState) (delta : Int) (out : CaptureOutcome), t.zoom_active = true →
      ∃ t1, OverlayWndProc pf (.WM_MOUSEWHEEL delta out) t = some t1 ∧
        t1.captureCalls = t.captureCalls ∧ t1.zoom_active = true) ∧
    (∀ (t : OverlayState) (delta : Int) (out : CaptureOutcome),
      t.drawing_active = true ∨ t.screenRectangles = [] →
      OverlayWndProc pf (.WM_MOUSEWHEEL delta out) t = some t) := by
  have h1 := onMouseWheel_first pf w.1 w.2 s hne hdraw hzoom
  obtain ⟨sN, hr, hc, hz⟩ := runMsgs_wheel_zoomed pf ws (onMouseWheel pf w.1 w.2 s) h1.2
  refine ⟨⟨_, sN, rfl, h1.1, h1.2, hr, hr, hc.trans h1.1, hz⟩, ?_, ?_⟩
  · intro t delta out ht
    exact ⟨_, rfl, (onMouseWheel_zoomed pf delta out t ht).1,
      (onMouseWheel_zoomed pf delta out t ht).2⟩
  · intro t delta out ht
    exact congrArg some (onMouseWheel_idle pf delta out t ht)

/-- C20 for three wheel events (up, down, up) over the region
(100,100,300,250). -/
theorem C20_capture_once_witness :
    (oneRegion.screenRectangles ≠ [] ∧ oneRegion.drawing_active = false ∧
      oneRegion.zoom_active = false ∧ oneRegion.captureCalls = 0) ∧
    (∃ s1 sN, OverlayWndProc Platform.pc (.WM_MOUSEWHEEL 120 CaptureOutcome.ok) oneRegion =
        some s1 ∧
      s1.captureCalls = oneRegion.captureCalls + 1 ∧ s1.zoom_active = true ∧
      runMsgs Platform.pc
        (wheelMsgs [(-120, CaptureOutcome.ok), (120, CaptureOutcome.ok)]) s1 = some sN ∧
      runMsgs Platform.pc
        (wheelMsgs [(120, CaptureOutcome.ok), (-120, CaptureOutcome.ok),
          (120, CaptureOutcome.ok)]) oneRegion = some sN ∧
      sN.captureCalls = oneRegion.captureCalls + 1 ∧ sN.zoom_active = true) :=
  ⟨⟨by decide, rfl, rfl, rfl⟩,
    (C20_capture_once Platform.pc oneRegion (120, CaptureOutcome.ok)
      [(-120, CaptureOutcome.ok), (120, CaptureOutcome.ok)] (by decide) rfl rfl).1⟩

/-! ## Overlay session: the wheel scenario in binary32 arithmetic -/

theorem roundHalfEven_eq (y : ℚ) (n : Int) (h1 : (n : ℚ) - 1 / 2 < y)
    (h2 : y < (n : ℚ) + 1 / 2) : roundHalfEven y = n := by
  unfold roundHalfEven
  simp only
  by_cases hn : (n : ℚ) ≤ y
  · have hf : ⌊y⌋ = n := Int.floor_eq_iff.mpr ⟨hn, by linarith⟩
    rw [hf, if_pos (by linarith)]
  · have hf : ⌊y⌋ = n - 1 :=
      Int.floor_eq_iff.mpr ⟨by push_cast; linarith, by push_cast; linarith⟩
    rw [hf]
    push_cast
    rw [if_neg (by linarith), if_pos (by linarith)]
    ring

theorem f32mul_eq (a b : ℚ) (e n : Int) (he : f32exp (a * b) = e)
    (h1 : ((n : ℚ) - 1 / 2) * (2 : ℚ) ^ (e - 23) < a * b)
    (h2 : a * b < ((n : ℚ) + 1 / 2) * (2 : ℚ) ^ (e - 23)) :
    f32mul a b = (n : ℚ) * (2 : ℚ) ^ (e - 23) := by
  unfold f32mul f32round
  simp only [he]
  have hp : (0 : ℚ) < (2 : ℚ) ^ (e - 23) := by positivity
  rw [roundHalfEven_eq (a * b / (2 : ℚ) ^ (e - 23)) n]
  · rw [lt_div_iff₀ hp]; exact h1
  · rw [div_lt_iff₀ hp]; exact h2

theorem f32mul_up_1 : f32mul 1 F32_1_1 = 9227469 / 8388608 := by
  rw [f32mul_eq 1 F32_1_1 (0) 9227469
    (by norm_num [f32exp, F32_1_1]) (by norm_num [F32_1_1]) (by norm_num [F32_1_1])]
  norm_num

theorem f32mul_up_2 : f32mul (9227469 / 8388608) F32_1_1 = 1268777 / 1048576 := by
  rw [f32mul_eq (9227469 / 8388608) F32_1_1 (0) 10150216
    (by norm_num [f32exp, F32_1_1]) (by norm_num [F32_1_1]) (by norm_num [F32_1_1])]
  norm_num

theorem f32mul_up_3 : f32mul (1268777 / 1048576) F32_1_1 = 5582619 / 4194304 := by
  rw [f32mul_eq (1268777 / 1048576) F32_1_1 (0) 11165238
    (by norm_num [f32exp, F32_1_1]) (by norm_num [F32_1_1]) (by norm_num [F32_1_1])]
  norm_num

theorem f32mul_up_4 : f32mul (5582619 / 4194304) F32_1_1 = 6140881 / 4194304 := by
  rw [f32mul_eq (5582619 / 4194304) F32_1_1 (0) 12281762
    (by norm_num [f32exp, F32_1_1]) (by norm_num [F32_1_1]) (by norm_num [F32_1_1])]
  norm_num

theorem f32mul_up_5 : f32mul (6140881 / 4194304) F32_1_1 = 6754969 / 4194304 := by
  rw [f32mul_eq (6140881 / 4194304) F32_1_1 (0) 13509938
    (by norm_num [f32exp, F32_1_1]) (by norm_num [F32_1_1]) (by norm_num [F32_1_1])]
  norm_num

theorem f32mul_up_6 : f32mul (6754969 / 4194304) F32_1_1 = 3715233 / 2097152 := by
  rw [f32mul_eq (6754969 / 4194304) F32_1_1 (0) 14860932
    (by norm_num [f32exp, F32_1_1]) (by norm_num [F32_1_1]) (by norm_num [F32_1_1])]
  norm_num

theorem f32mul_up_7 : f32mul (3715233 / 2097152) F32_1_1 = 8173513 / 4194304 := by
  rw [f32mul_eq (3715233 / 2097152) F32_1_1 (0) 16347026
    (by norm_num [f32exp, F32_1_1]) (by norm_num [F32_1_1]) (by norm_num [F32_1_1])]
  norm_num

theorem f32mul_up_8 : f32mul (8173513 / 4194304) F32_1_1 = 561929 / 262144 := by
  rw [f32mul_eq (8173513 / 4194304) F32_1_1 (1) 8990864
    (by norm_num [f32exp, F32_1_1]) (by norm_num [F32_1_1]) (by norm_num [F32_1_1])]
  norm_num

theorem f32mul_up_9 : f32mul (561929 / 262144) F32_1_1 = 9889951 / 4194304 := by
  rw [f32mul_eq (561929 / 262144) F32_1_1 (1) 9889951
    (by norm_num [f32exp, F32_1_1]) (by norm_num [F32_1_1]) (by norm_num [F32_1_1])]
  norm_num

theorem f32mul_up_10 : f32mul (9889951 / 4194304) F32_1_1 = 5439473 / 2097152 := by
  rw [f32mul_eq (9889951 / 4194304) F32_1_1 (1) 10878946
    (by norm_num [f32exp, F32_1_1]) (by norm_num [F32_1_1]) (by norm_num [F32_1_1])]
  norm_num

theorem f32mul_up_11 : f32mul (5439473 / 2097152) F32_1_1 = 11966841 / 4194304 := by
  rw [f32mul_eq (5439473 / 2097152) F32_1_1 (1) 11966841
    (by norm_num [f32exp, F32_1_1]) (by norm_num [F32_1_1]) (by norm_num [F32_1_1])]
  norm_num

theorem f32mul_up_12 : f32mul (11966841 / 4194304) F32_1_1 = 13163525 / 4194304 := by
  rw [f32mul_eq (11966841 / 4194304) F32_1_1 (1) 13163525
    (by norm_num [f32exp, F32_1_1]) (by norm_num [F32_1_1]) (by norm_num [F32_1_1])]
  norm_num

theorem f32mul_up_13 : f32mul (13163525 / 4194304) F32_1_1 = 7239939 / 2097152 := by
  rw [f32mul_eq (13163525 / 4194304) F32_1_1 (1) 14479878
    (by norm_num [f32exp, F32_1_1]) (by norm_num [F32_1_1]) (by norm_num [F32_1_1])]
  norm_num

theorem f32mul_up_14 : f32mul (7239939 / 2097152) F32_1_1 = 7963933 / 2097152 := by
  rw [f32mul_eq (7239939 / 2097152) F32_1_1 (1) 15927866
    (by norm_num [f32exp, F32_1_1]) (by norm_num [F32_1_1]) (by norm_num [F32_1_1])]
  norm_num

theorem f32mul_up_15 : f32mul (7963933 / 2097152) F32_1_1 = 4380163 / 1048576 := by
  rw [f32mul_eq (7963933 / 2097152) F32_1_1 (2) 8760326
    (by norm_num [f32exp, F32_1_1]) (by norm_num [F32_1_1]) (by norm_num [F32_1_1])]
  norm_num

theorem f32mul_up_16 : f32mul (4380163 / 1048576) F32_1_1 = 9636359 / 2097152 := by
  rw [f32mul_eq (4380163 / 1048576) F32_1_1 (2) 9636359
    (by norm_num [f32exp, F32_1_1]) (by norm_num [F32_1_1]) (by norm_num [F32_1_1])]
  norm_num

theorem f32mul_up_17 : f32mul (9636359 / 2097152) F32_1_1 = 10599995 / 2097152 := by
  rw [f32mul_eq (9636359 / 2097152) F32_1_1 (2) 10599995
    (by norm_num [f32exp, F32_1_1]) (by norm_num [F32_1_1]) (by norm_num [F32_1_1])]
  norm_num

theorem applyZoomChange_accept (pf : Platform) (delta : Int) (s : OverlayState) (b : ℚ)
    (h : pf.fmul s.zoom_factor (if 0 < delta then F32_1_1 else F32_0_9) = b)
    (hr : 1 / 2 ≤ b ∧ b ≤ 5) :
    applyZoomChange pf delta s =
      { s with zoom_factor := b, zoom_center_x := Int.tdiv pf.screenWidth 2,
               zoom_center_y := Int.tdiv pf.screenHeight 2 -
                 fifthOf (Int.tdiv pf.screenHeight 2) } := by
  unfold applyZoomChange
  simp only [h]
  rw [if_pos hr]

theorem applyZoomChange_reject (pf : Platform) (delta : Int) (s : OverlayState) (b : ℚ)
    (h : pf.fmul s.zoom_factor (if 0 < delta then F32_1_1 else F32_0_9) = b)
    (hr : ¬ (1 / 2 ≤ b ∧ b ≤ 5)) :
    applyZoomChange pf delta s = s := by
  unfold applyZoomChange
  simp only [h]
  rw [if_neg hr]

theorem onMouseWheel_first_up (out : CaptureOutcome) :
    onMouseWheel Platform.pc 120 out oneRegion = zoomedOneRegion out (9227469 / 8388608) := by
  have h1 : f32mul 1 F32_1_1 = 9227469 / 8388608 := f32mul_up_1
  have hr : (1 : ℚ) / 2 ≤ 9227469 / 8388608 ∧ (9227469 : ℚ) / 8388608 ≤ 5 := by norm_num
  have e : onMouseWheel Platform.pc 120 out oneRegion = applyZoomChange Platform.pc 120
      { CaptureZoomRegion Platform.pc out ⟨100, 100, 300, 250⟩ oneRegion with
        zoom_active := true } := rfl
  rw [e, applyZoomChange_accept Platform.pc 120 _ _ (by cases out <;> exact h1) hr]
  cases out <;> rfl

theorem onMouseWheel_up_accept (out out2 : CaptureOutcome) (a b : ℚ)
    (h : f32mul a F32_1_1 = b) (hr : 1 / 2 ≤ b ∧ b ≤ 5) :
    onMouseWheel Platform.pc 120 out2 (zoomedOneRegion out a) = zoomedOneRegion out b := by
  have e : onMouseWheel Platform.pc 120 out2 (zoomedOneRegion out a) =
      applyZoomChange Platform.pc 120 (zoomedOneRegion out a) := by cases out <;> rfl
  rw [e, applyZoomChange_accept Platform.pc 120 _ b (by cases out <;> exact h) hr]
  cases out <;> rfl

theorem onMouseWheel_up_reject (out out2 : CaptureOutcome) (a b : ℚ)
    (h : f32mul a F32_1_1 = b) (hr : 5 < b) :
    onMouseWheel Platform.pc 120 out2 (zoomedOneRegion out a) = zoomedOneRegion out a := by
  have e : onMouseWheel Platform.pc 120 out2 (zoomedOneRegion out a) =
      applyZoomChange Platform.pc 120 (zoomedOneRegion out a) := by cases out <;> rfl
  rw [e, applyZoomChange_reject Platform.pc 120 _ b (by cases out <;> exact h)
    (fun hc => absurd hc.2 (not_le.mpr hr))]

theorem wheelUps_succ (n : Nat) (out : CaptureOutcome) (s : OverlayState) :
    runMsgs Platform.pc (wheelUps (n + 1) out) s =
      runMsgs Platform.pc (wheelUps n out) (onMouseWheel Platform.pc 120 out s) := rfl

theorem wheelUps_rejected (n : Nat) (out out2 : CaptureOutcome) :
    runMsgs Platform.pc (wheelUps n out2) (zoomedOneRegion out F32_1_1_pow16) =
      some (zoomedOneRegion out F32_1_1_pow16) := by
  induction n with
  | zero => rfl
  | succ n ih =>
    rw [wheelUps_succ, onMouseWheel_up_reject out out2 F32_1_1_pow16 (10599995 / 2097152)
      f32mul_up_17 (by norm_num)]
    exact ih

theorem wheelUps_15 (n : Nat) (out out2 : CaptureOutcome) :
    runMsgs Platform.pc (wheelUps (15 + n) out2) (zoomedOneRegion out (9227469 / 8388608)) =
      some (zoomedOneRegion out F32_1_1_pow16) := by
  rw [show 15 + n = n + 15 from Nat.add_comm 15 n]
  rw [wheelUps_succ, onMouseWheel_up_accept out out2 _ _ f32mul_up_2 (by norm_num)]
  rw [wheelUps_succ, onMouseWheel_up_accept out out2 _ _ f32mul_up_3 (by norm_num)]
  rw [wheelUps_succ, onMouseWheel_up_accept out out2 _ _ f32mul_up_4 (by norm_num)]
  rw [wheelUps_succ, onMouseWheel_up_accept out out2 _ _ f32mul_up_5 (by norm_num)]
  rw [wheelUps_succ, onMouseWheel_up_accept out out2 _ _ f32mul_up_6 (by norm_num)]
  rw [wheelUps_succ, onMouseWheel_up_accept out out2 _ _ f32mul_up_7 (by norm_num)]
  rw [wheelUps_succ, onMouseWheel_up_accept out out2 _ _ f32mul_up_8 (by norm_num)]
  rw [wheelUps_succ, onMouseWheel_up_accept out out2 _ _ f32mul_up_9 (by norm_num)]
  rw [wheelUps_succ, onMouseWheel_up_accept out out2 _ _ f32mul_up_10 (by norm_num)]
  rw [wheelUps_succ, onMouseWheel_up_accept out out2 _ _ f32mul_up_11 (by norm_num)]
  rw [wheelUps_succ, onMouseWheel_up_accept out out2 _ _ f32mul_up_12 (by norm_num)]
  rw [wheelUps_succ, onMouseWheel_up_accept out out2 _ _ f32mul_up_13 (by norm_num)]
  rw [wheelUps_succ, onMouseWheel_up_accept out out2 _ _ f32mul_up_14 (by norm_num)]
  rw [wheelUps_succ, onMouseWheel_up_accept out out2 _ _ f32mul_up_15 (by norm_num)]
  rw [wheelUps_succ, onMouseWheel_up_accept out out2 _ _ f32mul_up_16 (by norm_num)]
  exact wheelUps_rejected n out out2

/-- C21 as stated fails: on a machine with binary32 products, 21 wheel-up
events over the region (100,100,300,250) leave the scale factor at
9636359/2097152 (about 4.594974), not at 5.0. -/
theorem C21_counterexample :
    SessionReach Platform.pc oneRegion ∧ oneRegion.zoom_active = false ∧
    oneRegion.zoom_factor = 1 ∧
    ∃ s1 s21, OverlayWndProc Platform.pc (.WM_MOUSEWHEEL 120 CaptureOutcome.ok) oneRegion =
        some s1 ∧
      runMsgs Platform.pc (wheelUps 20 CaptureOutcome.ok) s1 = some s21 ∧
      s21.zoom_factor = 9636359 / 2097152 ∧ s21.zoom_factor ≠ 5 :=
  ⟨oneRegion_reach Platform.pc, rfl, rfl, _, _,
    congrArg some (onMouseWheel_first_up CaptureOutcome.ok),
    wheelUps_15 5 CaptureOutcome.ok CaptureOutcome.ok,
    by cases (CaptureOutcome.ok) <;> rfl,
    by
      have e : (zoomedOneRegion CaptureOutcome.ok F32_1_1_pow16).zoom_factor =
        9636359 / 2097152 := rfl
      rw [e]; norm_num⟩

/-- C21 (amended): with the one region (100,100,300,250), zoom inactive and
scale 1.0 on a machine with binary32 products: one wheel-up event makes zoom
active with scale `1.1f`, whatever the outcome of the capture; the 15 next
wheel-up events each multiply the scale by `1.1f` (rounded to binary32), which
gives 9636359/2097152, about 4.594974; every further wheel-up event is
rejected, because the product 10599995/2097152 exceeds 5.0, and leaves the
scale there: it is not clamped to 5.0. -/
theorem C21_wheel_scenario (out out2 : CaptureOutcome) (n : Nat) :
    ∃ s1 sN, OverlayWndProc Platform.pc (.WM_MOUSEWHEEL 120 out) oneRegion = some s1 ∧
      s1.zoom_active = true ∧ s1.zoom_factor = F32_1_1 ∧
      runMsgs Platform.pc (wheelUps (15 + n) out2) s1 = some sN ∧
      sN.zoom_active = true ∧ sN.zoom_factor = F32_1_1_pow16 ∧
      sN.zoom_factor < 5 ∧
      Platform.pc.fmul sN.zoom_factor F32_1_1 = 10599995 / 2097152 ∧
      (5 : ℚ) < Platform.pc.fmul sN.zoom_factor F32_1_1 ∧
      sN.captureCalls = 1 := by
  refine ⟨_, _, congrArg some (onMouseWheel_first_up out), by cases out <;> rfl,
    by cases out <;> rfl, wheelUps_15 n out out2, by cases out <;> rfl,
    by cases out <;> rfl, ?_, ?_, ?_, by cases out <;> rfl⟩
  · have e : (zoomedOneRegion out F32_1_1_pow16).zoom_factor = 9636359 / 2097152 := by
      cases out <;> rfl
    rw [e]; norm_num
  · have e : (zoomedOneRegion out F32_1_1_pow16).zoom_factor = 9636359 / 2097152 := by
      cases out <;> rfl
    rw [e]; exact f32mul_up_17
  · have e : (zoomedOneRegion out F32_1_1_pow16).zoom_factor = 9636359 / 2097152 := by
      cases out <;> rfl
    rw [e, show Platform.pc.fmul (9636359 / 2097152) F32_1_1 = 10599995 / 2097152 from
      f32mul_up_17]
    norm_num

/-! ## Overlay session: failed captures and teardown -/

theorem onMouseWheel_capture (pf : Platform) (delta : Int) (out : CaptureOutcome)
    (s : OverlayState) (back : ScreenRectangle)
    (hlast : s.screenRectangles.getLast? = some back) (hdraw : s.drawing_active = false)
    (hzoom : s.zoom_active = false) :
    onMouseWheel pf delta out s =
      applyZoomChange pf delta { CaptureZoomRegion pf out back s with zoom_active := true } := by
  unfold onMouseWheel
  simp only [hlast, hdraw, hzoom, Bool.false_eq_true, if_false]

theorem applyZoomChange_snapshot (pf : Platform) (delta : Int) (s : OverlayState) :
    (applyZoomChange pf delta s).hZoomedBitmap = s.hZoomedBitmap ∧
    (applyZoomChange pf delta s).hZoomedDC = s.hZoomedDC ∧
    (applyZoomChange pf delta s).text = s.text ∧
    (applyZoomChange pf delta s).text_input_mode = s.text_input_mode ∧
    (applyZoomChange pf delta s).drawing_elements = s.drawing_elements ∧
    (applyZoomChange pf delta s).current_drawing_tool = s.current_drawing_tool := by
  unfold applyZoomChange
  generalize (if 0 < delta then F32_1_1 else F32_0_9) = zoomChange
  simp only
  split <;> exact ⟨rfl, rfl, rfl, rfl, rfl, rfl⟩

/-- C22 as stated fails: when the wheel event over the region (100,100,300,250)
triggers a capture and no screen DC is available, `zoom_active` is set
afterwards all the same (with no snapshot held); and when only the pixel copy
fails, zoom is active and the snapshot bitmap is held, exactly as after a
successful capture. -/
theorem C22_counterexample :
    SessionReach Platform.pc oneRegion ∧ oneRegion.zoom_active = false ∧
    (∃ s1, OverlayWndProc Platform.pc (.WM_MOUSEWHEEL 120 CaptureOutcome.noScreenDC) oneRegion =
        some s1 ∧
      s1.captureCalls = 1 ∧ s1.zoom_active = true ∧ s1.hZoomedBitmap = none) ∧
    (∃ s1, OverlayWndProc Platform.pc (.WM_MOUSEWHEEL 120 CaptureOutcome.blitFailed) oneRegion =
        some s1 ∧
      s1.captureCalls = 1 ∧ s1.zoom_active = true ∧ s1.hZoomedBitmap = some ⟨200, 150⟩ ∧
      OverlayWndProc Platform.pc (.WM_MOUSEWHEEL 120 CaptureOutcome.ok) oneRegion = some s1) :=
  ⟨oneRegion_reach Platform.pc, rfl,
    ⟨_, congrArg some (onMouseWheel_first_up CaptureOutcome.noScreenDC), rfl, rfl, rfl⟩,
    ⟨_, congrArg some (onMouseWheel_first_up CaptureOutcome.blitFailed), rfl, rfl, rfl,
      congrArg some (onMouseWheel_first_up CaptureOutcome.ok)⟩⟩

/-- C22 (amended): a wheel event that triggers a zoom capture (regions
committed, `back` the last one, drawing and zoom inactive) sets `zoom_active`
whether the capture succeeds or not. If the screen DC, the memory DC or the
bitmap cannot be obtained, no snapshot bitmap is held afterwards and the text
globals are as before; if only the pixel copy fails, the result is the state a
successful capture gives, snapshot bitmap of the size of `back` included.
`CaptureZoomRegion` returns nothing: the absent bitmap handle is all the caller
can see of a failure. -/
theorem C22_failed_capture (pf : Platform) (delta : Int) (s : OverlayState)
    (back : ScreenRectangle) (hlast : s.screenRectangles.getLast? = some back)
    (hdraw : s.drawing_active = false) (hzoom : s.zoom_active = false) :
    (∀ out, ∃ s1, OverlayWndProc pf (.WM_MOUSEWHEEL delta out) s = some s1 ∧
      s1.captureCalls = s.captureCalls + 1 ∧ s1.zoom_active = true) ∧
    (∀ out, out = CaptureOutcome.noScreenDC ∨ out = CaptureOutcome.noMemoryDC ∨
        out = CaptureOutcome.noBitmap →
      ∃ s1, OverlayWndProc pf (.WM_MOUSEWHEEL delta out) s = some s1 ∧
        s1.hZoomedBitmap = none ∧ s1.hZoomedDC = decide (out = CaptureOutcome.noBitmap) ∧
        s1.text = s.text ∧ s1.text_input_mode = s.text_input_mode) ∧
    (∃ s1, OverlayWndProc pf (.WM_MOUSEWHEEL delta CaptureOutcome.blitFailed) s = some s1 ∧
      OverlayWndProc pf (.WM_MOUSEWHEEL delta CaptureOutcome.ok) s = some s1 ∧
      s1.hZoomedBitmap = some ⟨back.x2 - back.x1, back.y2 - back.y1⟩ ∧
      s1.hZoomedDC = true) := by
  refine ⟨fun out => ⟨_, rfl, ?_, ?_⟩, fun out ho => ⟨_, rfl, ?_⟩, ⟨_, rfl, ?_, ?_, ?_⟩⟩
  · exact (onMouseWheel_first pf delta out s
      (fun h => by rw [h] at hlast; simp at hlast) hdraw hzoom).1
  · exact (onMouseWheel_first pf delta out s
      (fun h => by rw [h] at hlast; simp at hlast) hdraw hzoom).2
  · rw [onMouseWheel_capture pf delta out s back hlast hdraw hzoom]
    have ha := applyZoomChange_snapshot pf delta
      { CaptureZoomRegion pf out back s with zoom_active := true }
    rw [ha.1, ha.2.1, ha.2.2.1, ha.2.2.2.1]
    rcases ho with ho | ho | ho <;> subst ho <;> exact ⟨rfl, rfl, rfl, rfl⟩
  · exact congrArg some
      ((onMouseWheel_capture pf delta CaptureOutcome.ok s back hlast hdraw hzoom).trans
        (onMouseWheel_capture pf delta CaptureOutcome.blitFailed s back hlast hdraw hzoom).symm)
  · rw [onMouseWheel_capture pf delta _ s back hlast hdraw hzoom]
    exact (applyZoomChange_snapshot pf delta _).1
  · rw [onMouseWheel_capture pf delta _ s back hlast hdraw hzoom]
    exact (applyZoomChange_snapshot pf delta _).2.1

/-- C22 (amended) for a wheel-up event over the region (100,100,300,250). -/
theorem C22_failed_capture_witness :
    (oneRegion.screenRectangles.getLast? = some ⟨100, 100, 300, 250⟩ ∧
      oneRegion.drawing_active = false ∧ oneRegion.zoom_active = false) ∧
    (∀ out, ∃ s1, OverlayWndProc Platform.pc (.WM_MOUSEWHEEL 120 out) oneRegion = some s1 ∧
      s1.captureCalls = oneRegion.captureCalls + 1 ∧ s1.zoom_active = true) ∧
    (∀ out, out = CaptureOutcome.noScreenDC ∨ out = CaptureOutcome.noMemoryDC ∨
        out = CaptureOutcome.noBitmap →
      ∃ s1, OverlayWndProc Platform.pc (.WM_MOUSEWHEEL 120 out) oneRegion = some s1 ∧
        s1.hZoomedBitmap = none ∧ s1.hZoomedDC = decide (out = CaptureOutcome.noBitmap) ∧
        s1.text = oneRegion.text ∧ s1.text_input_mode = oneRegion.text_input_mode) ∧
    (∃ s1, OverlayWndProc Platform.pc (.WM_MOUSEWHEEL 120 CaptureOutcome.blitFailed) oneRegion =
        some s1 ∧
      OverlayWndProc Platform.pc (.WM_MOUSEWHEEL 120 CaptureOutcome.ok) oneRegion = some s1 ∧
      s1.hZoomedBitmap = some ⟨(⟨100, 100, 300, 250⟩ : ScreenRectangle).x2 -
          (⟨100, 100, 300, 250⟩ : ScreenRectangle).x1,
        (⟨100, 100, 300, 250⟩ : ScreenRectangle).y2 -
          (⟨100, 100, 300, 250⟩ : ScreenRectangle).y1⟩ ∧
      s1.hZoomedDC = true) :=
  ⟨⟨rfl, rfl, rfl⟩,
    C22_failed_capture Platform.pc 120 oneRegion ⟨100, 100, 300, 250⟩ rfl rfl rfl⟩

/-- C23: whatever the state, `CleanupZoomResources` leaves zoom inactive, no
snapshot bitmap and no memory DC, the scale factor 1.0, an empty text buffer
with the caret at 0, no active selection and no stored image, and running it a
second time changes nothing. -/
theorem C23_cleanup_idempotent (s : OverlayState) :
    (CleanupZoomResources s).zoom_active = false ∧
    (CleanupZoomResources s).hZoomedBitmap = none ∧
    (CleanupZoomResources s).hZoomedDC = false ∧
    (CleanupZoomResources s).zoom_factor = 1 ∧
    (CleanupZoomResources s).text_input_mode = false ∧
    (CleanupZoomResources s).text.zoom_text = [] ∧
    (CleanupZoomResources s).text.text_cursor_pos = 0 ∧
    (CleanupZoomResources s).text.text_selection_active = false ∧
    (CleanupZoomResources s).text.text_selection_start = -1 ∧
    (CleanupZoomResources s).text.text_selection_end = -1 ∧
    (CleanupZoomResources s).text.clipboard_images = [] ∧
    CleanupZoomResources (CleanupZoomResources s) = CleanupZoomResources s :=
  ⟨rfl, rfl, rfl, rfl, rfl, rfl, rfl, rfl, rfl, rfl, rfl, rfl⟩

/-! ## Overlay session: the drawing store -/

theorem onMouseWheel_drawing (pf : Platform) (delta : Int) (out : CaptureOutcome)
    (s : OverlayState) :
    (onMouseWheel pf delta out s).drawing_elements = s.drawing_elements ∧
    (onMouseWheel pf delta out s).current_drawing_tool = s.current_drawing_tool := by
  unfold onMouseWheel
  cases s.screenRectangles.getLast? with
  | none => exact ⟨rfl, rfl⟩
  | some back =>
    simp only
    split
    · exact ⟨rfl, rfl⟩
    · split
      · exact ⟨(applyZoomChange_snapshot pf delta s).2.2.2.2.1,
          (applyZoomChange_snapshot pf delta s).2.2.2.2.2⟩
      · have ha := applyZoomChange_snapshot pf delta
          { CaptureZoomRegion pf out back s with zoom_active := true }
        rw [ha.2.2.2.2.1, ha.2.2.2.2.2]
        cases out <;> exact ⟨rfl, rfl⟩

theorem onLButtonUp_drawing_store {env : Env} {s s1 : OverlayState}
    (h : onLButtonUp env s = some s1) :
    s1.drawing_elements = s.drawing_elements ∨
      ∃ e, s1.drawing_elements = s.drawing_elements ++ [e] ∧
        e.tool_type = s.current_drawing_tool ∧ s.drawing_active = true := by
  unfold onLButtonUp at h
  split at h
  · simp only [Option.some.injEq] at h
    subst h
    left; split <;> rfl
  · split at h
    · rename_i hd
      simp only [Option.map_eq_some'] at h
      obtain ⟨valid, _, rfl⟩ := h
      cases valid
      · left; rfl
      · right; exact ⟨_, rfl, rfl, hd.1⟩
    · split at h
      · simp only [Option.some.injEq] at h
        subst h
        left
        simp only
        split
        · split <;> rfl
        · rfl
      · simp only [Option.some.injEq] at h
        subst h; left; rfl

theorem onEscape_drawing_store (s : OverlayState) :
    (onEscape s).drawing_elements = s.drawing_elements ∨
      (zoomTeardownDue s ∧ (onEscape s).drawing_elements = []) := by
  unfold onEscape zoomTeardownDue
  cases h1 : s.screenshot_mode
  · cases h2 : s.drawing_active
    · cases h3 : s.zoom_active
      · left; rfl
      · cases h4 : s.text_input_mode
        · right; exact ⟨⟨rfl, rfl, rfl, rfl⟩, rfl⟩
        · left; rfl
    · left; rfl
  · left; rfl

theorem onUndo_drawing_store (s : OverlayState) :
    (onUndo s).drawing_elements = s.drawing_elements ∨
      (s.drawing_elements ≠ [] ∧ (onUndo s).drawing_elements = s.drawing_elements.dropLast) := by
  unfold onUndo
  split
  · rename_i h
    right; exact ⟨h, rfl⟩
  · rename_i h
    have h0 : s.drawing_elements = [] := not_not.mp h
    split
    · simp only
      split
      · left; rw [h0]; rfl
      · left; rfl
    · left; rfl

theorem onKeyDown_drawing_store {env : Env} {wParam : Nat} {ctrl shift : Bool}
    {s s1 : OverlayState} (h : onKeyDown env wParam ctrl shift s = some s1) :
    s1.drawing_elements = s.drawing_elements ∨
      (wParam = KEY_Z ∧ ctrl = true ∧ s.drawing_elements ≠ [] ∧
        s1.drawing_elements = s.drawing_elements.dropLast) ∨
      (wParam = VK_ESCAPE ∧ zoomTeardownDue s ∧ s1.drawing_elements = []) := by
  unfold onKeyDown at h
  split at h
  · simp only [Option.some.injEq] at h
    subst h; left; rfl
  · split at h
    · rename_i hk
      simp only [Option.some.injEq] at h
      subst h
      rcases onEscape_drawing_store s with he | he
      · left; exact he
      · right; right; exact ⟨hk, he⟩
    · split at h
      · rename_i hk
        simp only [Option.some.injEq] at h
        subst h
        rcases onUndo_drawing_store s with he | he
        · left; exact he
        · right; left; exact ⟨hk.1, hk.2, he⟩
      · split at h
        · simp only [Option.some.injEq] at h
          subst h; left; rfl
        · split at h
          · simp only [Option.some.injEq] at h
            subst h; left; rfl
          · split at h
            · split at h
              · simp only [Option.some.injEq] at h
                subst h; left; rfl
              · simp only [Option.map_eq_some'] at h
                obtain ⟨t, _, rfl⟩ := h
                left; rfl
            · simp only [Option.some.injEq] at h
              subst h; left; rfl

theorem OverlayWndProc_drawing_store {pf : Platform} {m : Msg} {s s1 : OverlayState}
    (h : OverlayWndProc pf m s = some s1) :
    s1.drawing_elements = s.drawing_elements ∨
      (m.isPointerUp ∧ ∃ e, s1.drawing_elements = s.drawing_elements ++ [e]) ∨
      (m.isUndo ∧ s.drawing_elements ≠ [] ∧
        s1.drawing_elements = s.drawing_elements.dropLast) ∨
      (m.isEscape ∧ zoomTeardownDue s ∧ s1.drawing_elements = []) := by
  cases m with
  | WM_LBUTTONDOWN x y =>
    simp only [OverlayWndProc, Option.some.injEq] at h
    subst h
    left; unfold onLButtonDown; simp only
    split
    · rfl
    · split
      · rfl
      · split <;> rfl
  | WM_MOUSEMOVE x y =>
    simp only [OverlayWndProc, Option.some.injEq] at h
    subst h
    left; unfold onMouseMove; simp only
    split
    · rfl
    · split
      · rfl
      · split <;> rfl
  | WM_MOUSEWHEEL delta out =>
    simp only [OverlayWndProc, Option.some.injEq] at h
    subst h
    left; exact (onMouseWheel_drawing pf delta out s).1
  | WM_LBUTTONUP env =>
    simp only [OverlayWndProc] at h
    rcases onLButtonUp_drawing_store h with he | ⟨e, he, _⟩
    · left; exact he
    · right; left; exact ⟨trivial, e, he⟩
  | WM_KEYDOWN k =>
    simp only [OverlayWndProc] at h
    rcases onKeyDown_drawing_store h with he | he | he
    · left; exact he
    · right; right; left; exact ⟨⟨he.1, he.2.1⟩, he.2.2⟩
    · right; right; right; exact he
  | WM_DESTROY =>
    simp only [OverlayWndProc, Option.some.injEq] at h
    subst h
    left; rfl

theorem zoomedWithRectangle_reach : SessionReach Platform.pc zoomedWithRectangle :=
  SessionReach.after_session_msgs drawRectangleThenEscape
    (SessionReach.msg (.WM_MOUSEWHEEL 120 CaptureOutcome.ok) (oneRegion_reach Platform.pc)
      (congrArg some (onMouseWheel_first_up CaptureOutcome.ok))) rfl

/-- C24 as stated fails: with zoom active over the region (100,100,300,250) and
one rectangle in the drawing store (wheel-up, F3, a drag, Escape), an Escape press
tears zoom down and empties the drawing store. -/
theorem C24_counterexample :
    SessionReach Platform.pc zoomedWithRectangle ∧
    zoomedWithRectangle.drawing_elements =
      [⟨DrawingTool.Rectangle, 10, 10, 100, 100, 255, 3, false, []⟩] ∧
    ∃ s1, OverlayWndProc Platform.pc (keyMsg VK_ESCAPE false false) zoomedWithRectangle = some s1 ∧
      s1 = CleanupZoomResources zoomedWithRectangle ∧ s1.drawing_elements = [] :=
  ⟨zoomedWithRectangle_reach, rfl, _, rfl, rfl, rfl⟩

/-- C24 (amended): after any event the handler accepts, the drawing store is
unchanged, or is the old store with one element appended (only by a
pointer-up), or is the old non-empty store without its last element (only by
Ctrl+Z), or is empty (only by the Escape press that tears zoom down: zoom
active, screenshot mode, drawing and text input off). So every event other than
Ctrl+Z and that Escape press leaves the store unchanged or appends one
element; the teardown at the end of the session empties it too. -/
theorem C24_drawing_store_frame (pf : Platform) (m : Msg) (s s1 : OverlayState)
    (h : OverlayWndProc pf m s = some s1) :
    (s1.drawing_elements = s.drawing_elements ∨
      (m.isPointerUp ∧ ∃ e, s1.drawing_elements = s.drawing_elements ++ [e]) ∨
      (m.isUndo ∧ s.drawing_elements ≠ [] ∧
        s1.drawing_elements = s.drawing_elements.dropLast) ∨
      (m.isEscape ∧ zoomTeardownDue s ∧ s1.drawing_elements = [])) ∧
    (¬ m.isUndo → ¬ (m.isEscape ∧ zoomTeardownDue s) →
      s1.drawing_elements = s.drawing_elements ∨
        ∃ e, s1.drawing_elements = s.drawing_elements ++ [e]) ∧
    (CleanupZoomResources s).drawing_elements = [] := by
  have hs := OverlayWndProc_drawing_store h
  refine ⟨hs, fun hu he => ?_, rfl⟩
  rcases hs with h1 | h1 | h1 | h1
  · exact Or.inl h1
  · exact Or.inr h1.2
  · exact absurd h1.1 hu
  · exact absurd ⟨h1.1, h1.2.1⟩ he

/-- C24 (amended) at the pointer-up that ends a rectangle drag from (80,20) to
(20,90): one element is appended. -/
theorem C24_drawing_store_frame_witness :
    OverlayWndProc Platform.pc (.WM_LBUTTONUP Env.allOk) rectangleDragPending =
      some { rectangleDragPending with
        drawing_elements := [⟨DrawingTool.Rectangle, 20, 20, 80, 90, 255, 3, false, []⟩],
        drawing_start_x := -1, drawing_start_y := -1 } ∧
    ((({ rectangleDragPending with
        drawing_elements := [⟨DrawingTool.Rectangle, 20, 20, 80, 90, 255, 3, false, []⟩],
        drawing_start_x := -1, drawing_start_y := -1 } : OverlayState).drawing_elements =
          rectangleDragPending.drawing_elements ∨
      ((Msg.WM_LBUTTONUP Env.allOk).isPointerUp ∧
        ∃ e, [(⟨DrawingTool.Rectangle, 20, 20, 80, 90, 255, 3, false, []⟩ : DrawingElement)] =
          rectangleDragPending.drawing_elements ++ [e]) ∨
      ((Msg.WM_LBUTTONUP Env.allOk).isUndo ∧ rectangleDragPending.drawing_elements ≠ [] ∧
        [(⟨DrawingTool.Rectangle, 20, 20, 80, 90, 255, 3, false, []⟩ : DrawingElement)] =
          rectangleDragPending.drawing_elements.dropLast) ∨
      ((Msg.WM_LBUTTONUP Env.allOk).isEscape ∧ zoomTeardownDue rectangleDragPending ∧
        [(⟨DrawingTool.Rectangle, 20, 20, 80, 90, 255, 3, false, []⟩ : DrawingElement)] = [])) ∧
    (¬ (Msg.WM_LBUTTONUP Env.allOk).isUndo →
      ¬ ((Msg.WM_LBUTTONUP Env.allOk).isEscape ∧ zoomTeardownDue rectangleDragPending) →
      [(⟨DrawingTool.Rectangle, 20, 20, 80, 90, 255, 3, false, []⟩ : DrawingElement)] =
          rectangleDragPending.drawing_elements ∨
        ∃ e, [(⟨DrawingTool.Rectangle, 20, 20, 80, 90, 255, 3, false, []⟩ : DrawingElement)] =
          rectangleDragPending.drawing_elements ++ [e]) ∧
    (CleanupZoomResources rectangleDragPending).drawing_elements = []) :=
  ⟨rfl, C24_drawing_store_frame Platform.pc (.WM_LBUTTONUP Env.allOk) rectangleDragPending _ rfl⟩

/-! ## Screenshot capture -/

theorem CaptureScreenRegion_small (env : Env) (x1 y1 x2 y2 : Int)
    (h : iabs (x2 - x1) < 5 ∨ iabs (y2 - y1) < 5) :
    CaptureScreenRegion env x1 y1 x2 y2 = (ScreenshotExit.tooSmall, []) := by
  unfold CaptureScreenRegion
  simp only
  rw [if_pos]
  unfold iabs at h
  split_ifs at h <;> omega

theorem CaptureScreenRegion_large (env : Env) (x1 y1 x2 y2 : Int)
    (hw : 5 ≤ iabs (x2 - x1)) (hh : 5 ≤ iabs (y2 - y1)) :
    CaptureScreenRegion env x1 y1 x2 y2 =
      (ScreenshotExit.done,
        [.CreateCompatibleBitmap (iabs (x2 - x1) - 4) (iabs (y2 - y1) - 4),
          .BitBlt (iabs (x2 - x1) - 4) (iabs (y2 - y1) - 4) (min x1 x2 + 2) (min y1 y2 + 2)] ++
        (if env.openClipboard then
          [.SetClipboardData (iabs (x2 - x1) - 4) (iabs (y2 - y1) - 4)] else []) ++
        [.SaveScreenshotToDownloads (iabs (x2 - x1) - 4) (iabs (y2 - y1) - 4),
          .PlayScreenshotSound]) := by
  have e1 : max x1 x2 - 2 - (min x1 x2 + 2) = iabs (x2 - x1) - 4 := by
    unfold iabs; split_ifs <;> omega
  have e2 : max y1 y2 - 2 - (min y1 y2 + 2) = iabs (y2 - y1) - 4 := by
    unfold iabs; split_ifs <;> omega
  unfold CaptureScreenRegion
  simp only
  rw [if_neg, if_neg, e1, e2]
  · rw [← sub_nonpos, ← sub_nonpos (a := max y1 y2 - 2), e1, e2]; omega
  · unfold iabs at hw hh
    split_ifs at hw hh <;> omega

theorem CaptureScreenRegion_clipboard_eq (env : Env) (x1 y1 x2 y2 : Int) (cb : Clipboard) :
    CaptureScreenRegion_clipboard env x1 y1 x2 y2 cb =
      if (CaptureScreenRegion env x1 y1 x2 y2).2.any ScreenshotCall.isClipboardWrite then
        ⟨none, some ⟨iabs (x2 - x1) - 4, iabs (y2 - y1) - 4⟩⟩
      else cb := by
  have e1 : max x1 x2 - 2 - (min x1 x2 + 2) = iabs (x2 - x1) - 4 := by
    unfold iabs; split_ifs <;> omega
  have e2 : max y1 y2 - 2 - (min y1 y2 + 2) = iabs (y2 - y1) - 4 := by
    unfold iabs; split_ifs <;> omega
  unfold CaptureScreenRegion_clipboard CaptureScreenRegion
  simp only
  split
  · rfl
  · split
    · rfl
    · rw [e1, e2]
      cases env.openClipboard <;> rfl

/-- C25: for every rectangle given to `CaptureScreenRegion`, with
`w = |x2 - x1|` and `h = |y2 - y1|`: if `w < 5` or `h < 5` the function returns
at once, with no clipboard write and no file save; otherwise it creates a
bitmap of `(w - 4) x (h - 4)`, copies the screen into it from the normalized
top-left corner moved by (+2, +2), publishes it to the clipboard exactly once
when the clipboard opens (and not at all when it does not), and calls the file
save exactly once. The second early return (capture region not valid) is never
taken. A 3 x 3 rectangle is rejected; a 10 x 10 one gives one clipboard write
and one file save. -/
theorem C25_CaptureScreenRegion (env : Env) (x1 y1 x2 y2 : Int) (cb : Clipboard) :
    (iabs (x2 - x1) < 5 ∨ iabs (y2 - y1) < 5 →
      CaptureScreenRegion env x1 y1 x2 y2 = (ScreenshotExit.tooSmall, []) ∧
      CaptureScreenRegion_clipboard env x1 y1 x2 y2 cb = cb) ∧
    (5 ≤ iabs (x2 - x1) ∧ 5 ≤ iabs (y2 - y1) →
      CaptureScreenRegion env x1 y1 x2 y2 =
        (ScreenshotExit.done,
          [.CreateCompatibleBitmap (iabs (x2 - x1) - 4) (iabs (y2 - y1) - 4),
            .BitBlt (iabs (x2 - x1) - 4) (iabs (y2 - y1) - 4) (min x1 x2 + 2) (min y1 y2 + 2)] ++
          (if env.openClipboard then
            [.SetClipboardData (iabs (x2 - x1) - 4) (iabs (y2 - y1) - 4)] else []) ++
          [.SaveScreenshotToDownloads (iabs (x2 - x1) - 4) (iabs (y2 - y1) - 4),
            .PlayScreenshotSound]) ∧
      ((CaptureScreenRegion env x1 y1 x2 y2).2.filter ScreenshotCall.isClipboardWrite).length =
        (if env.openClipboard then 1 else 0) ∧
      ((CaptureScreenRegion env x1 y1 x2 y2).2.filter ScreenshotCall.isFileSave).length = 1 ∧
      CaptureScreenRegion_clipboard env x1 y1 x2 y2 cb =
        if env.openClipboard then ⟨none, some ⟨iabs (x2 - x1) - 4, iabs (y2 - y1) - 4⟩⟩
        else cb) ∧
    (CaptureScreenRegion env x1 y1 x2 y2).1 ≠ ScreenshotExit.invalidRegion ∧
    CaptureScreenRegion env 0 0 3 3 = (ScreenshotExit.tooSmall, []) ∧
    CaptureScreenRegion Env.allOk 0 0 10 10 =
      (ScreenshotExit.done,
        [.CreateCompatibleBitmap 6 6, .BitBlt 6 6 2 2, .SetClipboardData 6 6,
          .SaveScreenshotToDownloads 6 6, .PlayScreenshotSound]) := by
  refine ⟨fun h => ?_, fun h => ?_, ?_, rfl, rfl⟩
  · have e := CaptureScreenRegion_small env x1 y1 x2 y2 h
    refine ⟨e, ?_⟩
    rw [CaptureScreenRegion_clipboard_eq, e]
    rfl
  · have e := CaptureScreenRegion_large env x1 y1 x2 y2 h.1 h.2
    refine ⟨e, ?_, ?_, ?_⟩
    · rw [e]; cases env.openClipboard <;> rfl
    · rw [e]; cases env.openClipboard <;> rfl
    · rw [CaptureScreenRegion_clipboard_eq, e]
      cases env.openClipboard <;> rfl
  · by_cases h : iabs (x2 - x1) < 5 ∨ iabs (y2 - y1) < 5
    · rw [CaptureScreenRegion_small env x1 y1 x2 y2 h]
      exact fun hc => ScreenshotExit.noConfusion hc
    · rw [CaptureScreenRegion_large env x1 y1 x2 y2 (by omega) (by omega)]
      exact fun hc => ScreenshotExit.noConfusion hc

/-! ## Overlay session: tools of the stored elements -/

theorem toolOfKey_isShape {wParam : Nat} {tool : DrawingTool}
    (h : toolOfKey wParam = some tool) : tool.isShape := by
  unfold toolOfKey at h
  unfold DrawingTool.isShape
  split_ifs at h <;> simp only [Option.some.injEq] at h <;> subst h <;> simp

theorem onLButtonDown_tools (x y : Nat) (s : OverlayState) :
    (onLButtonDown x y s).drawing_active = s.drawing_active ∧
    (onLButtonDown x y s).current_drawing_tool = s.current_drawing_tool ∧
    (onLButtonDown x y s).drawing_elements = s.drawing_elements := by
  unfold onLButtonDown
  simp only
  split
  · exact ⟨rfl, rfl, rfl⟩
  · split
    · exact ⟨rfl, rfl, rfl⟩
    · split <;> exact ⟨rfl, rfl, rfl⟩

theorem onMouseMove_tools (x y : Nat) (s : OverlayState) :
    (onMouseMove x y s).drawing_active = s.drawing_active ∧
    (onMouseMove x y s).current_drawing_tool = s.current_drawing_tool ∧
    (onMouseMove x y s).drawing_elements = s.drawing_elements := by
  unfold onMouseMove
  simp only
  split
  · exact ⟨rfl, rfl, rfl⟩
  · split
    · exact ⟨rfl, rfl, rfl⟩
    · split <;> exact ⟨rfl, rfl, rfl⟩

theorem onLButtonUp_tools {env : Env} {s s1 : OverlayState}
    (h : onLButtonUp env s = some s1) :
    s1.drawing_active = s.drawing_active ∧
    s1.current_drawing_tool = s.current_drawing_tool := by
  unfold onLButtonUp at h
  split at h
  · simp only [Option.some.injEq] at h
    subst h
    split <;> exact ⟨rfl, rfl⟩
  · split at h
    · simp only [Option.map_eq_some'] at h
      obtain ⟨valid, _, rfl⟩ := h
      split <;> exact ⟨rfl, rfl⟩
    · split at h
      · simp only [Option.some.injEq] at h
        subst h
        simp only
        split
        · split <;> exact ⟨rfl, rfl⟩
        · exact ⟨rfl, rfl⟩
      · simp only [Option.some.injEq] at h
        subst h; exact ⟨rfl, rfl⟩

theorem ToolsOk_cleanup (s : OverlayState) : ToolsOk (CleanupZoomResources s) :=
  ⟨fun h => absurd h (by simp [CleanupZoomResources]),
    fun e he => absurd he (by simp [CleanupZoomResources])⟩

theorem onEscape_toolsOk (s : OverlayState) (h : ToolsOk s) : ToolsOk (onEscape s) := by
  unfold onEscape
  split
  · exact h
  · split
    · exact ⟨fun hc => absurd hc (by simp), h.2⟩
    · split
      · split
        · exact h
        · exact ToolsOk_cleanup s
      · exact h

theorem onUndo_toolsOk (s : OverlayState) (h : ToolsOk s) : ToolsOk (onUndo s) := by
  unfold onUndo
  split
  · exact ⟨h.1, fun e he => h.2 e (List.dropLast_subset _ he)⟩
  · split
    · simp only
      split
      · exact ToolsOk_cleanup _
      · exact h
    · exact h

theorem onKeyDown_toolsOk {env : Env} {wParam : Nat} {ctrl shift : Bool} {s s1 : OverlayState}
    (h : onKeyDown env wParam ctrl shift s = some s1) (hok : ToolsOk s) : ToolsOk s1 := by
  unfold onKeyDown at h
  split at h
  · rename_i tool hk
    simp only [Option.some.injEq] at h
    subst h
    exact ⟨fun _ => toolOfKey_isShape hk, hok.2⟩
  · split at h
    · simp only [Option.some.injEq] at h
      subst h; exact onEscape_toolsOk s hok
    · split at h
      · simp only [Option.some.injEq] at h
        subst h; exact onUndo_toolsOk s hok
      · split at h
        · simp only [Option.some.injEq] at h
          subst h; exact ⟨fun hc => absurd hc (by simp), hok.2⟩
        · split at h
          · simp only [Option.some.injEq] at h
            subst h; exact hok
          · split at h
            · split at h
              · rename_i tool hk
                cases hk
              · simp only [Option.map_eq_some'] at h
                obtain ⟨t, _, rfl⟩ := h
                exact hok
            · simp only [Option.some.injEq] at h
              subst h; exact hok

theorem OverlayWndProc_toolsOk {pf : Platform} {m : Msg} {s s1 : OverlayState}
    (h : OverlayWndProc pf m s = some s1) (hok : ToolsOk s) : ToolsOk s1 := by
  cases m with
  | WM_LBUTTONDOWN x y =>
    simp only [OverlayWndProc, Option.some.injEq] at h
    subst h
    have := onLButtonDown_tools x y s
    unfold ToolsOk
    rw [this.1, this.2.1, this.2.2]; exact hok
  | WM_MOUSEMOVE x y =>
    simp only [OverlayWndProc, Option.some.injEq] at h
    subst h
    have := onMouseMove_tools x y s
    unfold ToolsOk
    rw [this.1, this.2.1, this.2.2]; exact hok
  | WM_MOUSEWHEEL delta out =>
    simp only [OverlayWndProc, Option.some.injEq] at h
    subst h
    have h1 := onMouseWheel_drawing pf delta out s
    have h2 := onMouseWheel_frame pf delta out s
    unfold ToolsOk
    rw [h1.1, h1.2, h2.2.2.1]; exact hok
  | WM_LBUTTONUP env =>
    simp only [OverlayWndProc] at h
    have h1 := onLButtonUp_tools h
    unfold ToolsOk
    rw [h1.1, h1.2]
    refine ⟨hok.1, ?_⟩
    rcases onLButtonUp_drawing_store h with he | ⟨e, he, ht, ha⟩
    · rw [he]; exact hok.2
    · rw [he]
      intro e1 he1
      rw [List.mem_append, List.mem_singleton] at he1
      rcases he1 with he1 | he1
      · exact hok.2 e1 he1
      · subst he1; rw [ht]; exact hok.1 ha
  | WM_KEYDOWN k =>
    simp only [OverlayWndProc] at h
    exact onKeyDown_toolsOk h hok
  | WM_DESTROY =>
    simp only [OverlayWndProc, Option.some.injEq] at h
    subst h
    exact hok

theorem Reach.toolsOk {pf : Platform} {s : OverlayState} (h : Reach pf s) : ToolsOk s := by
  induction h with
  | boot cb =>
    exact ⟨fun hc => absurd hc (by simp [OverlayState.init]),
      fun e he => absurd he (by simp [OverlayState.init])⟩
  | enter _ _ ih => exact ih
  | msg m _ hm ih => exact OverlayWndProc_toolsOk hm ih
  | leave _ _ _ => exact ToolsOk_cleanup _
  | clipboard cb _ ih => exact ih

theorem rectangleDrawn_reach (pf : Platform) : SessionReach pf rectangleDrawn :=
  SessionReach.after_session_msgs drawRectangle (sessionStart_reach pf) rfl

/-- C28: in every state reachable from the start of an overlay session, if
drawing is active the current tool is Line, Arrow, Rectangle or Highlighter,
and every element of the drawing store has one of these four tools, so never
None and never Text. -/
theorem C28_tools_are_shapes (pf : Platform) (s : OverlayState) (h : SessionReach pf s) :
    (s.drawing_active = true →
      s.current_drawing_tool = DrawingTool.Line ∨ s.current_drawing_tool = DrawingTool.Arrow ∨
      s.current_drawing_tool = DrawingTool.Rectangle ∨
      s.current_drawing_tool = DrawingTool.Highlighter) ∧
    ∀ e ∈ s.drawing_elements,
      (e.tool_type = DrawingTool.Line ∨ e.tool_type = DrawingTool.Arrow ∨
        e.tool_type = DrawingTool.Rectangle ∨ e.tool_type = DrawingTool.Highlighter) ∧
      e.tool_type ≠ DrawingTool.None ∧ e.tool_type ≠ DrawingTool.Text := by
  have hok := Reach.toolsOk h.reach
  refine ⟨hok.1, fun e he => ?_⟩
  have ht : e.tool_type.isShape := hok.2 e he
  refine ⟨ht, ?_, ?_⟩ <;>
    (intro hc; rw [hc] at ht; revert ht; decide)

/-- C28 at the state reached by F3 and a drag from (10,10) to (100,100). -/
theorem C28_tools_are_shapes_witness :
    SessionReach Platform.pc rectangleDrawn ∧ rectangleDrawn.drawing_active = true ∧
    rectangleDrawn.drawing_elements ≠ [] ∧
    (rectangleDrawn.drawing_active = true →
      rectangleDrawn.current_drawing_tool = DrawingTool.Line ∨
      rectangleDrawn.current_drawing_tool = DrawingTool.Arrow ∨
      rectangleDrawn.current_drawing_tool = DrawingTool.Rectangle ∨
      rectangleDrawn.current_drawing_tool = DrawingTool.Highlighter) ∧
    ∀ e ∈ rectangleDrawn.drawing_elements,
      (e.tool_type = DrawingTool.Line ∨ e.tool_type = DrawingTool.Arrow ∨
        e.tool_type = DrawingTool.Rectangle ∨ e.tool_type = DrawingTool.Highlighter) ∧
      e.tool_type ≠ DrawingTool.None ∧ e.tool_type ≠ DrawingTool.Text :=
  ⟨rectangleDrawn_reach Platform.pc, rfl, by decide,
    C28_tools_are_shapes Platform.pc rectangleDrawn (rectangleDrawn_reach Platform.pc)⟩

/-! ## Overlay session: the overlap adjustment -/

theorem adjustForOverlap_none (d : ScreenRectangle) (l : List ScreenRectangle)
    (h : ∀ r ∈ l, ¬ overlapsRegion d r) :
    adjustForOverlap d.x1 d.y1 d.x2 d.y2 l = none := by
  induction l with
  | nil => rfl
  | cons rect rest ih =>
    have h1 : ¬ (rect.x1 < d.x2 ∧ d.x1 < rect.x2 ∧ rect.y1 < d.y2 ∧ d.y1 < rect.y2) :=
      h rect (List.mem_cons_self _ _)
    simp only [adjustForOverlap]
    rw [if_neg h1]
    exact ih fun r hr => h r (List.mem_cons_of_mem _ hr)

theorem adjustForOverlap_skip (d : ScreenRectangle) (pre l : List ScreenRectangle)
    (h : ∀ r ∈ pre, ¬ overlapsRegion d r) :
    adjustForOverlap d.x1 d.y1 d.x2 d.y2 (pre ++ l) =
      adjustForOverlap d.x1 d.y1 d.x2 d.y2 l := by
  induction pre with
  | nil => rfl
  | cons rect rest ih =>
    have h1 : ¬ (rect.x1 < d.x2 ∧ d.x1 < rect.x2 ∧ rect.y1 < d.y2 ∧ d.y1 < rect.y2) :=
      h rect (List.mem_cons_self _ _)
    simp only [List.cons_append, adjustForOverlap]
    rw [if_neg h1]
    exact ih fun r hr => h r (List.mem_cons_of_mem _ hr)

theorem adjustForOverlap_first (d R : ScreenRectangle) (post : List ScreenRectangle)
    (h : overlapsRegion d R) :
    adjustForOverlap d.x1 d.y1 d.x2 d.y2 (R :: post) =
      if smallestGap d R ≤ 2 then some (nudgedClear d R) else none := by
  have h1 : R.x1 < d.x2 ∧ d.x1 < R.x2 ∧ R.y1 < d.y2 ∧ d.y1 < R.y2 := h
  obtain ⟨ha, hb, hc, hd⟩ := h1
  have e1 : iabs (R.x1 - d.x2) = d.x2 - R.x1 := by unfold iabs; split_ifs <;> omega
  have e2 : iabs (d.x1 - R.x2) = R.x2 - d.x1 := by unfold iabs; split_ifs <;> omega
  have e3 : iabs (R.y1 - d.y2) = d.y2 - R.y1 := by unfold iabs; split_ifs <;> omega
  have e4 : iabs (d.y1 - R.y2) = R.y2 - d.y1 := by unfold iabs; split_ifs <;> omega
  simp only [adjustForOverlap]
  rw [if_pos ⟨ha, hb, hc, hd⟩]
  unfold nudgedClear smallestGap
  simp only [e1, e2, e3, e4]
  split_ifs <;> first | rfl | omega

theorem nudgedClear_clear (d R : ScreenRectangle) :
    (nudgedClear d R).x2 - (nudgedClear d R).x1 = d.x2 - d.x1 ∧
    (nudgedClear d R).y2 - (nudgedClear d R).y1 = d.y2 - d.y1 ∧
    ¬ overlapsRegion (nudgedClear d R) R ∧
    ((nudgedClear d R).x2 = R.x1 - 2 ∨ (nudgedClear d R).x1 = R.x2 + 2 ∨
      (nudgedClear d R).y2 = R.y1 - 2 ∨ (nudgedClear d R).y1 = R.y2 + 2) := by
  unfold nudgedClear overlapsRegion
  split_ifs <;> simp only <;> (refine ⟨?_, ?_, ?_, ?_⟩ <;> first | omega | simp)

theorem onLButtonUp_selection (env : Env) (s : OverlayState)
    (hshot : ¬ (s.screenshot_mode = true ∧ s.screenshot_start_x ≠ -1))
    (hdrw : ¬ (s.drawing_active = true ∧ s.drawing_start_x ≠ -1))
    (hsel : s.selection_mode = true ∧ s.start_x ≠ -1)
    (hsize : 5 ≤ (selectionRect s).x2 - (selectionRect s).x1 ∧
      5 ≤ (selectionRect s).y2 - (selectionRect s).y1) :
    onLButtonUp env s = some
      { s with
        screenRectangles := s.screenRectangles ++
          [(adjustForOverlap (selectionRect s).x1 (selectionRect s).y1 (selectionRect s).x2
            (selectionRect s).y2 s.screenRectangles).getD (selectionRect s)],
        start_x := -1, start_y := -1, end_x := -1, end_y := -1 } := by
  have hsize1 : 5 ≤ max s.start_x s.end_x - min s.start_x s.end_x ∧
      5 ≤ max s.start_y s.end_y - min s.start_y s.end_y := hsize
  unfold onLButtonUp
  rw [if_neg hshot, if_neg hdrw, if_pos hsel]
  dsimp only
  rw [if_pos hsize1]
  unfold selectionRect
  dsimp only
  cases adjustForOverlap (min s.start_x s.end_x) (min s.start_y s.end_y)
    (max s.start_x s.end_x) (max s.start_y s.end_y) s.screenRectangles <;> rfl

/-- C29 as stated fails: with the region (10,10,100,100) committed, the dragged
rectangle (50,50,150,150) overlaps it by 50 px in every direction and is
committed as dragged, still overlapping it. -/
theorem C29_counterexample :
    SessionReach Platform.pc overlappingRegions ∧
    runMsgs Platform.pc dragOverlapping sessionStart = some overlappingRegions ∧
    overlappingRegions.screenRectangles = [⟨10, 10, 100, 100⟩, ⟨50, 50, 150, 150⟩] ∧
    overlapsRegion ⟨50, 50, 150, 150⟩ ⟨10, 10, 100, 100⟩ ∧
    smallestGap ⟨50, 50, 150, 150⟩ ⟨10, 10, 100, 100⟩ = 50 :=
  ⟨SessionReach.after_session_msgs dragOverlapping (sessionStart_reach Platform.pc) rfl, rfl, rfl,
    by decide, by decide⟩

/-- C29 (amended): a pointer-up that ends a selection drag of at least 5 x 5
(no screenshot drag and no drawing drag pending) commits exactly one rectangle
`c`. If the dragged rectangle `d` overlaps no committed region, `c = d`. If `R`
is the first region in store order that `d` overlaps and the smallest of the
four gaps to `R` in absolute value is at most 2 px, `c` is `d` translated
(width and height preserved) in the direction of that smallest gap, ties
resolved in the order left, right, top, bottom, so that it lies 2 px clear of
`R` and does not overlap `R`. If that smallest gap exceeds 2 px, `c = d`: the
overlap is kept. -/
theorem C29_overlap_adjustment (pf : Platform) (env : Env) (s : OverlayState)
    (hshot : ¬ (s.screenshot_mode = true ∧ s.screenshot_start_x ≠ -1))
    (hdrw : ¬ (s.drawing_active = true ∧ s.drawing_start_x ≠ -1))
    (hsel : s.selection_mode = true ∧ s.start_x ≠ -1)
    (hsize : 5 ≤ (selectionRect s).x2 - (selectionRect s).x1 ∧
      5 ≤ (selectionRect s).y2 - (selectionRect s).y1) :
    ∃ s1 c, OverlayWndProc pf (.WM_LBUTTONUP env) s = some s1 ∧
      s1.screenRectangles = s.screenRectangles ++ [c] ∧
      ((∀ r ∈ s.screenRectangles, ¬ overlapsRegion (selectionRect s) r) →
        c = selectionRect s) ∧
      (∀ pre R post, s.screenRectangles = pre ++ R :: post →
        (∀ r ∈ pre, ¬ overlapsRegion (selectionRect s) r) →
        overlapsRegion (selectionRect s) R →
        (smallestGap (selectionRect s) R ≤ 2 →
          c = nudgedClear (selectionRect s) R ∧
          c.x2 - c.x1 = (selectionRect s).x2 - (selectionRect s).x1 ∧
          c.y2 - c.y1 = (selectionRect s).y2 - (selectionRect s).y1 ∧
          ¬ overlapsRegion c R ∧
          (c.x2 = R.x1 - 2 ∨ c.x1 = R.x2 + 2 ∨ c.y2 = R.y1 - 2 ∨ c.y1 = R.y2 + 2)) ∧
        (2 < smallestGap (selectionRect s) R → c = selectionRect s ∧ overlapsRegion c R)) := by
  refine ⟨_, _, onLButtonUp_selection env s hshot hdrw hsel hsize, rfl, fun hno => ?_,
    fun pre R post hl hpre hR => ⟨fun hg => ?_, fun hg => ?_⟩⟩
  · rw [adjustForOverlap_none (selectionRect s) _ hno]; rfl
  · have e : adjustForOverlap (selectionRect s).x1 (selectionRect s).y1 (selectionRect s).x2
        (selectionRect s).y2 s.screenRectangles = some (nudgedClear (selectionRect s) R) := by
      rw [hl, adjustForOverlap_skip _ pre _ hpre, adjustForOverlap_first _ R post hR, if_pos hg]
    rw [e]
    exact ⟨rfl, nudgedClear_clear (selectionRect s) R⟩
  · have e : adjustForOverlap (selectionRect s).x1 (selectionRect s).y1 (selectionRect s).x2
        (selectionRect s).y2 s.screenRectangles = none := by
      rw [hl, adjustForOverlap_skip _ pre _ hpre, adjustForOverlap_first _ R post hR,
        if_neg (not_le.mpr hg)]
    rw [e]
    exact ⟨rfl, hR⟩

/-- C29 (amended) for the drag (99,50)-(199,150) next to the region
(10,10,100,100): the overlap is 1 px on the right of the region, and the
rectangle is committed as (102,50,202,150). -/
theorem C29_overlap_adjustment_witness :
    (¬ (nearDragPending.screenshot_mode = true ∧ nearDragPending.screenshot_start_x ≠ -1) ∧
      ¬ (nearDragPending.drawing_active = true ∧ nearDragPending.drawing_start_x ≠ -1) ∧
      (nearDragPending.selection_mode = true ∧ nearDragPending.start_x ≠ -1) ∧
      5 ≤ (selectionRect nearDragPending).x2 - (selectionRect nearDragPending).x1 ∧
      5 ≤ (selectionRect nearDragPending).y2 - (selectionRect nearDragPending).y1) ∧
    (∃ s1 c, OverlayWndProc Platform.pc (.WM_LBUTTONUP Env.allOk) nearDragPending = some s1 ∧
      s1.screenRectangles = nearDragPending.screenRectangles ++ [c] ∧
      ((∀ r ∈ nearDragPending.screenRectangles,
          ¬ overlapsRegion (selectionRect nearDragPending) r) →
        c = selectionRect nearDragPending) ∧
      (∀ pre R post, nearDragPending.screenRectangles = pre ++ R :: post →
        (∀ r ∈ pre, ¬ overlapsRegion (selectionRect nearDragPending) r) →
        overlapsRegion (selectionRect nearDragPending) R →
        (smallestGap (selectionRect nearDragPending) R ≤ 2 →
          c = nudgedClear (selectionRect nearDragPending) R ∧
          c.x2 - c.x1 = (selectionRect nearDragPending).x2 - (selectionRect nearDragPending).x1 ∧
          c.y2 - c.y1 = (selectionRect nearDragPending).y2 - (selectionRect nearDragPending).y1 ∧
          ¬ overlapsRegion c R ∧
          (c.x2 = R.x1 - 2 ∨ c.x1 = R.x2 + 2 ∨ c.y2 = R.y1 - 2 ∨ c.y1 = R.y2 + 2)) ∧
        (2 < smallestGap (selectionRect nearDragPending) R →
          c = selectionRect nearDragPending ∧ overlapsRegion c R))) ∧
    overlapsRegion (selectionRect nearDragPending) ⟨10, 10, 100, 100⟩ ∧
    smallestGap (selectionRect nearDragPending) ⟨10, 10, 100, 100⟩ = 1 ∧
    nudgedClear (selectionRect nearDragPending) ⟨10, 10, 100, 100⟩ = ⟨102, 50, 202, 150⟩ :=
  ⟨⟨by decide, by decide, by decide, by decide, by decide⟩,
    C29_overlap_adjustment Platform.pc Env.allOk nearDragPending (by decide) (by decide)
      (by decide) (by decide),
    by decide, by decide, by decide⟩

/-! ## Overlay session: the snapshot and the region store -/

theorem Life.to_reach {pf : Platform} {inSession : Bool} {s : OverlayState}
    (h : Life pf inSession s) : Reach pf s := by
  induction h with
  | boot cb => exact Reach.boot cb
  | enter _ ha ih => exact Reach.enter ih ha
  | msg m _ hm ih => exact Reach.msg m ih hm
  | leave _ ha ih => exact Reach.leave ih ha
  | clipboard cb _ ih => exact Reach.clipboard cb ih

theorem onLButtonDown_snapshot (x y : Nat) (s : OverlayState) :
    (onLButtonDown x y s).hZoomedBitmap = s.hZoomedBitmap ∧
    (onLButtonDown x y s).zoom_active = s.zoom_active ∧
    (onLButtonDown x y s).screenRectangles = s.screenRectangles := by
  unfold onLButtonDown
  simp only
  split
  · exact ⟨rfl, rfl, rfl⟩
  · split
    · exact ⟨rfl, rfl, rfl⟩
    · split <;> exact ⟨rfl, rfl, rfl⟩

theorem onMouseMove_snapshot (x y : Nat) (s : OverlayState) :
    (onMouseMove x y s).hZoomedBitmap = s.hZoomedBitmap ∧
    (onMouseMove x y s).zoom_active = s.zoom_active ∧
    (onMouseMove x y s).screenRectangles = s.screenRectangles := by
  unfold onMouseMove
  simp only
  split
  · exact ⟨rfl, rfl, rfl⟩
  · split
    · exact ⟨rfl, rfl, rfl⟩
    · split <;> exact ⟨rfl, rfl, rfl⟩

theorem onMouseWheel_snapshot (pf : Platform) (delta : Int) (out : CaptureOutcome)
    (s : OverlayState) :
    (onMouseWheel pf delta out s = s) ∨
    ((onMouseWheel pf delta out s).hZoomedBitmap = s.hZoomedBitmap ∧
      (onMouseWheel pf delta out s).zoom_active = s.zoom_active ∧
      (onMouseWheel pf delta out s).screenRectangles = s.screenRectangles) ∨
    (s.zoom_active = false ∧ (onMouseWheel pf delta out s).zoom_active = true ∧
      (onMouseWheel pf delta out s).screenRectangles = s.screenRectangles ∧
      ∀ b, (onMouseWheel pf delta out s).hZoomedBitmap = some b →
        ∃ back, s.screenRectangles.getLast? = some back ∧ b = snapshotOf back) := by
  cases hl : s.screenRectangles.getLast? with
  | none => left; unfold onMouseWheel; rw [hl]
  | some back =>
    cases hd : s.drawing_active
    · cases hz : s.zoom_active
      · right; right
        rw [onMouseWheel_capture pf delta out s back hl hd hz]
        have ha := applyZoomChange_snapshot pf delta
          { CaptureZoomRegion pf out back s with zoom_active := true }
        have hf := applyZoomChange_frame pf delta
          { CaptureZoomRegion pf out back s with zoom_active := true }
        refine ⟨rfl, hf.2.2.2.1, hf.1.trans (CaptureZoomRegion_frame pf out back s).1, ?_⟩
        intro b hb
        rw [ha.1] at hb
        refine ⟨back, rfl, ?_⟩
        cases out <;> simp [CaptureZoomRegion] at hb <;> exact hb.symm
      · right; left
        have e : onMouseWheel pf delta out s = applyZoomChange pf delta s := by
          unfold onMouseWheel
          simp only [hl, hd, hz, Bool.false_eq_true, if_false, if_true]
        rw [e]
        exact ⟨(applyZoomChange_snapshot pf delta s).1,
          (applyZoomChange_frame pf delta s).2.2.2.1.trans hz,
          (applyZoomChange_frame pf delta s).1⟩
    · left; unfold onMouseWheel; simp only [hl, hd, if_true]

theorem onLButtonUp_snapshot {env : Env} {s s1 : OverlayState}
    (h : onLButtonUp env s = some s1) :
    s1.hZoomedBitmap = s.hZoomedBitmap ∧ s1.zoom_active = s.zoom_active ∧
    (s1.screenRectangles = s.screenRectangles ∨
      ∃ c, s1.screenRectangles = s.screenRectangles ++ [c]) := by
  unfold onLButtonUp at h
  split at h
  · simp only [Option.some.injEq] at h
    subst h
    split <;> exact ⟨rfl, rfl, Or.inl rfl⟩
  · split at h
    · simp only [Option.map_eq_some'] at h
      obtain ⟨valid, _, rfl⟩ := h
      split <;> exact ⟨rfl, rfl, Or.inl rfl⟩
    · split at h
      · simp only [Option.some.injEq] at h
        subst h
        simp only
        split
        · split
          · exact ⟨rfl, rfl, Or.inr ⟨_, rfl⟩⟩
          · exact ⟨rfl, rfl, Or.inr ⟨_, rfl⟩⟩
        · exact ⟨rfl, rfl, Or.inl rfl⟩
      · simp only [Option.some.injEq] at h
        subst h; exact ⟨rfl, rfl, Or.inl rfl⟩

theorem onEscape_snapshot (s : OverlayState) :
    (onEscape s).hZoomedBitmap = none ∨
    ((onEscape s).hZoomedBitmap = s.hZoomedBitmap ∧ (onEscape s).zoom_active = s.zoom_active ∧
      (onEscape s).screenRectangles = s.screenRectangles) := by
  unfold onEscape
  split
  · exact Or.inr ⟨rfl, rfl, rfl⟩
  · split
    · exact Or.inr ⟨rfl, rfl, rfl⟩
    · split
      · split
        · exact Or.inr ⟨rfl, rfl, rfl⟩
        · exact Or.inl rfl
      · exact Or.inr ⟨rfl, rfl, rfl⟩

theorem onUndo_snapshot (s : OverlayState) :
    (onUndo s).hZoomedBitmap = none ∨
    ((onUndo s).hZoomedBitmap = s.hZoomedBitmap ∧ (onUndo s).zoom_active = s.zoom_active ∧
      (onUndo s).screenRectangles = s.screenRectangles) ∨
    ((onUndo s).hZoomedBitmap = s.hZoomedBitmap ∧ s.zoom_active = false) := by
  unfold onUndo
  split
  · exact Or.inr (Or.inl ⟨rfl, rfl, rfl⟩)
  · split
    · simp only
      split
      · exact Or.inl rfl
      · rename_i hc
        refine Or.inr (Or.inr ⟨rfl, ?_⟩)
        cases hz : s.zoom_active
        · rfl
        · exact absurd (Or.inr hz) hc
    · exact Or.inr (Or.inl ⟨rfl, rfl, rfl⟩)

theorem onKeyDown_snapshot {env : Env} {wParam : Nat} {ctrl shift : Bool} {s s1 : OverlayState}
    (h : onKeyDown env wParam ctrl shift s = some s1) :
    s1.hZoomedBitmap = none ∨
    (s1.hZoomedBitmap = s.hZoomedBitmap ∧ s1.zoom_active = s.zoom_active ∧
      s1.screenRectangles = s.screenRectangles) ∨
    (s1.hZoomedBitmap = s.hZoomedBitmap ∧ s.zoom_active = false) := by
  unfold onKeyDown at h
  split at h
  · simp only [Option.some.injEq] at h
    subst h; exact Or.inr (Or.inl ⟨rfl, rfl, rfl⟩)
  · split at h
    · simp only [Option.some.injEq] at h
      subst h
      rcases onEscape_snapshot s with he | he
      · exact Or.inl he
      · exact Or.inr (Or.inl he)
    · split at h
      · simp only [Option.some.injEq] at h
        subst h; exact onUndo_snapshot s
      · split at h
        · simp only [Option.some.injEq] at h
          subst h; exact Or.inr (Or.inl ⟨rfl, rfl, rfl⟩)
        · split at h
          · simp only [Option.some.injEq] at h
            subst h; exact Or.inr (Or.inl ⟨rfl, rfl, rfl⟩)
          · split at h
            · split at h
              · rename_i tool hk
                cases hk
              · simp only [Option.map_eq_some'] at h
                obtain ⟨t, _, rfl⟩ := h
                exact Or.inr (Or.inl ⟨rfl, rfl, rfl⟩)
            · simp only [Option.some.injEq] at h
              subst h; exact Or.inr (Or.inl ⟨rfl, rfl, rfl⟩)

/-- What one message does to the snapshot, to `zoom_active` and to the region
store: the snapshot is released; or the three are unchanged; or a region is
appended and the other two are unchanged; or the snapshot is unchanged while
zoom was inactive; or zoom was inactive and the snapshot is taken anew from the
last region. -/
theorem OverlayWndProc_snapshot {pf : Platform} {m : Msg} {s s1 : OverlayState}
    (h : OverlayWndProc pf m s = some s1) :
    s1.hZoomedBitmap = none ∨
    (s1.hZoomedBitmap = s.hZoomedBitmap ∧ s1.zoom_active = s.zoom_active ∧
      s1.screenRectangles = s.screenRectangles) ∨
    (s1.hZoomedBitmap = s.hZoomedBitmap ∧ s1.zoom_active = s.zoom_active ∧
      ∃ c, s1.screenRectangles = s.screenRectangles ++ [c]) ∨
    (s1.hZoomedBitmap = s.hZoomedBitmap ∧ s.zoom_active = false) ∨
    (s.zoom_active = false ∧ s1.zoom_active = true ∧
      s1.screenRectangles = s.screenRectangles ∧
      ∀ b, s1.hZoomedBitmap = some b →
        ∃ back, s.screenRectangles.getLast? = some back ∧ b = snapshotOf back) := by
  cases m with
  | WM_LBUTTONDOWN x y =>
    simp only [OverlayWndProc, Option.some.injEq] at h
    subst h
    exact Or.inr (Or.inl (onLButtonDown_snapshot x y s))
  | WM_MOUSEMOVE x y =>
    simp only [OverlayWndProc, Option.some.injEq] at h
    subst h
    exact Or.inr (Or.inl (onMouseMove_snapshot x y s))
  | WM_MOUSEWHEEL delta out =>
    simp only [OverlayWndProc, Option.some.injEq] at h
    subst h
    rcases onMouseWheel_snapshot pf delta out s with he | he | he
    · rw [he]; exact Or.inr (Or.inl ⟨rfl, rfl, rfl⟩)
    · exact Or.inr (Or.inl he)
    · exact Or.inr (Or.inr (Or.inr (Or.inr he)))
  | WM_LBUTTONUP env =>
    simp only [OverlayWndProc] at h
    obtain ⟨h1, h2, h3 | h3⟩ := onLButtonUp_snapshot h
    · exact Or.inr (Or.inl ⟨h1, h2, h3⟩)
    · exact Or.inr (Or.inr (Or.inl ⟨h1, h2, h3⟩))
  | WM_KEYDOWN k =>
    simp only [OverlayWndProc] at h
    rcases onKeyDown_snapshot h with he | he | he
    · exact Or.inl he
    · exact Or.inr (Or.inl he)
    · exact Or.inr (Or.inr (Or.inr (Or.inl he)))
  | WM_DESTROY =>
    simp only [OverlayWndProc, Option.some.injEq] at h
    subst h
    exact Or.inr (Or.inl ⟨rfl, rfl, rfl⟩)

theorem OverlayWndProc_snapshotInStore {pf : Platform} {m : Msg} {s s1 : OverlayState}
    (h : OverlayWndProc pf m s = some s1) (hinv : SnapshotInStore s) : SnapshotInStore s1 := by
  intro b hb
  rcases OverlayWndProc_snapshot h with he | he | he | he | he
  · rw [he] at hb; cases hb
  · rw [he.1] at hb
    rw [he.2.1, he.2.2]
    exact hinv b hb
  · obtain ⟨h1, h2, c, h3⟩ := he
    rw [h1] at hb
    obtain ⟨hz, r, hr, hbr⟩ := hinv b hb
    rw [h2, h3]
    exact ⟨hz, r, List.mem_append_left _ hr, hbr⟩
  · rw [he.1] at hb
    have := (hinv b hb).1
    rw [he.2] at this
    cases this
  · obtain ⟨_, hz, hr, hcap⟩ := he
    obtain ⟨back, hback, hbb⟩ := hcap b hb
    rw [hr]
    exact ⟨hz, back, List.mem_of_mem_getLast? hback, hbb⟩

theorem OverlayWndProc_snapshotOfLast {pf : Platform} {m : Msg} {s s1 : OverlayState}
    (h : OverlayWndProc pf m s = some s1)
    (hact : ∀ b, s.hZoomedBitmap = some b → s.zoom_active = true)
    (hlast : SnapshotOfLast s)
    (hno : s1.screenRectangles.length ≤ s.screenRectangles.length) : SnapshotOfLast s1 := by
  intro b hb
  rcases OverlayWndProc_snapshot h with he | he | he | he | he
  · rw [he] at hb; cases hb
  · rw [he.1] at hb
    rw [he.2.2]
    exact hlast b hb
  · obtain ⟨_, _, c, h3⟩ := he
    rw [h3, List.length_append] at hno
    simp at hno
  · rw [he.1] at hb
    have := hact b hb
    rw [he.2] at this
    cases this
  · obtain ⟨_, _, hr, hcap⟩ := he
    rw [hr]
    exact hcap b hb

theorem Life.snapshotInStore {pf : Platform} {inSession : Bool} {s : OverlayState}
    (h : Life pf inSession s) :
    (inSession = false → s.hZoomedBitmap = none) ∧ SnapshotInStore s := by
  induction h with
  | boot cb => exact ⟨fun _ => rfl, fun b hb => by cases hb⟩
  | enter _ _ ih =>
    refine ⟨fun hc => (by cases hc), fun b hb => ?_⟩
    have : (ShowOverlay_enter _).hZoomedBitmap = none := ih.1 rfl
    rw [this] at hb; cases hb
  | msg m _ hm ih => exact ⟨fun hc => (by cases hc), OverlayWndProc_snapshotInStore hm ih.2⟩
  | leave _ _ _ => exact ⟨fun _ => rfl, fun b hb => by cases hb⟩
  | clipboard cb _ ih => exact ih

theorem OverlayWndProc_snapshot_activation {pf : Platform} {m : Msg} {s s1 : OverlayState}
    (h : OverlayWndProc pf m s = some s1) (hinv : SnapshotInStore s)
    (hz : s.zoom_active = false) (hz1 : s1.zoom_active = true) : SnapshotOfLast s1 := by
  intro b hb
  rcases OverlayWndProc_snapshot h with he | he | he | he | he
  · rw [he] at hb; cases hb
  · rw [he.2.1, hz] at hz1; cases hz1
  · rw [he.2.1, hz] at hz1; cases hz1
  · rw [he.1] at hb
    have := (hinv b hb).1
    rw [hz] at this
    cases this
  · obtain ⟨_, _, hr, hcap⟩ := he
    rw [hr]
    exact hcap b hb

theorem Life.after_run {pf : Platform} {s s1 : OverlayState} (ms : List Msg)
    (h : Life pf true s) (he : runMsgs pf ms s = some s1) : Life pf true s1 := by
  induction ms generalizing s with
  | nil =>
    simp only [Highlighter.runMsgs, Option.some.injEq] at he
    subst he; exact h
  | cons m ms ih =>
    simp only [Highlighter.runMsgs, Option.bind_eq_some] at he
    obtain ⟨s2, h2, h3⟩ := he
    exact ih (Life.msg m h h2) h3

theorem zoomedOneRegion_life :
    Life Platform.pc true (zoomedOneRegion CaptureOutcome.ok (9227469 / 8388608)) :=
  Life.msg (.WM_MOUSEWHEEL 120 CaptureOutcome.ok)
    (Life.after_run dragOneRegion (Life.enter (Life.boot Clipboard.empty) rfl) rfl)
    (congrArg some (onMouseWheel_first_up CaptureOutcome.ok))

/-- In every state of the sequential life cycle in which a snapshot is held,
zoom is active and the snapshot has the width and height of a rectangle of the
region store; it has those of the last rectangle in the state reached by the
event that activates zoom, and keeps having them under every event that does
not add a rectangle to the store. -/
theorem Life.snapshot_dimensions (pf : Platform) (inSession : Bool) (s : OverlayState)
    (h : Life pf inSession s) :
    (∀ b, s.hZoomedBitmap = some b →
      s.zoom_active = true ∧
      ∃ r ∈ s.screenRectangles, b.bmWidth = r.x2 - r.x1 ∧ b.bmHeight = r.y2 - r.y1) ∧
    (∀ m s1, OverlayWndProc pf m s = some s1 →
      (s.zoom_active = false → s1.zoom_active = true → SnapshotOfLast s1) ∧
      (SnapshotOfLast s → s1.screenRectangles.length ≤ s.screenRectangles.length →
        SnapshotOfLast s1)) := by
  have hinv := (Life.snapshotInStore h).2
  refine ⟨fun b hb => ?_, fun m s1 hm => ⟨fun hz hz1 => ?_, fun hl hno => ?_⟩⟩
  · obtain ⟨hz, r, hr, hbr⟩ := hinv b hb
    exact ⟨hz, r, hr, by rw [hbr]; exact ⟨rfl, rfl⟩⟩
  · exact OverlayWndProc_snapshot_activation hm hinv hz hz1
  · exact OverlayWndProc_snapshotOfLast hm (fun b hb => (hinv b hb).1) hl hno

/-- In every reachable state a held snapshot goes with an active zoom. -/
theorem Reach.snapshot_active {pf : Platform} {s : OverlayState} (h : Reach pf s) :
    ∀ b, s.hZoomedBitmap = some b → s.zoom_active = true := by
  induction h with
  | boot cb => intro b hb; cases hb
  | enter _ _ ih => exact ih
  | msg m _ hm ih =>
    intro b hb
    rcases OverlayWndProc_snapshot hm with he | he | he | he | he
    · rw [he] at hb; cases hb
    · rw [he.1] at hb; rw [he.2.1]; exact ih b hb
    · rw [he.1] at hb; rw [he.2.1]; exact ih b hb
    · rw [he.1] at hb
      have := ih b hb
      rw [he.2] at this
      cases this
    · exact he.2.1
  | leave _ _ _ => intro b hb; cases hb
  | clipboard cb _ ih => exact ih

/-- From a reachable state in which the snapshot has the size of the last
region, every event that does not add a region leads to such a state again. -/
theorem Reach.keeps_snapshotOfLast {pf : Platform} {m : Msg} {s s1 : OverlayState}
    (h : Reach pf s) (hm : OverlayWndProc pf m s = some s1) (hlast : SnapshotOfLast s)
    (hno : s1.screenRectangles.length ≤ s.screenRectangles.length) : SnapshotOfLast s1 :=
  OverlayWndProc_snapshotOfLast hm (Reach.snapshot_active h) hlast hno

theorem zoomedOneRegion_reach :
    SessionReach Platform.pc (zoomedOneRegion CaptureOutcome.ok (9227469 / 8388608)) :=
  SessionReach.msg (.WM_MOUSEWHEEL 120 CaptureOutcome.ok) (oneRegion_reach Platform.pc)
    (congrArg some (onMouseWheel_first_up CaptureOutcome.ok))

/-- C30 (code defect): with zoom active over the region (100,100,300,250), whose
200 x 150 snapshot the zoom layer stretches from a 200 x 150 source, a second
region (400,300,500,350) can be dragged. The commit neither captures again nor
tears zoom down: zoom stays active with the 200 x 150 snapshot of the first
region, while the last rectangle of the store is now 100 x 50, so the zoom
layer reads a 100 x 50 source from the snapshot of another region. The undo
path does tear zoom down when the last region changes under zoom, and every
event that adds no region keeps the snapshot in step with the last region. -/
theorem C30_commit_under_zoom_stale_snapshot :
    (SessionReach Platform.pc (zoomedOneRegion CaptureOutcome.ok (9227469 / 8388608)) ∧
      SnapshotOfLast (zoomedOneRegion CaptureOutcome.ok (9227469 / 8388608)) ∧
      zoomLayerSource (zoomedOneRegion CaptureOutcome.ok (9227469 / 8388608)) =
        some (⟨200, 150⟩, 200, 150)) ∧
    (runMsgs Platform.pc dragSecondRegion
        (zoomedOneRegion CaptureOutcome.ok (9227469 / 8388608)) = some zoomedThenSecondRegion ∧
      SessionReach Platform.pc zoomedThenSecondRegion ∧
      zoomedThenSecondRegion.zoom_active = true ∧
      zoomedThenSecondRegion.captureCalls = 1 ∧
      zoomedThenSecondRegion.hZoomedBitmap = some ⟨200, 150⟩ ∧
      zoomedThenSecondRegion.screenRectangles.getLast? = some ⟨400, 300, 500, 350⟩ ∧
      snapshotOf ⟨400, 300, 500, 350⟩ = ⟨100, 50⟩ ∧
      ¬ SnapshotOfLast zoomedThenSecondRegion ∧
      zoomLayerSource zoomedThenSecondRegion = some (⟨200, 150⟩, 100, 50)) ∧
    (∃ s1, OverlayWndProc Platform.pc (keyMsg KEY_Z true false) zoomedThenSecondRegion =
        some s1 ∧
      s1.screenRectangles = [⟨100, 100, 300, 250⟩] ∧ s1.zoom_active = false ∧
      s1.hZoomedBitmap = none ∧ zoomLayerSource s1 = none) ∧
    (∀ (pf : Platform) (m : Msg) (s s1 : OverlayState), Reach pf s →
      OverlayWndProc pf m s = some s1 → SnapshotOfLast s →
      s1.screenRectangles.length ≤ s.screenRectangles.length → SnapshotOfLast s1) :=
  ⟨⟨zoomedOneRegion_reach,
      fun _ hb => ⟨⟨100, 100, 300, 250⟩, rfl, (Option.some.inj hb).symm⟩, rfl⟩,
    ⟨rfl, SessionReach.after_session_msgs dragSecondRegion zoomedOneRegion_reach rfl,
      rfl, rfl, rfl, rfl, rfl,
      fun h => by
        obtain ⟨back, hback, hb⟩ := h ⟨200, 150⟩ rfl
        have e : back = ⟨400, 300, 500, 350⟩ := (Option.some.inj hback).symm
        rw [e] at hb
        exact absurd hb (by decide),
      rfl⟩,
    ⟨_, rfl, rfl, rfl, rfl, rfl⟩,
    fun _ _ _ _ h hm hl hno => Reach.keeps_snapshotOfLast h hm hl hno⟩

/-! ## Text rendering: the content walks and the caret walk -/

theorem getD_take (t : List Char) (c i : Nat) (h : i < c) :
    (t.take c).getD i NUL = t.getD i NUL := by
  simp only [List.getD_eq_getElem?_getD, List.getElem?_take, if_pos h]

theorem nextNewline_maxRun (t : List Char) (pos : Nat) (h : pos ≤ t.length) :
    MaxRunFwd notNL t pos (nextNewline t pos) :=
  scanFwd_maxRun notNL t pos h

theorem nextNewline_take (t : List Char) (c pos : Nat) (hc : c ≤ t.length) (hp : pos ≤ c) :
    nextNewline (t.take c) pos = min (nextNewline t pos) c := by
  have hlen : (t.take c).length = c := by simp [hc]
  have h1 := nextNewline_maxRun (t.take c) pos (by omega)
  obtain ⟨a1, a2, a3, a4⟩ := nextNewline_maxRun t pos (by omega)
  refine MaxRunFwd_unique h1 ⟨by omega, by omega, fun i hi hpi => ?_, ?_⟩
  · rw [getD_take t c i (by omega)]
    exact a3 i (by omega) hpi
  · by_cases hlt : nextNewline t pos < c
    · right
      rw [min_eq_left (by omega), getD_take t c _ hlt]
      rcases a4 with a4 | a4
      · omega
      · exact a4
    · left
      rw [min_eq_right (by omega), hlen]

theorem lineAt_take (t : List Char) (c pos : Nat) (hc : c ≤ t.length) (hp : pos ≤ c)
    (h : nextNewline t pos ≤ c) : lineAt (t.take c) pos = lineAt t pos := by
  unfold lineAt
  rw [nextNewline_take t c pos hc hp, min_eq_left h, List.drop_take, List.take_take,
    min_eq_left]
  have := (nextNewline_maxRun t pos (by omega)).1
  omega

theorem lineAt_take_end (t : List Char) (c pos : Nat) (hc : c ≤ t.length) (hp : pos ≤ c)
    (h : c ≤ nextNewline t pos) : lineAt (t.take c) pos = (t.take c).drop pos := by
  unfold lineAt
  rw [nextNewline_take t c pos hc hp, min_eq_right h]
  apply List.take_of_length_le
  simp [hc]

theorem caretLineStart_eq (t : List Char) (c pos : Nat) (hp : pos ≤ c) (hs : isLineStart t pos)
    (h : c ≤ nextNewline t pos) : caretLineStart t c = pos := by
  refine MaxRunBack_unique (scanBack_maxRun notNL t c) ⟨hp, fun i hi hpi => ?_, ?_⟩
  · exact scanFwd_all notNL t (t.length - pos) pos i hpi (by unfold nextNewline at h; omega)
  · rcases hs with hs | hs
    · exact Or.inl hs
    · exact Or.inr (notNL_of_eq hs)

theorem walks_agree (render : List Char → LineDraw × Int) (imgs : ImageTable) (t : List Char)
    (c : Nat) (hc : c ≤ t.length) (hnl : t.getD (c - 1) NUL ≠ NL)
    (hline : parseMarker (caretLinePrefix t c) = MarkerParse.noMarker)
    (hadv : ∀ q, q < caretLineStart t c → isLineStart t q →
      (render (lineAt t q)).2 = caretAdvance imgs (lineAt t q)) :
    ∀ (n fuelC fuelK pos : Nat) (y cy : Int), c - pos ≤ n → pos < c → isLineStart t pos →
      t.length - pos ≤ fuelC → c - pos ≤ fuelK →
      ∃ r ∈ contentLoop render t fuelC pos y, r.pos = caretLineStart t c ∧ r.pos ≤ c ∧
        c ≤ r.stop ∧ r.y = caretLoop imgs (t.take c) c fuelK pos y cy := by
  have hlen : (t.take c).length = c := by simp [hc]
  intro n
  induction n with
  | zero => intro fuelC fuelK pos y cy h0 hpc; omega
  | succ n ih =>
    intro fuelC fuelK pos y cy hn hpc hs hfC hfK
    obtain ⟨fC, rfl⟩ : ∃ fC, fuelC = fC + 1 := ⟨fuelC - 1, by omega⟩
    obtain ⟨fK, rfl⟩ : ∃ fK, fuelK = fK + 1 := ⟨fuelK - 1, by omega⟩
    obtain ⟨a1, a2, a3, a4⟩ := nextNewline_maxRun t pos (by omega)
    simp only [contentLoop, caretLoop]
    rw [if_pos (by omega : pos < t.length), if_pos (by omega : pos < (t.take c).length),
      nextNewline_take t c pos hc (by omega)]
    by_cases hlt : nextNewline t pos < c
    · have hNL : t.getD (nextNewline t pos) NUL = NL := by
        rcases a4 with a4 | a4
        · omega
        · exact notNL_eq_false a4
      have hsucc : nextNewline t pos + 1 < c := by
        by_contra hge
        have e : c - 1 = nextNewline t pos := by omega
        rw [e] at hnl
        exact hnl hNL
      have hL : nextNewline t pos < caretLineStart t c := by
        by_contra hge
        have := scanBack_all notNL t c (nextNewline t pos) (by unfold caretLineStart at hge; omega)
          hlt
        rw [notNL_of_eq hNL] at this
        cases this
      rw [min_eq_left (by omega), if_neg (by omega), lineAt_take t c pos hc (by omega) (by omega),
        ← hadv pos (by omega) hs]
      obtain ⟨r, hr, h1, h2, h3, h4⟩ := ih fC fK (nextNewline t pos + 1)
        (y + (render (lineAt t pos)).2) cy (by omega) hsucc (Or.inr (by simpa using hNL))
        (by omega) (by omega)
      exact ⟨r, List.mem_cons_of_mem _ hr, h1, h2, h3, h4⟩
    · have hL := caretLineStart_eq t c pos (by omega) hs (by omega)
      rw [min_eq_right (by omega), if_pos ⟨by omega, le_refl c⟩,
        lineAt_take_end t c pos hc (by omega) (by omega)]
      unfold caretLinePrefix at hline
      rw [hL] at hline
      unfold caretOnLine
      rw [hline]
      exact ⟨_, List.mem_cons_self _ _, hL.symm, (by show pos ≤ c; omega),
        (by show c ≤ nextNewline t pos; omega), rfl⟩

/-- Fuel of the content loop: once the bound covers the rest of the buffer, a
larger bound gives the same walk. -/
theorem contentLoop_fuel (render : List Char → LineDraw × Int) (t : List Char) :
    ∀ (fuel k pos : Nat) (y : Int), t.length - pos ≤ fuel →
      contentLoop render t (fuel + k) pos y = contentLoop render t fuel pos y := by
  intro fuel
  induction fuel with
  | zero =>
    intro k pos y h
    cases k with
    | zero => rfl
    | succ k =>
      simp only [Nat.zero_add, contentLoop]
      rw [if_neg (by omega)]
  | succ fuel ih =>
    intro k pos y h
    rw [show fuel + 1 + k = (fuel + k) + 1 by omega]
    simp only [contentLoop]
    split
    · have := scanFwd_ge notNL t (t.length - pos) pos
      rw [ih k (nextNewline t pos + 1) _ (by unfold nextNewline; omega)]
    · rfl

/-- Fuel of the caret loop: once the bound covers the rest of the cut buffer, a
larger bound gives the same `cursorY`. -/
theorem caretLoop_fuel (imgs : ImageTable) (p : List Char) (target : Nat) :
    ∀ (fuel k pos : Nat) (y cy : Int), p.length - pos ≤ fuel →
      caretLoop imgs p target (fuel + k) pos y cy = caretLoop imgs p target fuel pos y cy := by
  intro fuel
  induction fuel with
  | zero =>
    intro k pos y cy h
    cases k with
    | zero => rfl
    | succ k =>
      simp only [Nat.zero_add, caretLoop]
      rw [if_neg (by omega)]
  | succ fuel ih =>
    intro k pos y cy h
    rw [show fuel + 1 + k = (fuel + k) + 1 by omega]
    simp only [caretLoop]
    split
    · split
      · rfl
      · have := scanFwd_ge notNL p (p.length - pos) pos
        rw [ih k (nextNewline p pos + 1) _ _ (by unfold nextNewline; omega)]
    · rfl

theorem renderLineZoom_advance (imgs : ImageTable) (currentLine : List Char)
    (h : markerImageMissing imgs currentLine = false) :
    (renderLineZoom imgs currentLine).2 = caretAdvance imgs currentLine := by
  unfold markerImageMissing at h
  unfold renderLineZoom caretAdvance
  cases hp : parseMarker currentLine with
  | noMarker => simp only; split <;> rfl
  | unterminated => rfl
  | badIndex => rfl
  | index imageIndex =>
    rw [hp] at h
    simp only at h ⊢
    cases hl : lookupImage imgs imageIndex with
    | found bm => rfl
    | absent => rw [hl] at h; cases h
    | unreadable => rw [hl] at h; cases h

theorem renderLinePlain_advance (imgs : ImageTable) (currentLine : List Char)
    (h : markerImageFound imgs currentLine = false) :
    (renderLinePlain currentLine).2 = caretAdvance imgs currentLine := by
  unfold markerImageFound at h
  unfold renderLinePlain caretAdvance
  cases hp : parseMarker currentLine with
  | noMarker => rfl
  | unterminated => rfl
  | badIndex => rfl
  | index imageIndex =>
    rw [hp] at h
    simp only at h ⊢
    cases hl : lookupImage imgs imageIndex with
    | found bm => rw [hl] at h; cases h
    | absent => rfl
    | unreadable => rfl

theorem renderLineZoom_missing (imgs : ImageTable) (currentLine : List Char)
    (h : markerImageMissing imgs currentLine = true) :
    renderLineZoom imgs currentLine = (LineDraw.nothing, 0) ∧
    caretAdvance imgs currentLine = 20 := by
  unfold markerImageMissing at h
  unfold renderLineZoom caretAdvance
  cases hp : parseMarker currentLine with
  | noMarker => rw [hp] at h; cases h
  | unterminated => rw [hp] at h; cases h
  | badIndex => rw [hp] at h; cases h
  | index imageIndex =>
    rw [hp] at h
    simp only at h ⊢
    cases hl : lookupImage imgs imageIndex with
    | found bm => rw [hl] at h; cases h
    | absent => exact ⟨rfl, rfl⟩
    | unreadable => exact ⟨rfl, rfl⟩

theorem lookupImage_out_of_range (imgs : ImageTable) (imageIndex : Int)
    (h : imageIndex < 0 ∨ (imgs.clipboard_images.length : Int) ≤ imageIndex) :
    lookupImage imgs imageIndex = ImageLookup.absent := by
  unfold lookupImage
  rw [if_neg (by omega)]

theorem content_walk_caret (render : List Char → LineDraw × Int) (imgs : ImageTable)
    (t : List Char) (c : Nat) (startY : Int) (hc : c ≤ t.length) (ht : t ≠ [])
    (hnl : 0 < c → t.getD (c - 1) NUL ≠ NL)
    (hline : 0 < c → parseMarker (caretLinePrefix t c) = MarkerParse.noMarker)
    (hadv : ∀ q, q < caretLineStart t c → isLineStart t q →
      (render (lineAt t q)).2 = caretAdvance imgs (lineAt t q)) :
    ∃ r ∈ contentLoop render t t.length 0 startY, r.pos = caretLineStart t c ∧ r.pos ≤ c ∧
      c ≤ r.stop ∧ r.y = caretY imgs t (c : Int) startY := by
  have hpos : 0 < t.length := List.length_pos.mpr ht
  rcases Nat.eq_zero_or_pos c with h0 | h0
  · subst h0
    obtain ⟨f, hf⟩ : ∃ f, t.length = f + 1 := ⟨t.length - 1, by omega⟩
    rw [hf]
    simp only [contentLoop]
    rw [if_pos (by omega)]
    refine ⟨_, List.mem_cons_self _ _, rfl, le_refl 0, Nat.zero_le _, ?_⟩
    unfold caretY
    rw [if_neg (by simp)]
  · have hlen : (t.take c).length = c := by simp [hc]
    have := walks_agree render imgs t c hc (hnl h0) (hline h0) hadv c t.length c 0 startY
      startY (by omega) h0 (Or.inl rfl) (by omega) (by omega)
    unfold caretY
    rw [if_pos (by omega)]
    simp only [Int.toNat_ofNat, hlen]
    exact this

/-- C26 as stated fails, with the first line at `startY = 0`. (1) Buffer
"a", newline, "b" and the caret at offset 2, right after the newline: both
content walks draw the line that starts at offset 2 at 20, the caret walk leaves
the caret at 0. (2) Zoom box, marker of the missing image 5 on the first line,
caret at the end of the second line: the content walk draws that line at 0, the
caret walk puts the caret at 20. (3) Box without zoom, marker of the stored
image 0 (100 high) on the first line: the content walk draws the second line
at 20, the caret walk puts the caret at 105. (4) Zoom box, caret at the end of
the line of marker 0: the line (the image) is drawn at 0, the caret at 105. -/
theorem C26_counterexample :
    (drawTextSimple noImages "a\nb".toList 0 =
        [⟨0, 1, 0, .text "a".toList⟩, ⟨2, 3, 20, .text "b".toList⟩] ∧
      drawTextNoZoom "a\nb".toList 0 =
        [⟨0, 1, 0, .text "a".toList⟩, ⟨2, 3, 20, .text "b".toList⟩] ∧
      caretY noImages "a\nb".toList 2 0 = 0) ∧
    (drawTextSimple noImages "[IMAGE_5]\nab".toList 0 =
        [⟨0, 9, 0, .nothing⟩, ⟨10, 12, 0, .text "ab".toList⟩] ∧
      caretY noImages "[IMAGE_5]\nab".toList 12 0 = 20) ∧
    (drawTextNoZoom "[IMAGE_0]\nab".toList 0 =
        [⟨0, 9, 0, .text "[IMAGE_0]".toList⟩, ⟨10, 12, 20, .text "ab".toList⟩] ∧
      caretY oneImage "[IMAGE_0]\nab".toList 12 0 = 105) ∧
    (drawTextSimple oneImage "[IMAGE_0]".toList 0 = [⟨0, 9, 0, .image 0 ⟨50, 100⟩⟩] ∧
      caretY oneImage "[IMAGE_0]".toList 9 0 = 105) := by
  decide

/-- C26 (amended): for every non-empty buffer, image table and caret offset `c`
in `[0, len]` such that the caret is not right after a newline and the part of
its line before it holds no `[IMAGE_`: the caret walk computes the vertical
position at which the content walk handles the line containing offset `c`, in
the zoom text box provided no earlier line holds a marker whose image is
missing, and in the text box without zoom provided no earlier line holds a
marker whose image is found. On such lines the walks advance alike; on a line
with a missing image the zoom content walk advances by 0 and the caret walk by
20. -/
theorem C26_caret_walk_agrees (imgs : ImageTable) (t : List Char) (c : Nat) (startY : Int)
    (hc : c ≤ t.length) (ht : t ≠ [])
    (hnl : 0 < c → t.getD (c - 1) NUL ≠ NL)
    (hline : 0 < c → parseMarker (caretLinePrefix t c) = MarkerParse.noMarker) :
    ((∀ q, q < caretLineStart t c → isLineStart t q →
        markerImageMissing imgs (lineAt t q) = false) →
      ∃ r ∈ drawTextSimple imgs t startY, r.pos = caretLineStart t c ∧ r.pos ≤ c ∧
        c ≤ r.stop ∧ r.y = caretY imgs t (c : Int) startY) ∧
    ((∀ q, q < caretLineStart t c → isLineStart t q →
        markerImageFound imgs (lineAt t q) = false) →
      ∃ r ∈ drawTextNoZoom t startY, r.pos = caretLineStart t c ∧ r.pos ≤ c ∧
        c ≤ r.stop ∧ r.y = caretY imgs t (c : Int) startY) ∧
    (∀ currentLine, markerImageMissing imgs currentLine = false →
      (renderLineZoom imgs currentLine).2 = caretAdvance imgs currentLine) ∧
    (∀ currentLine, markerImageFound imgs currentLine = false →
      (renderLinePlain currentLine).2 = caretAdvance imgs currentLine) := by
  refine ⟨fun h => ?_, fun h => ?_, renderLineZoom_advance imgs, renderLinePlain_advance imgs⟩
  · have e : drawTextSimple imgs t startY =
        contentLoop (renderLineZoom imgs) t t.length 0 startY := by
      unfold drawTextSimple
      rw [if_neg (by simpa using ht)]
    rw [e]
    exact content_walk_caret (renderLineZoom imgs) imgs t c startY hc ht hnl hline
      fun q hq hs => renderLineZoom_advance imgs _ (h q hq hs)
  · exact content_walk_caret renderLinePlain imgs t c startY hc ht hnl hline
      fun q hq hs => renderLinePlain_advance imgs _ (h q hq hs)

/-- C26 (amended) for the buffer "ab", newline, "cd" with the caret at offset 4
and the first line at 30: the caret line starts at offset 3. -/
theorem C26_caret_walk_agrees_witness :
    (4 ≤ "ab\ncd".toList.length ∧ "ab\ncd".toList ≠ [] ∧
      "ab\ncd".toList.getD (4 - 1) NUL ≠ NL ∧
      parseMarker (caretLinePrefix "ab\ncd".toList 4) = MarkerParse.noMarker ∧
      caretLineStart "ab\ncd".toList 4 = 3 ∧ caretY noImages "ab\ncd".toList 4 30 = 50) ∧
    (((∀ q, q < caretLineStart "ab\ncd".toList 4 → isLineStart "ab\ncd".toList q →
        markerImageMissing noImages (lineAt "ab\ncd".toList q) = false) →
      ∃ r ∈ drawTextSimple noImages "ab\ncd".toList 30,
        r.pos = caretLineStart "ab\ncd".toList 4 ∧ r.pos ≤ 4 ∧
        4 ≤ r.stop ∧ r.y = caretY noImages "ab\ncd".toList ((4 : Nat) : Int) 30) ∧
    ((∀ q, q < caretLineStart "ab\ncd".toList 4 → isLineStart "ab\ncd".toList q →
        markerImageFound noImages (lineAt "ab\ncd".toList q) = false) →
      ∃ r ∈ drawTextNoZoom "ab\ncd".toList 30,
        r.pos = caretLineStart "ab\ncd".toList 4 ∧ r.pos ≤ 4 ∧
        4 ≤ r.stop ∧ r.y = caretY noImages "ab\ncd".toList ((4 : Nat) : Int) 30) ∧
    (∀ currentLine, markerImageMissing noImages currentLine = false →
      (renderLineZoom noImages currentLine).2 = caretAdvance noImages currentLine) ∧
    (∀ currentLine, markerImageFound noImages currentLine = false →
      (renderLinePlain currentLine).2 = caretAdvance noImages currentLine)) :=
  ⟨by decide,
    C26_caret_walk_agrees noImages "ab\ncd".toList 4 30 (by decide) (by decide)
      (fun _ => by decide) (fun _ => by decide)⟩

/-- C27 (code defect): on a line whose marker index parses and is out of range
of the image list (or whose image is not readable), the content walk of the
zoom text box draws nothing and leaves `currentY` where it is: the advance is
0, not the line height 20 that the caret walk and the other fallbacks of the
same walk use. With no image stored, the line after the marker of image 5 is
drawn at the same height as the marker line. The walk does not write the
buffer. -/
theorem C27_missing_image_line_not_advanced :
    (∀ (imgs : ImageTable) (currentLine : List Char) (imageIndex : Int),
      parseMarker currentLine = MarkerParse.index imageIndex →
      imageIndex < 0 ∨ (imgs.clipboard_images.length : Int) ≤ imageIndex →
      renderLineZoom imgs currentLine = (LineDraw.nothing, 0) ∧
      caretAdvance imgs currentLine = 20) ∧
    parseMarker "[IMAGE_5]".toList = MarkerParse.index 5 ∧
    renderLineZoom noImages "[IMAGE_5]".toList = (LineDraw.nothing, 0) ∧
    renderLineZoom noImages "[IMAGE_x]".toList = (LineDraw.nothing, 20) ∧
    renderLineZoom noImages "[IMAGE_5".toList = (LineDraw.nothing, 20) ∧
    drawTextSimple noImages "[IMAGE_5]\nabc".toList 0 =
      [⟨0, 9, 0, .nothing⟩, ⟨10, 13, 0, .text "abc".toList⟩] ∧
    caretY noImages "[IMAGE_5]\nabc".toList 13 0 = 20 := by
  refine ⟨fun imgs currentLine imageIndex hp hr => ?_, by decide, by decide, by decide,
    by decide, by decide, by decide⟩
  apply renderLineZoom_missing
  unfold markerImageMissing
  rw [hp]
  simp only
  rw [lookupImage_out_of_range imgs imageIndex hr]

end Highlighter
